import Mathlib

/-!
# BZFlag client link: reliable / unreliable message transport

A shallow embedding of `ServerLink` (src/bzflag/ServerLink.cxx, ServerLink.h):
the constructor with its handshake, the frame builder `send`, the reliable
receive buffer (`fillTcpReadBuffer`, `tcpPacketIn`), the dispatcher `read`,
the datagram link (`sendUDPlinkRequest`, `enableOutboundUDP`,
`confirmIncomingUDP`) and the destructor.

Conventions of the embedding
* a `char` is a `Byte` (`Fin 256`); a `uint16_t` is a `Nat` below `65536`;
  an `int` is an `Int` (the cursors stay far below `2^31`);
* an array (`tbuf`, `ubuf`, `msgbuf`, the caller's `msg`) is a `List Byte`,
  a pointer into it is an offset;
* the operating system is a `World`: queues holding the outcome of the next
  `select`, `recv` and `recvfrom` call, and a trace of every system call made.
-/

namespace BZFlag

/-! ## Bytes and buffers -/

/-- One `char` of a buffer. -/
abbrev Byte := Fin 256

/-- The low eight bits of `n` as a byte. -/
def byteOf (n : Nat) : Byte := ⟨n % 256, Nat.mod_lt n (by decide)⟩

/-- Bytes `[off, off + n)` of `mem`: the source operand of a `memcpy`. -/
def readAt (mem : List Byte) (off n : Nat) : List Byte :=
  (mem.drop off).take n

/-- Store `data` at offset `off` of `mem` (`memcpy`, `memmove`, `recv` into a
buffer): the bytes before `off` and after `off + data.length` are kept.  A
store that runs past the end of `mem` makes the list longer: the bytes land
behind the array. -/
def writeAt (mem : List Byte) (off : Nat) (data : List Byte) : List Byte :=
  mem.take off ++ data ++ mem.drop (off + data.length)

/-! ## Constants declared outside the translated sources -/

/-- Constants of Protocol.h and global.h, which are not part of the translated
sources; they are parameters of the development. -/
structure Protocol where
  /-- Ceiling on a frame, header included. -/
  MaxPacketLen : Nat
  MsgNull : Nat
  MsgShotBegin : Nat
  MsgShotEnd : Nat
  MsgPlayerUpdate : Nat
  MsgPlayerUpdateSmall : Nat
  MsgGMUpdate : Nat
  MsgUDPLinkRequest : Nat
  MsgUDPLinkEstablished : Nat
  /-- The string `getServerVersion()` returns (without the final NUL). -/
  serverVersion : List Byte
  /-- The string `BanRefusalString` (without the final NUL). -/
  BanRefusalString : List Byte
  /-- The string `BZ_CONNECT_HEADER` (without the final NUL). -/
  BZ_CONNECT_HEADER : List Byte
deriving DecidableEq, Repr

/-- The values the constants have in the BZFlag release the sources belong to
(`MaxPacketLen = 1024`, two-letter message codes, version `BZFS0221`,
refusal token `REFUSED:`, connect header `BZFLAG` followed by two CR LF). -/
def bzflagProtocol : Protocol where
  MaxPacketLen := 1024
  MsgNull := 0x0000
  MsgShotBegin := 0x7362
  MsgShotEnd := 0x7365
  MsgPlayerUpdate := 0x7075
  MsgPlayerUpdateSmall := 0x7073
  MsgGMUpdate := 0x676d
  MsgUDPLinkRequest := 0x6f66
  MsgUDPLinkEstablished := 0x6f67
  serverVersion := [66, 90, 70, 83, 48, 50, 50, 49]
  BanRefusalString := [82, 69, 70, 85, 83, 69, 68, 58]
  BZ_CONNECT_HEADER := [66, 90, 70, 76, 65, 71, 13, 10, 13, 10]

/-! ## Wire codec (Pack.h) -/

/-- Modelled from the spec: `nboPackUShort` of Pack.h, which is not among the
sources. The spec's Wire Codec encodes a `uint16` "in a single fixed network
byte order": the high byte first, then the low byte. Returns the buffer and
the advanced pointer. -/
def nboPackUShort (mem : List Byte) (buf : Nat) (v : Nat) : List Byte × Nat :=
  (writeAt mem buf [byteOf (v / 256), byteOf v], buf + 2)

/-- Modelled from the spec: `nboUnpackUShort` of Pack.h, which is not among the
sources: decodes the two bytes at `buf` in network byte order. Returns the
value and the advanced pointer. -/
def nboUnpackUShort (mem : List Byte) (buf : Nat) : Nat × Nat :=
  ((mem.getD buf 0).val * 256 + (mem.getD (buf + 1) 0).val, buf + 2)

/-- Modelled from the spec: `nboPackString` of Pack.h, which is not among the
sources: copies a raw block of `len` bytes unchanged. Returns the buffer and
the advanced pointer. -/
def nboPackString (mem : List Byte) (buf : Nat) (msg : List Byte) (len : Nat) :
    List Byte × Nat :=
  (writeAt mem buf (msg.take len), buf + len)

/-! ## The link object -/

/-- The enumeration `ServerLink::State`. -/
inductive State where
  | Okay
  | SocketError
  | Rejected
  | BadVersion
  | Hungup
  | CrippledVersion
  | Refused
deriving DecidableEq, Repr

/-- The data members of `ServerLink` (ServerLink.h, lines 102-123). Socket
addresses are kept as opaque numbers. -/
structure ServerLink where
  state : State
  fd : Int
  usendaddr : Nat
  urecvfd : Int
  urecvaddr : Nat
  ulinkup : Bool
  id : Nat
  version : List Byte
  server_abilities : Nat
  rejectionMessage : List Byte
  udpLength : Int
  udpBufferPtr : Nat
  ubuf : List Byte
  tcpBufferPos : Int
  tcpBufferConsumed : Int
  tbuf : List Byte
deriving DecidableEq, Repr

/-- The value of `sizeof(tbuf)`: `tbuf` is declared `char tbuf[MaxPacketLen * 4]`. -/
def sizeofTbuf (P : Protocol) : Int := (P.MaxPacketLen : Int) * 4

/-! ## The operating system -/

/-- Error numbers `fillTcpReadBuffer` tells apart. -/
inductive Errno where
  | EAGAIN
  | EWOULDBLOCK
  | other
deriving DecidableEq, Repr

/-- What the stream socket holds for one `recv`: bytes that have arrived (an
empty list is the end of the stream: `recv` returns 0) or a failure. -/
inductive RecvOutcome where
  | data (bytes : List Byte)
  | error (e : Errno)
deriving DecidableEq, Repr

/-- Every system call the link makes, with its arguments. -/
inductive Syscall where
  | select (fd : Int)
  | recv (fd : Int) (size : Nat)
  | recvfrom (fd : Int) (size : Nat)
  | send (fd : Int) (bytes : List Byte)
  | sendto (fd : Int) (bytes : List Byte) (addr : Nat)
deriving DecidableEq, Repr

/-- The environment of a link: what the next calls of `select`, `recv` and
`recvfrom` will find, and the system calls made so far (oldest first). -/
structure World where
  selects : List Int
  tcpIn : List RecvOutcome
  udpIn : List (List Byte)
  trace : List Syscall
deriving DecidableEq, Repr

/-- One `select` on `fd`: the next queued result (`nfound`), or 1 when
nothing is queued. -/
def World.select (W : World) (fd : Int) : Int × World :=
  match W.selects with
  | [] => (1, { W with trace := W.trace ++ [Syscall.select fd] })
  | r :: rs => (r, { W with selects := rs, trace := W.trace ++ [Syscall.select fd] })

/-- One `recv(fd, _, size, 0)`: with nothing queued the call would block
(`EAGAIN`); a queued failure is reported; of queued bytes at most `size` are
handed over and the rest stays queued for the next call. -/
def World.recv (W : World) (fd : Int) (size : Nat) : RecvOutcome × World :=
  match W.tcpIn with
  | [] => (RecvOutcome.error Errno.EAGAIN, { W with trace := W.trace ++ [Syscall.recv fd size] })
  | RecvOutcome.error e :: rest =>
      (RecvOutcome.error e, { W with tcpIn := rest, trace := W.trace ++ [Syscall.recv fd size] })
  | RecvOutcome.data bytes :: rest =>
      if bytes.length ≤ size then
        (RecvOutcome.data bytes,
          { W with tcpIn := rest, trace := W.trace ++ [Syscall.recv fd size] })
      else
        (RecvOutcome.data (bytes.take size),
          { W with tcpIn := RecvOutcome.data (bytes.drop size) :: rest,
                   trace := W.trace ++ [Syscall.recv fd size] })

/-- One `recvfrom(fd, _, size, ...)` on the datagram socket: the next queued
datagram cut to `size` bytes, with its length `n`; with nothing queued
`n = -1`. -/
def World.recvfrom (W : World) (fd : Int) (size : Nat) : Int × List Byte × World :=
  match W.udpIn with
  | [] => (-1, [], { W with trace := W.trace ++ [Syscall.recvfrom fd size] })
  | d :: rest =>
      (((d.take size).length : Int), d.take size,
        { W with udpIn := rest, trace := W.trace ++ [Syscall.recvfrom fd size] })

/-! ## Construction: the handshake (ServerLink.cxx, lines 89-361) -/

/-- The C string held in a `char` array: the bytes before the first NUL. -/
def cstr (mem : List Byte) : List Byte := mem.takeWhile (fun b => b ≠ 0)

/-- One round of the loop that waits for the version (lines 235-271): the
result of `select`, what `recv(query, version, 8, 0)` finds, and the time
elapsed since `thisStartTime` at the moment the round compares it with the
timeout. Times are counted in milliseconds. -/
structure VersionRound where
  nfound : Int
  recv : RecvOutcome
  elapsed : Int
deriving DecidableEq, Repr

/-- What the operating system and the configuration answer during the
construction of a link (the branch compiled when `_WIN32` is not defined). -/
structure ConnectEnv where
  /-- Result of `socket(AF_INET, SOCK_STREAM, 0)`. -/
  socket : Int
  /-- Result of the first `BzfNetwork::setNonBlocking(query)`. -/
  setNonBlocking : Int
  /-- Result of `connect`. -/
  connect : Int
  /-- Whether `getErrno()` is `EINPROGRESS` after a failed `connect`. -/
  inProgress : Bool
  /-- Result of the `select` that waits for the connection. -/
  connectSelect : Int
  /-- Result of `getsockopt(query, SOL_SOCKET, SO_ERROR, ...)`. -/
  getsockopt : Int
  /-- The pending socket error `getsockopt` stores. -/
  connectError : Int
  /-- The `BZDB` entry `connectionTimeout`, in milliseconds, when it is set. -/
  connectionTimeout : Option Int
  /-- The rounds of the version wait, in order. -/
  versionWait : List VersionRound
  /-- Result of the second `BzfNetwork::setNonBlocking(query)`. -/
  setNonBlocking2 : Int
  /-- What `recv(query, message, 512, 0)` finds after a refusal. -/
  refusal : RecvOutcome
  /-- Result of the `select` that waits for the player id. -/
  idSelect : Int
  /-- What `recv(query, &id, sizeof(id), 0)` finds. -/
  idRecv : RecvOutcome
deriving DecidableEq, Repr

/-- The member initialisers and the first statements of the constructor
(lines 89-117, ServerLink.h lines 102-123). `raw` is the storage the object
is built in: members without an initialiser (`id`, the two addresses) keep
what it holds. -/
def ServerLink.initial (P : Protocol) (raw : ServerLink) : ServerLink :=
  { raw with
    state := State.SocketError
    fd := -1
    udpLength := 0
    udpBufferPtr := 0
    ubuf := List.replicate P.MaxPacketLen 0
    tcpBufferPos := 0
    tcpBufferConsumed := 0
    tbuf := List.replicate (P.MaxPacketLen * 4) 0
    rejectionMessage := []
    server_abilities := 0
    urecvfd := -1
    ulinkup := false
    -- strcpy(version, "BZFS0000")
    version := [66, 90, 70, 83, 48, 48, 48, 48, 0] }

/-- Outcome of the version wait. -/
inductive VersionWait where
  /-- The rounds supplied are used up and the loop is still running. -/
  | waiting
  /-- The constructor has returned from inside the loop. -/
  | failed
  /-- A `recv` returned `i > 0` bytes, stored in `version`. -/
  | got (i : Int) (version : List Byte)
deriving DecidableEq, Repr

/-- The loop `while (!gotNetData)` of the constructor (lines 235-271). -/
def versionWait (connectTimeout : Int) (version : List Byte) :
    List VersionRound → VersionWait
  | [] => VersionWait.waiting
  | r :: rest =>
      -- there has to be at least one socket active, or we are screwed
      if r.nfound ≤ 0 then VersionWait.failed else
      -- try and get data back from the server
      match r.recv with
      | RecvOutcome.data bytes =>
          let bytes := bytes.take 8
          -- if we got some, then we are done
          if (bytes.length : Int) > 0 then
            VersionWait.got bytes.length (writeAt version 0 bytes)
          else if r.elapsed > connectTimeout then VersionWait.failed
          else versionWait connectTimeout version rest
      | RecvOutcome.error _ =>
          -- if we have waited too long, then bail
          if r.elapsed > connectTimeout then VersionWait.failed
          else versionWait connectTimeout version rest

/-- The constructor `ServerLink::ServerLink(serverAddress, port)`, in the
branch compiled when `_WIN32` is not defined. `addr` stands for the socket
address built from `serverAddress` and `port`. `none`: the version wait is
still running after the rounds of `E.versionWait`. The connect header sent
and the `close` calls act on the socket only and leave no mark on the
object. -/
def ServerLink.construct (P : Protocol) (raw : ServerLink) (addr : Nat) (E : ConnectEnv) :
    Option ServerLink :=
  let L := ServerLink.initial P raw
  let query := E.socket
  if query < 0 then some L else
  -- for UDP, used later
  let L := { L with usendaddr := addr }
  if E.setNonBlocking < 0 then some L else
  if E.connect < 0 ∧
      (E.inProgress = false ∨ E.connectSelect ≤ 0 ∨ E.getsockopt < 0 ∨ E.connectError ≠ 0) then
    some L
  else
  -- pick some limit to time out on
  let connectTimeout : Int :=
    match E.connectionTimeout with
    | some t => t
    | none => 30000
  match versionWait connectTimeout L.version E.versionWait with
  | VersionWait.waiting => none
  | VersionWait.failed => some L
  | VersionWait.got i version =>
    let L := { L with version := version }
    -- if we got back less than the expected connect response (BZFSXXXX)
    -- then something went bad, and we are done.
    if i < 8 then some L else
    if E.setNonBlocking2 < 0 then some L else
    -- FIXME is it ok to try UDP always?
    let L := { L with server_abilities := L.server_abilities ||| 1 }
    if cstr L.version ≠ cstr P.serverVersion then
      let L := { L with state := State.BadVersion }
      if cstr L.version = cstr P.BanRefusalString then
        let message : List Byte :=
          match E.refusal with
          | RecvOutcome.data bytes =>
              let bytes := bytes.take 512
              -- if (len > 0) message[len - 1] = 0; else message[0] = 0;
              cstr (bytes.take (bytes.length - 1))
          | RecvOutcome.error _ => []
        some { L with state := State.Refused, rejectionMessage := message }
      else some L
    else
    -- read local player's id
    if E.idSelect ≤ 0 then some L else
    match E.idRecv with
    | RecvOutcome.error _ => some L
    | RecvOutcome.data bytes =>
      match bytes.take 1 with
      | [] => some L
      | b :: _ =>
        let L := { L with id := b.val }
        if L.id = 0xff then some { L with state := State.Rejected } else
        some { L with fd := query, state := State.Okay }

/-- The accessor `ServerLink::getState`. -/
def ServerLink.getState (L : ServerLink) : State := L.state

/-- The accessor `ServerLink::getSocket`. -/
def ServerLink.getSocket (L : ServerLink) : Int := L.fd

/-- The accessor `ServerLink::getId`. -/
def ServerLink.getId (L : ServerLink) : Nat := L.id

/-- The accessor `ServerLink::getRejectionMessage`. -/
def ServerLink.getRejectionMessage (L : ServerLink) : List Byte := L.rejectionMessage

/-! ## Sending (ServerLink.cxx, lines 412-471) -/

/-- The frame building of `ServerLink::send` (lines 419-423). `msgbuf` is the
content of the uninitialised local array `char msgbuf[MaxPacketLen]` on
entry, `msg` the caller's payload pointer (`none` is `NULL`). Returns the
array and the pointer `buf` behind the last byte written. -/
def packFrame (msgbuf : List Byte) (code len : Nat) (msg : Option (List Byte)) :
    List Byte × Nat :=
  let (msgbuf, buf) := nboPackUShort msgbuf 0 len
  let (msgbuf, buf) := nboPackUShort msgbuf buf code
  match msg with
  | some m => if len ≠ 0 then nboPackString msgbuf buf m len else (msgbuf, buf)
  | none => (msgbuf, buf)

/-- The method `ServerLink::send`. `msg` is the caller's payload pointer
(`none` is `NULL`); `msgbuf` is the content of the uninitialised local array
`char msgbuf[MaxPacketLen]` on entry. The `TESTLINK` drop test, the
Winsock-only error handling and the statistics counters are compiled out. -/
def send (P : Protocol) (L : ServerLink) (W : World) (code len : Nat)
    (msg : Option (List Byte)) (msgbuf : List Byte) : ServerLink × World :=
  if L.state ≠ State.Okay then (L, W) else
  let (msgbuf, buf) := packFrame msgbuf code len msg
  let needForSpeed : Bool :=
    if L.urecvfd ≥ 0 ∧ L.ulinkup = true then
      decide (code = P.MsgShotBegin ∨ code = P.MsgShotEnd ∨ code = P.MsgPlayerUpdate ∨
        code = P.MsgPlayerUpdateSmall ∨ code = P.MsgGMUpdate ∨
        code = P.MsgUDPLinkRequest ∨ code = P.MsgUDPLinkEstablished)
    else false
  -- MsgUDPLinkRequest always goes udp
  let needForSpeed : Bool := if code = P.MsgUDPLinkRequest then true else needForSpeed
  if needForSpeed then
    -- sendto(urecvfd, msgbuf, buf - msgbuf, 0, &usendaddr, ...); errors are ignored
    (L, { W with trace := W.trace ++ [Syscall.sendto L.urecvfd (readAt msgbuf 0 buf) L.usendaddr] })
  else
    -- ::send(fd, msgbuf, len + 4, 0)
    (L, { W with trace := W.trace ++ [Syscall.send L.fd (readAt msgbuf 0 (len + 4))] })

/-! ## The reliable receive buffer (ServerLink.cxx, lines 486-574) -/

/-- The compaction step that opens `fillTcpReadBuffer` (lines 488-494): when
bytes have been consumed, the unconsumed ones are moved to the start of
`tbuf` and both cursors are reduced. -/
def compactTcpReadBuffer (L : ServerLink) : ServerLink :=
  if L.tcpBufferConsumed ≠ 0 then
    let tcpBufferPos := L.tcpBufferPos - L.tcpBufferConsumed
    let tbuf :=
      if tcpBufferPos ≠ 0 then
        writeAt L.tbuf 0 (readAt L.tbuf L.tcpBufferConsumed.toNat tcpBufferPos.toNat)
      else L.tbuf
    { L with tcpBufferPos := tcpBufferPos, tbuf := tbuf, tcpBufferConsumed := 0 }
  else L

/-- The method `ServerLink::fillTcpReadBuffer`: compaction, then at most one `select`
and one `recv` into the free space. Returns the `int` result with the new
link and world. -/
def fillTcpReadBuffer (P : Protocol) (L : ServerLink) (W : World) (blockTime : Int) :
    Int × ServerLink × World :=
  let L := compactTcpReadBuffer L
  let emptySpace : Int := sizeofTbuf P - L.tcpBufferPos
  if emptySpace = 0 then (0, L, W) else
  -- block for specified period.  default is no blocking (polling)
  let (nfound, W) := if blockTime ≠ 0 then W.select L.fd else (0, W)
  if blockTime ≠ 0 ∧ nfound < 0 then (-1, L, W) else
  match W.recv L.fd emptySpace.toNat with
  | (RecvOutcome.error e, W) =>
      if e = Errno.EAGAIN then (0, L, W)
      else if e = Errno.EWOULDBLOCK then (0, L, W)
      else (-1, L, W)
  | (RecvOutcome.data bytes, W) =>
      let rlen : Int := bytes.length
      let L := { L with tbuf := writeAt L.tbuf L.tcpBufferPos.toNat bytes }
      if rlen ≠ 0 then (0, { L with tcpBufferPos := L.tcpBufferPos + rlen }, W)
      else (0, L, W)

/-- The method `ServerLink::tcpPacketIn`: "A packet is there?". Returns the `bool`
result, the caller's `headerBuffer` and `msg` after the call, and the new
link. -/
def tcpPacketIn (P : Protocol) (L : ServerLink) (headerBuffer msg : List Byte) :
    Bool × List Byte × List Byte × ServerLink :=
  let availableData : Int := L.tcpBufferPos - L.tcpBufferConsumed
  -- Enough data to decode the header?
  if availableData < 4 then (false, headerBuffer, msg, L) else
  let headerBuffer := writeAt headerBuffer 0 (readAt L.tbuf L.tcpBufferConsumed.toNat 4)
  -- unpack len
  let (len, _) := nboUnpackUShort headerBuffer 0
  -- Check if len is good
  if (len : Int) + 4 > P.MaxPacketLen then (true, headerBuffer, msg, L) else
  -- Check if we have enough data for the whole message
  if availableData < (len : Int) + 4 then (false, headerBuffer, msg, L) else
  -- copy msg
  let msg := if len ≠ 0 then writeAt msg 0 (readAt L.tbuf (L.tcpBufferConsumed.toNat + 4) len)
             else msg
  (true, headerBuffer, msg, { L with tcpBufferConsumed := L.tcpBufferConsumed + ((len : Int) + 4) })

/-! ## Receiving (ServerLink.cxx, lines 576-670) -/

/-- What one call of `ServerLink::read` leaves behind: the `int` result, the
reference parameters `code` and `len`, the caller's buffer `msg`, the link
and the world. -/
structure ReadResult where
  ret : Int
  code : Nat
  len : Nat
  msg : List Byte
  link : ServerLink
  world : World
deriving DecidableEq, Repr

/-- The tail of `ServerLink::read` once `tcpPacketIn` has answered true (lines
646-669): the header is decoded and an oversized length is an error. The
packet recording to `packetStream` is a debugging tee and is left out. -/
def readHeader (P : Protocol) (L : ServerLink) (W : World) (headerBuffer msg : List Byte) :
    ReadResult :=
  let (len, buf) := nboUnpackUShort headerBuffer 0
  let (code, _) := nboUnpackUShort headerBuffer buf
  if (len : Int) > (P.MaxPacketLen : Int) - 4 then ⟨-1, code, len, msg, L, W⟩
  else ⟨1, code, len, msg, L, W⟩

/-- The `while (1)` loop of `ServerLink::read` (lines 634-644). `fuel` bounds
the number of rounds; `none` means the loop is still running when the fuel is
spent. -/
def readLoop (P : Protocol) (blockTime : Int) :
    Nat → ServerLink → World → List Byte → List Byte → Option ReadResult
  | 0, _, _, _, _ => none
  | fuel + 1, L, W, headerBuffer, msg =>
      -- Fill the tcp buffer if anything on the net
      match fillTcpReadBuffer P L W blockTime with
      | (r, L, W) =>
        if r < 0 then
          -- Got an error
          some ⟨-1, P.MsgNull, 0, msg, L, W⟩
        else
          match tcpPacketIn P L headerBuffer msg with
          | (true, headerBuffer, msg, L) => some (readHeader P L W headerBuffer msg)
          | (false, headerBuffer, msg, L) =>
            if blockTime ≥ 0 then some ⟨0, P.MsgNull, 0, msg, L, W⟩
            else readLoop P blockTime fuel L W headerBuffer msg

/-- The reliable part of `ServerLink::read` (lines 630-669). The local
`headerBuffer` is uninitialised in the source; it is read only after
`tcpPacketIn` has filled it. -/
def readTcp (P : Protocol) (L : ServerLink) (W : World) (msg : List Byte) (blockTime : Int)
    (fuel : Nat) : Option ReadResult :=
  let headerBuffer : List Byte := [0, 0, 0, 0]
  match tcpPacketIn P L headerBuffer msg with
  | (true, headerBuffer, msg, L) => some (readHeader P L W headerBuffer msg)
  | (false, headerBuffer, msg, L) => readLoop P blockTime fuel L W headerBuffer msg

/-- The poll of the datagram socket in `ServerLink::read` (lines 588-598):
with no datagram pending, one `recvfrom` into `ubuf`; a datagram of `n > 0`
bytes becomes the pending one. -/
def pollUdp (P : Protocol) (L : ServerLink) (W : World) : ServerLink × World :=
  if L.udpLength = 0 then
    match W.recvfrom L.urecvfd P.MaxPacketLen with
    | (n, bytes, W) =>
      if n > 0 then
        ({ L with ubuf := writeAt L.ubuf 0 bytes, udpLength := n, udpBufferPtr := 0 }, W)
      else (L, W)
  else (L, W)

/-- The decoding of the pending datagram in `ServerLink::read` (lines
600-621), entered when `udpLength` is not zero. -/
def readDatagram (L : ServerLink) (W : World) (msg : List Byte) (MsgNull : Nat) : ReadResult :=
  -- unpack header and get message
  let L := { L with udpLength := L.udpLength - 4 }
  if L.udpLength < (0 : Int) then
    ⟨-1, MsgNull, 0, msg, { L with udpLength := 0 }, W⟩
  else
  let (len, p) := nboUnpackUShort L.ubuf L.udpBufferPtr
  let (code, p) := nboUnpackUShort L.ubuf p
  let L := { L with udpBufferPtr := p }
  if (len : Int) > L.udpLength then
    ⟨-1, code, len, msg, { L with udpLength := 0 }, W⟩
  else
  let msg := writeAt msg 0 (readAt L.ubuf L.udpBufferPtr len)
  ⟨1, code, len, msg,
    { L with udpBufferPtr := L.udpBufferPtr + len, udpLength := L.udpLength - (len : Int) }, W⟩

/-- The method `ServerLink::read`. `msg` is the caller's buffer on entry, `fuel` bounds
the rounds of the receive loop (`none`: the call has not returned). -/
def read (P : Protocol) (L : ServerLink) (W : World) (msg : List Byte) (blockTime : Int)
    (fuel : Nat) : Option ReadResult :=
  -- code = MsgNull; len = 0;
  if L.state ≠ State.Okay then some ⟨-1, P.MsgNull, 0, msg, L, W⟩ else
  if L.urecvfd ≥ 0 then
    match pollUdp P L W with
    | (L, W) =>
      if L.udpLength ≠ 0 then some (readDatagram L W msg P.MsgNull)
      else
        -- len = 0; code = MsgNull; blockTime = 0;
        readTcp P L W msg 0 fuel
  else
    readTcp P L W msg blockTime fuel

/-! ## The datagram link (ServerLink.cxx, lines 856-934) and destruction -/

/-- Modelled from the spec: `nboPackUByte` of Pack.h, which is not among the
sources: stores the low eight bits of `v` at `buf`. Returns the buffer and
the advanced pointer. -/
def nboPackUByte (mem : List Byte) (buf : Nat) (v : Nat) : List Byte × Nat :=
  (writeAt mem buf [byteOf v], buf + 1)

/-- What the operating system answers during `sendUDPlinkRequest`. -/
structure UdpEnv where
  /-- Result of `socket(AF_INET, SOCK_DGRAM, 0)`. -/
  socket : Int
  /-- Result of `getsockname(fd, ...)`. -/
  getsockname : Int
  /-- The local address `getsockname` stores in `serv_addr`. -/
  servAddr : Nat
  /-- Result of `bind(urecvfd, ...)`. -/
  bind : Int
deriving DecidableEq, Repr

/-- The method `ServerLink::sendUDPlinkRequest` (the branch under `#if 1`).
The debug output and the unchecked `setNonBlocking` leave no mark on the
object; `msgbuf` is the uninitialised array of the nested `send`. -/
def sendUDPlinkRequest (P : Protocol) (L : ServerLink) (W : World) (E : UdpEnv)
    (msgbuf : List Byte) : ServerLink × World :=
  -- server does not support udp (future list server test)
  if L.server_abilities &&& 1 ≠ 1 then (L, W) else
  let L := { L with urecvfd := E.socket }
  -- we cannot comply
  if L.urecvfd < 0 then (L, W) else
  if E.getsockname < 0 then (L, W) else
  -- we cannot get udp connection, bail out
  if E.bind ≠ 0 then (L, W) else
  let L := { L with urecvaddr := E.servAddr }
  let (msg, _) := nboPackUByte [0] 0 L.id
  -- send(MsgUDPLinkRequest, sizeof(msg), msg)
  send P L W P.MsgUDPLinkRequest 1 (some msg) msgbuf

/-- The method `ServerLink::enableOutboundUDP`: "heard back from server that
we can send udp". -/
def enableOutboundUDP (L : ServerLink) : ServerLink :=
  { L with ulinkup := true }

/-- The method `ServerLink::confirmIncomingUDP`: "confirm that server can send
us UDP". `msgbuf` is the uninitialised array of the nested `send`. -/
def confirmIncomingUDP (P : Protocol) (L : ServerLink) (W : World) (msgbuf : List Byte) :
    ServerLink × World :=
  -- This is really a hack. enableOutboundUDP will be setting this
  -- but frequently the udp handshake will finish first so might as
  -- well start with udp as soon as we can
  let L := { L with ulinkup := true }
  -- send(MsgUDPLinkEstablished, 0, NULL)
  send P L W P.MsgUDPLinkEstablished 0 none msgbuf

/-- The destructor `ServerLink::~ServerLink` (lines 363-400): in state `Okay`
the sockets are closed and the datagram link is reset; the packet recording
and the statistics are left out. -/
def ServerLink.destroy (L : ServerLink) : ServerLink :=
  if L.state ≠ State.Okay then L else
  { L with urecvfd := -1, ulinkup := false }

/-- One call of a method of an existing link, with its arguments and what
the environment supplies to it. -/
inductive Call where
  | send (code len : Nat) (msg : Option (List Byte)) (msgbuf : List Byte)
  | read (msg : List Byte) (blockTime : Int) (fuel : Nat)
  | fillTcpReadBuffer (blockTime : Int)
  | tcpPacketIn (headerBuffer msg : List Byte)
  | sendUDPlinkRequest (E : UdpEnv) (msgbuf : List Byte)
  | enableOutboundUDP
  | confirmIncomingUDP (msgbuf : List Byte)
deriving DecidableEq, Repr

/-- The link and the world after one call; `none` when a `read` has not
returned within its fuel. -/
def Call.exec (P : Protocol) (c : Call) (L : ServerLink) (W : World) :
    Option (ServerLink × World) :=
  match c with
  | Call.send code len msg msgbuf => some (BZFlag.send P L W code len msg msgbuf)
  | Call.read msg blockTime fuel =>
      match BZFlag.read P L W msg blockTime fuel with
      | some r => some (r.link, r.world)
      | none => none
  | Call.fillTcpReadBuffer blockTime => some (BZFlag.fillTcpReadBuffer P L W blockTime).2
  | Call.tcpPacketIn headerBuffer msg =>
      some ((BZFlag.tcpPacketIn P L headerBuffer msg).2.2.2, W)
  | Call.sendUDPlinkRequest E msgbuf => some (BZFlag.sendUDPlinkRequest P L W E msgbuf)
  | Call.enableOutboundUDP => some (BZFlag.enableOutboundUDP L, W)
  | Call.confirmIncomingUDP msgbuf => some (BZFlag.confirmIncomingUDP P L W msgbuf)

/-- The link and the world after a sequence of calls, made one after the
other. -/
def runCalls (P : Protocol) : List Call → ServerLink → World → Option (ServerLink × World)
  | [], L, W => some (L, W)
  | c :: cs, L, W =>
      match c.exec P L W with
      | some (L1, W1) => runCalls P cs L1 W1
      | none => none

/-! ## Vocabulary of the specification -/

/-- Cursor invariant of the reliable receive buffer:
`0 <= tcpBufferConsumed <= tcpBufferPos <= sizeof(tbuf)`. -/
def cursorInv (P : Protocol) (L : ServerLink) : Prop :=
  0 ≤ L.tcpBufferConsumed ∧ L.tcpBufferConsumed ≤ L.tcpBufferPos ∧
    L.tcpBufferPos ≤ sizeofTbuf P

instance (P : Protocol) (L : ServerLink) : Decidable (cursorInv P L) := by
  unfold cursorInv; infer_instance

/-- The receive buffer is well formed: the cursors are in order and `tbuf` has
its declared size. -/
def bufferInv (P : Protocol) (L : ServerLink) : Prop :=
  cursorInv P L ∧ (L.tbuf.length : Int) = sizeofTbuf P

instance (P : Protocol) (L : ServerLink) : Decidable (bufferInv P L) := by
  unfold bufferInv; infer_instance

/-- The unconsumed bytes of the receive buffer,
`tbuf[tcpBufferConsumed, tcpBufferPos)`. -/
def unconsumed (L : ServerLink) : List Byte :=
  readAt L.tbuf L.tcpBufferConsumed.toNat (L.tcpBufferPos - L.tcpBufferConsumed).toNat

/-- A frame of the specification: `{ length, type, payload }`. -/
structure Frame where
  code : Nat
  len : Nat
  payload : List Byte
deriving DecidableEq, Repr

/-- A frame is well formed when both header fields are 16-bit values, the
payload has the declared length and `length + 4 <= MaxPacketLen`. -/
def Frame.wellFormed (P : Protocol) (f : Frame) : Prop :=
  f.code < 65536 ∧ f.len < 65536 ∧ f.payload.length = f.len ∧
    (f.len : Int) ≤ (P.MaxPacketLen : Int) - 4

instance (P : Protocol) (f : Frame) : Decidable (f.wellFormed P) := by
  unfold Frame.wellFormed; infer_instance

/-- The four header bytes of a frame: length, then code, high byte first. -/
def frameHeader (code len : Nat) : List Byte :=
  [byteOf (len / 256), byteOf len, byteOf (code / 256), byteOf code]

/-- The wire format of the specification,
`[uint16 length][uint16 type][length bytes payload]` in network byte order. -/
def Frame.encode (f : Frame) : List Byte :=
  [byteOf (f.len / 256), byteOf f.len, byteOf (f.code / 256), byteOf f.code] ++ f.payload

/-- The byte stream that carries the frames `fs` one after the other. -/
def encodeAll (fs : List Frame) : List Byte := (fs.map Frame.encode).flatten

/-- The length field of the header that starts the bytes `u`. -/
def frameLen (u : List Byte) : Nat := (u.getD 0 0).val * 256 + (u.getD 1 0).val

/-- The code field of the header that starts the bytes `u`. -/
def frameCode (u : List Byte) : Nat := (u.getD 2 0).val * 256 + (u.getD 3 0).val

/-- The message codes the `switch` of `send` lists (lines 429-435). -/
def speedSensitive (P : Protocol) : List Nat :=
  [P.MsgShotBegin, P.MsgShotEnd, P.MsgPlayerUpdate, P.MsgPlayerUpdateSmall, P.MsgGMUpdate,
    P.MsgUDPLinkRequest, P.MsgUDPLinkEstablished]

/-- The routing test of `send` (lines 425-442): the message goes out as a
datagram when the datagram link is up and the code is one of the `switch`, or
when the code is `MsgUDPLinkRequest`. -/
def needForSpeed (P : Protocol) (L : ServerLink) (code : Nat) : Prop :=
  (L.urecvfd ≥ 0 ∧ L.ulinkup = true ∧ code ∈ speedSensitive P) ∨ code = P.MsgUDPLinkRequest

instance (P : Protocol) (L : ServerLink) (code : Nat) : Decidable (needForSpeed P L code) := by
  unfold needForSpeed; infer_instance

/-- The payload `send` is given: the first `len` bytes behind `msg`, nothing
for a `NULL` pointer. -/
def payloadOf (msg : Option (List Byte)) (len : Nat) : List Byte := (msg.getD []).take len

/-- No datagram keeps `read` from its reliable part: there is no datagram
socket, or no datagram is pending and the poll of the socket finds none. -/
def noDatagram (P : Protocol) (L : ServerLink) (W : World) : Prop :=
  L.urecvfd < 0 ∨ (pollUdp P L W).1.udpLength = 0

instance (P : Protocol) (L : ServerLink) (W : World) : Decidable (noDatagram P L W) := by
  unfold noDatagram; infer_instance

/-- A link whose receive buffer has been emptied and then given exactly the
bytes `bytes`, as one `recv` into the empty buffer leaves it. -/
def placeInBuffer (R : ServerLink) (bytes : List Byte) : ServerLink :=
  { R with tbuf := writeAt R.tbuf 0 bytes, tcpBufferPos := bytes.length, tcpBufferConsumed := 0 }

/-- The frame a call of `read` hands to its caller. -/
def ReadResult.frame (r : ReadResult) : Frame := ⟨r.code, r.len, r.msg.take r.len⟩

/-- A caller that calls `read` `k` times in a row and collects the messages
delivered (result 1) in order; calls that report no message (result 0) are
skipped. `none`: a call reported an error or did not return within `fuel`
rounds. The buffer `msg` is handed from one call to the next. -/
def pollFrames (P : Protocol) (blockTime : Int) (fuel : Nat) :
    Nat → ServerLink → World → List Byte → Option (List Frame × ServerLink × World)
  | 0, L, W, _ => some ([], L, W)
  | k + 1, L, W, msg =>
      match read P L W msg blockTime fuel with
      | none => none
      | some r =>
          if r.ret = 1 then
            match pollFrames P blockTime fuel k r.link r.world r.msg with
            | none => none
            | some (fs, L, W) => some (⟨r.code, r.len, r.msg.take r.len⟩ :: fs, L, W)
          else if r.ret = 0 then pollFrames P blockTime fuel k r.link r.world r.msg
          else none

/-! ## Vocabulary of the proofs -/

/-- The last part of `fillTcpReadBuffer` (lines 517-536), for the proofs: the
`recv` on the compacted link `Lc` in the world `W1` the `select`, if any, has
left. -/
def fillRecvResult (P : Protocol) (Lc : ServerLink) (W1 : World) : Int × ServerLink × World :=
  match W1.recv Lc.fd (sizeofTbuf P - Lc.tcpBufferPos).toNat with
  | (RecvOutcome.error e, W2) =>
      if e = Errno.EAGAIN then (0, Lc, W2)
      else if e = Errno.EWOULDBLOCK then (0, Lc, W2)
      else (-1, Lc, W2)
  | (RecvOutcome.data bytes, W2) =>
      if (bytes.length : Int) ≠ 0 then
        (0, { Lc with tbuf := writeAt Lc.tbuf Lc.tcpBufferPos.toNat bytes,
                      tcpBufferPos := Lc.tcpBufferPos + bytes.length }, W2)
      else
        (0, { Lc with tbuf := writeAt Lc.tbuf Lc.tcpBufferPos.toNat bytes }, W2)

/-- The link and the world with which `read` enters its reliable part: after
the poll of the datagram socket when there is one. -/
def reliableEntry (P : Protocol) (L : ServerLink) (W : World) : ServerLink × World :=
  if L.urecvfd ≥ 0 then pollUdp P L W else (L, W)

/-- The block time `read` hands to its reliable part: 0 when there is a
datagram socket (line 627). -/
def reliableBlockTime (L : ServerLink) (blockTime : Int) : Int :=
  if L.urecvfd ≥ 0 then 0 else blockTime

/-- The receive side in the middle of a stream: an established link without
datagram socket, a well-formed buffer, a stream socket that holds the chunks
`cs` and reports no error, and the frames `fs` still to be delivered, whose
encoding is the unconsumed bytes followed by the chunks. -/
structure StreamInv (P : Protocol) (L : ServerLink) (W : World) (cs : List (List Byte))
    (fs : List Frame) : Prop where
  okay : L.state = State.Okay
  noUdp : L.urecvfd < 0
  buffer : bufferInv P L
  tcpIn : W.tcpIn = cs.map RecvOutcome.data
  selects : ∀ r ∈ W.selects, 0 ≤ r
  stream : unconsumed L ++ cs.flatten = encodeAll fs
  frames : ∀ f ∈ fs, f.wellFormed P

/-- The size of what a stream socket still holds: chunks and bytes. -/
def pending (cs : List (List Byte)) : Nat := cs.length + cs.flatten.length

/-- The unconsumed bytes do not hold a complete frame: `tcpPacketIn` answers
false and changes neither the link nor `msg`, and fewer than `MaxPacketLen`
bytes are buffered. -/
def Starved (P : Protocol) (L : ServerLink) : Prop :=
  (∀ hdr msg, ∃ hdr', tcpPacketIn P L hdr msg = (false, hdr', msg, L)) ∧
    (unconsumed L).length < P.MaxPacketLen

/-! ## Worked examples -/

/-- A scaled-down set of constants for worked examples: frames of at most 8
bytes, hence a receive buffer of 32 bytes. -/
def tinyProtocol : Protocol := { bzflagProtocol with MaxPacketLen := 8 }

/-- An established link without datagram socket whose receive buffer holds
the six bytes of one frame (code `0x7075`, payload `9, 8`) behind two bytes
already consumed. -/
def sampleLink : ServerLink where
  state := State.Okay
  fd := 5
  usendaddr := 1
  urecvfd := -1
  urecvaddr := 0
  ulinkup := false
  id := 3
  version := [66, 90, 70, 83, 48, 50, 50, 49, 0]
  server_abilities := 1
  rejectionMessage := []
  udpLength := 0
  udpBufferPtr := 0
  ubuf := List.replicate 8 0
  tcpBufferPos := 8
  tcpBufferConsumed := 2
  tbuf := [7, 7, 0, 2, 0x70, 0x75, 9, 8] ++ List.replicate 24 0

/-- A world in which nothing has happened yet and nothing is queued. -/
def idleWorld : World := { selects := [], tcpIn := [], udpIn := [], trace := [] }

/-- A handshake that succeeds at once: the version arrives in the first round
and the player id is 3. -/
def sampleHandshake : ConnectEnv where
  socket := 5
  setNonBlocking := 0
  connect := 0
  inProgress := false
  connectSelect := 1
  getsockopt := 0
  connectError := 0
  connectionTimeout := none
  versionWait := [⟨1, RecvOutcome.data [66, 90, 70, 83, 48, 50, 50, 49], 12⟩]
  setNonBlocking2 := 0
  refusal := RecvOutcome.error Errno.other
  idSelect := 1
  idRecv := RecvOutcome.data [3]

/-- A link whose receive buffer is full of unconsumed bytes. -/
def fullLink : ServerLink :=
  { sampleLink with tcpBufferPos := 32, tcpBufferConsumed := 0 }

/-- A link whose receive buffer starts with a header announcing 5 payload
bytes, more than the 4 that `tinyProtocol` admits. -/
def malformedLink : ServerLink := placeInBuffer sampleLink [0, 5, 0x70, 0x75, 1, 2, 3, 4, 5]

/-- A link whose receive buffer holds one frame of exactly `MaxPacketLen = 8`
bytes: the largest frame `tinyProtocol` admits. -/
def largestFrameLink : ServerLink := placeInBuffer sampleLink [0, 4, 0x70, 0x75, 1, 2, 3, 4]

/-- Two frames for worked examples: a player update with payload `9, 8` and
an empty message with code `0x0102`. -/
def sampleFrames : List Frame := [⟨0x7075, 2, [9, 8]⟩, ⟨0x0102, 0, []⟩]

/-- The ten bytes of `sampleFrames`, cut into three chunks that split both
headers. -/
def sampleChunks : List (List Byte) := [[0, 2, 0x70], [0x75, 9, 8, 0, 0, 1], [2]]

/-- A world whose stream socket holds `sampleChunks`. -/
def sampleStreamWorld : World :=
  { idleWorld with tcpIn := sampleChunks.map RecvOutcome.data }

/-! ## Vocabulary and examples: routing, handshake, session, polling -/

/-- The routing condition of the specification: the code is the upgrade
request, or the datagram link is up and the code is one of the six other
speed-sensitive codes. -/
def routedUnreliable (P : Protocol) (L : ServerLink) (code : Nat) : Prop :=
  code = P.MsgUDPLinkRequest ∨
    ((L.urecvfd ≥ 0 ∧ L.ulinkup = true) ∧
      code ∈ [P.MsgShotBegin, P.MsgShotEnd, P.MsgPlayerUpdate, P.MsgPlayerUpdateSmall,
        P.MsgGMUpdate, P.MsgUDPLinkEstablished])

instance (P : Protocol) (L : ServerLink) (code : Nat) :
    Decidable (routedUnreliable P L code) := by
  unfold routedUnreliable; infer_instance

/-- A link with the datagram socket open and the datagram link up. -/
def udpLink : ServerLink := { sampleLink with urecvfd := 6, ulinkup := true }

/-- The time limit of the version wait (lines 226-228): 30 seconds unless
`connectionTimeout` is set; in milliseconds. -/
def ConnectEnv.timeout (E : ConnectEnv) : Int :=
  match E.connectionTimeout with
  | some t => t
  | none => 30000

/-- A `recv` that returns no data: an error, or zero bytes. -/
def RecvOutcome.noData : RecvOutcome → Prop
  | RecvOutcome.data bytes => bytes = []
  | RecvOutcome.error _ => True

instance (o : RecvOutcome) : Decidable o.noData := by
  cases o <;> unfold RecvOutcome.noData <;> infer_instance

/-- A round of the version wait that neither fails nor receives anything and
is within the time limit `T`: the loop goes on. -/
def VersionRound.idle (T : Int) (r : VersionRound) : Prop :=
  0 < r.nfound ∧ r.recv.noData ∧ r.elapsed ≤ T

instance (T : Int) (r : VersionRound) : Decidable (r.idle T) := by
  unfold VersionRound.idle; infer_instance

/-- The connection is established: the socket is created and made
non-blocking, and `connect` succeeds at once or after the wait for it. -/
def ConnectEnv.connected (E : ConnectEnv) : Prop :=
  0 ≤ E.socket ∧ 0 ≤ E.setNonBlocking ∧
    (0 ≤ E.connect ∨
      (E.inProgress = true ∧ 0 < E.connectSelect ∧ 0 ≤ E.getsockopt ∧ E.connectError = 0))

instance (E : ConnectEnv) : Decidable E.connected := by
  unfold ConnectEnv.connected; infer_instance

/-- The version wait receives the bytes `v` in one `recv`, after rounds in
which nothing arrives and the time limit has not passed. -/
def versionArrives (T : Int) (rounds : List VersionRound) (v : List Byte) : Prop :=
  ∃ idle r rest bytes, rounds = idle ++ r :: rest ∧ (∀ x ∈ idle, x.idle T) ∧
    0 < r.nfound ∧ r.recv = RecvOutcome.data bytes ∧ bytes.take 8 = v ∧ v ≠ []

/-- The constructor from the check of the version length on (lines 277-361),
for the proofs: `L` is the object, `i` the result of the last `recv` of the
version wait. -/
def handshakeTail (P : Protocol) (L : ServerLink) (E : ConnectEnv) (i : Int) :
    Option ServerLink :=
  if i < 8 then some L else
  if E.setNonBlocking2 < 0 then some L else
  let L := { L with server_abilities := L.server_abilities ||| 1 }
  if cstr L.version ≠ cstr P.serverVersion then
    let L := { L with state := State.BadVersion }
    if cstr L.version = cstr P.BanRefusalString then
      let message : List Byte :=
        match E.refusal with
        | RecvOutcome.data bytes =>
            let bytes := bytes.take 512
            cstr (bytes.take (bytes.length - 1))
        | RecvOutcome.error _ => []
      some { L with state := State.Refused, rejectionMessage := message }
    else some L
  else
  if E.idSelect ≤ 0 then some L else
  match E.idRecv with
  | RecvOutcome.error _ => some L
  | RecvOutcome.data bytes =>
    match bytes.take 1 with
    | [] => some L
    | b :: _ =>
      let L := { L with id := b.val }
      if L.id = 0xff then some { L with state := State.Rejected } else
      some { L with fd := E.socket, state := State.Okay }

/-- A handshake in which the server answers with the refusal token and then
the 11 bytes of the reason `server full`. -/
def refusedHandshake : ConnectEnv :=
  { sampleHandshake with
    versionWait := [⟨1, RecvOutcome.data [82, 69, 70, 85, 83, 69, 68, 58], 12⟩]
    refusal := RecvOutcome.data [115, 101, 114, 118, 101, 114, 32, 102, 117, 108, 108] }

/-- A handshake in which the server answers with the refusal token and then
the reason `server full` followed by one more byte, a NUL. -/
def terminatedRefusalHandshake : ConnectEnv :=
  { sampleHandshake with
    versionWait := [⟨1, RecvOutcome.data [82, 69, 70, 85, 83, 69, 68, 58], 12⟩]
    refusal := RecvOutcome.data [115, 101, 114, 118, 101, 114, 32, 102, 117, 108, 108, 0] }

/-- A handshake in which the server answers with the tag of another protocol
version, `BZFS0220`. -/
def mismatchHandshake : ConnectEnv :=
  { sampleHandshake with
    versionWait := [⟨1, RecvOutcome.data [66, 90, 70, 83, 48, 50, 50, 48], 12⟩] }

/-- A handshake in which the server never answers: both receive attempts find
nothing, the second one 31 seconds after the start. -/
def silentHandshake : ConnectEnv :=
  { sampleHandshake with
    versionWait := [⟨1, RecvOutcome.error Errno.EAGAIN, 250⟩,
      ⟨1, RecvOutcome.error Errno.EAGAIN, 31000⟩] }

/-- What the calls made between the constructor and the destructor keep of
a link: `next` has the state and the identity of `prior`, and its datagram
link is up when that of `prior` was. -/
def sessionKept (prior next : ServerLink) : Prop :=
  next.state = prior.state ∧ next.id = prior.id ∧ (prior.ulinkup = true → next.ulinkup = true)

/-- A link whose handshake ended with the server rejecting the player. -/
def rejectedLink : ServerLink := { sampleLink with state := State.Rejected }

/-- One call of each method, in the order of the source file. -/
def sampleCalls : List Call :=
  [Call.send 0x7075 2 (some [9, 8]) (List.replicate 8 0),
   Call.read [0, 0, 0, 0] (-1) 1,
   Call.fillTcpReadBuffer 0,
   Call.tcpPacketIn [0, 0, 0, 0] [0, 0, 0, 0],
   Call.sendUDPlinkRequest ⟨6, 0, 2, 0⟩ (List.replicate 8 0),
   Call.enableOutboundUDP,
   Call.confirmIncomingUDP (List.replicate 8 0)]

/-- The unconsumed bytes `u` do not hold a complete frame: fewer than the 4
bytes of a header, or a header with an admissible length `len` and fewer than
`len + 4` bytes. -/
def incomplete (P : Protocol) (u : List Byte) : Prop :=
  u.length < 4 ∨ ((frameLen u : Int) + 4 ≤ P.MaxPacketLen ∧ u.length < frameLen u + 4)

instance (P : Protocol) (u : List Byte) : Decidable (incomplete P u) := by
  unfold incomplete; infer_instance

/-- A link whose receive buffer holds the first three bytes of a frame. -/
def partialLink : ServerLink := placeInBuffer sampleLink [0, 2, 0x70]

/-- A world whose stream socket holds one more byte. -/
def oneByteWorld : World := { idleWorld with tcpIn := [RecvOutcome.data [0x75]] }

/-- A world whose datagram socket holds one datagram, the frame with code
`0x6d67` and payload `5, 6`, while the stream socket holds `sampleChunks`. -/
def datagramWorld : World :=
  { sampleStreamWorld with udpIn := [[0, 2, 0x6d, 0x67, 5, 6]] }

/-- A link with the datagram socket open whose receive buffer holds a
complete frame. -/
def openLink : ServerLink := { sampleLink with urecvfd := 6 }

/-- An established link with the datagram socket open, nothing buffered and no
datagram pending. -/
def quietLink : ServerLink := { placeInBuffer sampleLink [] with urecvfd := 6 }

/-! ## Vocabulary and examples: errors, the datagram link, delivered payloads -/

/-- A world whose datagram socket holds a datagram of three bytes, too short
for a header. -/
def shortDatagramWorld : World := { idleWorld with udpIn := [[1, 2, 3]] }

/-- A world whose datagram socket holds a header that announces 5 payload
bytes, followed by 2 bytes only. -/
def overlongDatagramWorld : World := { idleWorld with udpIn := [[0, 5, 0x6d, 0x67, 1, 2]] }

/-- A datagram `d` that `read` rejects: one to three bytes, or a header whose
length field exceeds the number of bytes behind the header. -/
def badDatagram (d : List Byte) : Prop :=
  (0 < d.length ∧ d.length < 4) ∨ (4 ≤ d.length ∧ d.length < frameLen d + 4)

instance (d : List Byte) : Decidable (badDatagram d) := by
  unfold badDatagram; infer_instance

/-- An established link without datagram socket and with nothing buffered. -/
def emptyLink : ServerLink := placeInBuffer sampleLink []

/-- A world whose stream the peer has shut down: each `recv` returns 0
bytes. -/
def closedWorld : World :=
  { idleWorld with tcpIn := [RecvOutcome.data [], RecvOutcome.data [], RecvOutcome.data []] }

/-- The six codes, other than the upgrade request, that `send` routes by the
state of the datagram link. -/
def linkRouted (P : Protocol) : List Nat :=
  [P.MsgShotBegin, P.MsgShotEnd, P.MsgPlayerUpdate, P.MsgPlayerUpdateSmall, P.MsgGMUpdate,
    P.MsgUDPLinkEstablished]

/-- A world whose datagram socket holds a datagram of two frames without
payload (codes `0x0102` and `0x0304`) and behind it a datagram of one frame
(code `0x0506`). -/
def twoFrameWorld : World :=
  { idleWorld with udpIn := [[0, 0, 1, 2, 0, 0, 3, 4], [0, 0, 5, 6]] }

/-- A handshake in which the version tag `BZFS0221` arrives in two pieces of
four bytes, 12 and 20 milliseconds after the start. -/
def piecewiseHandshake : ConnectEnv :=
  { sampleHandshake with
    versionWait := [⟨1, RecvOutcome.data [66, 90, 70, 83], 12⟩,
      ⟨1, RecvOutcome.data [48, 50, 50, 49], 20⟩] }

/-- The datagram bytes still to be decoded,
`udpBufferPtr[0, udpLength)`. -/
def pendingDatagram (L : ServerLink) : List Byte :=
  readAt L.ubuf L.udpBufferPtr L.udpLength.toNat

/-- The datagram members are well formed: `ubuf` has its declared size and
the pending bytes `udpBufferPtr[0, udpLength)` lie inside it. -/
def datagramInv (P : Protocol) (L : ServerLink) : Prop :=
  0 ≤ L.udpLength ∧ (L.udpBufferPtr : Int) + L.udpLength ≤ P.MaxPacketLen ∧
    L.ubuf.length = P.MaxPacketLen

instance (P : Protocol) (L : ServerLink) : Decidable (datagramInv P L) := by
  unfold datagramInv; infer_instance

/-- What `read` reports on its reliable path is a frame of the unconsumed
bytes of a well-formed buffer `L0`: the payload copied to `msg` is the `len`
bytes behind its header, all of them unconsumed bytes, and the frame has been
consumed. -/
def deliveredFromBuffer (P : Protocol) (msg : List Byte) (r : ReadResult) : Prop :=
  ∃ L0, bufferInv P L0 ∧ r.len + 4 ≤ (unconsumed L0).length ∧
    r.len = frameLen (unconsumed L0) ∧
    r.msg = writeAt msg 0 (((unconsumed L0).drop 4).take r.len) ∧
    r.link = { L0 with tcpBufferConsumed := L0.tcpBufferConsumed + ((r.len : Int) + 4) }

/-- What `read` reports on its datagram path is a frame of the pending bytes
of the link `L1`: the payload copied to `msg` is the `len` bytes behind its
header, all of them pending bytes, and what is pending afterwards is the rest
of those bytes. -/
def deliveredFromDatagram (L1 : ServerLink) (msg : List Byte) (r : ReadResult) : Prop :=
  r.len + 4 ≤ (pendingDatagram L1).length ∧ r.len = frameLen (pendingDatagram L1) ∧
    r.msg = writeAt msg 0 (((pendingDatagram L1).drop 4).take r.len) ∧
    pendingDatagram r.link = (pendingDatagram L1).drop (r.len + 4)

/-- The datagram members of `next` are those of `prior`. -/
def sameDatagram (prior next : ServerLink) : Prop :=
  next.udpLength = prior.udpLength ∧ next.udpBufferPtr = prior.udpBufferPtr ∧
    next.ubuf = prior.ubuf

/-! ## Buffer lemmas -/

theorem readAt_length (mem : List Byte) (off n : Nat) (h : off + n ≤ mem.length) :
    (readAt mem off n).length = n := by
  simp [readAt]; omega

theorem writeAt_length (mem : List Byte) (off : Nat) (data : List Byte)
    (h : off + data.length ≤ mem.length) : (writeAt mem off data).length = mem.length := by
  simp [writeAt]; omega

theorem readAt_writeAt_same (mem : List Byte) (off : Nat) (data : List Byte)
    (h : off ≤ mem.length) : readAt (writeAt mem off data) off data.length = data := by
  simp [readAt, writeAt, List.drop_append_eq_append_drop, List.take_append_eq_append_take, h]

theorem readAt_writeAt_before (mem : List Byte) (off : Nat) (data : List Byte) (a n : Nat)
    (h : a + n ≤ off) (h2 : off ≤ mem.length) :
    readAt (writeAt mem off data) a n = readAt mem a n := by
  unfold readAt writeAt
  rw [List.append_assoc, List.drop_append_of_le_length (by simp; omega),
    List.take_append_of_le_length (by simp; omega)]
  rw [List.drop_take, List.take_take]
  congr 1
  omega

theorem readAt_add (mem : List Byte) (a n m : Nat) :
    readAt mem a (n + m) = readAt mem a n ++ readAt mem (a + n) m := by
  unfold readAt
  rw [List.take_add, List.drop_drop]

theorem readAt_zero_writeAt_end (mem : List Byte) (off : Nat) (data : List Byte)
    (h : off ≤ mem.length) :
    readAt (writeAt mem off data) 0 (off + data.length) = readAt mem 0 off ++ data := by
  rw [readAt_add, readAt_writeAt_before _ _ _ _ _ (by omega) h, Nat.zero_add,
    readAt_writeAt_same _ _ _ h]

/-! ## Compaction -/

theorem compact_of_consumed_zero (L : ServerLink) (h : L.tcpBufferConsumed = 0) :
    compactTcpReadBuffer L = L := by
  simp [compactTcpReadBuffer, h]

theorem compact_consumed (L : ServerLink) : (compactTcpReadBuffer L).tcpBufferConsumed = 0 := by
  unfold compactTcpReadBuffer
  split
  · rfl
  · rename_i h; simpa using h

theorem compact_eq (L : ServerLink) :
    compactTcpReadBuffer L =
      { L with tcpBufferPos := L.tcpBufferPos - L.tcpBufferConsumed,
               tbuf := (compactTcpReadBuffer L).tbuf,
               tcpBufferConsumed := 0 } := by
  unfold compactTcpReadBuffer
  split
  · rfl
  · rename_i h
    have h0 : L.tcpBufferConsumed = 0 := by simpa using h
    cases L
    simp_all

theorem compact_pos (L : ServerLink) :
    (compactTcpReadBuffer L).tcpBufferPos = L.tcpBufferPos - L.tcpBufferConsumed := by
  rw [compact_eq]

theorem compact_tbuf_length (P : Protocol) (L : ServerLink) (h : bufferInv P L) :
    (compactTcpReadBuffer L).tbuf.length = L.tbuf.length := by
  obtain ⟨⟨h0, h1, h2⟩, h3⟩ := h
  unfold compactTcpReadBuffer
  split
  · dsimp only
    split
    · apply writeAt_length
      rw [readAt_length] <;> omega
    · rfl
  · rfl

theorem compact_unconsumed (P : Protocol) (L : ServerLink) (h : bufferInv P L) :
    readAt (compactTcpReadBuffer L).tbuf 0 (L.tcpBufferPos - L.tcpBufferConsumed).toNat =
      unconsumed L := by
  obtain ⟨⟨h0, h1, h2⟩, h3⟩ := h
  unfold compactTcpReadBuffer unconsumed
  split
  · dsimp only
    split
    · have hl : (readAt L.tbuf L.tcpBufferConsumed.toNat
          (L.tcpBufferPos - L.tcpBufferConsumed).toNat).length =
          (L.tcpBufferPos - L.tcpBufferConsumed).toNat := by
        rw [readAt_length]; omega
      have := readAt_writeAt_same L.tbuf 0 (readAt L.tbuf L.tcpBufferConsumed.toNat
          (L.tcpBufferPos - L.tcpBufferConsumed).toNat) (Nat.zero_le _)
      rw [hl] at this
      exact this
    · rename_i hz
      have hz0 : L.tcpBufferPos - L.tcpBufferConsumed = 0 := by simpa using hz
      simp [hz0, readAt]
  · rename_i hz
    have hz0 : L.tcpBufferConsumed = 0 := by simpa using hz
    simp [hz0]

theorem compact_bufferInv (P : Protocol) (L : ServerLink) (h : bufferInv P L) :
    bufferInv P (compactTcpReadBuffer L) := by
  have hl := compact_tbuf_length P L h
  obtain ⟨⟨h0, h1, h2⟩, h3⟩ := h
  refine ⟨⟨?_, ?_, ?_⟩, ?_⟩
  · rw [compact_consumed]
  · rw [compact_consumed, compact_pos]; omega
  · rw [compact_pos]; omega
  · rw [hl]; exact h3

theorem unconsumed_compact (P : Protocol) (L : ServerLink) (h : bufferInv P L) :
    unconsumed (compactTcpReadBuffer L) = unconsumed L := by
  have := compact_unconsumed P L h
  unfold unconsumed at *
  rw [compact_consumed, compact_pos]
  simpa using this

theorem select_spec (W : World) (fd : Int) (hsel : ∀ r ∈ W.selects, 0 ≤ r) :
    0 ≤ (W.select fd).1 ∧ (∀ r ∈ (W.select fd).2.selects, 0 ≤ r) ∧
      (W.select fd).2.tcpIn = W.tcpIn ∧ (W.select fd).2.udpIn = W.udpIn := by
  unfold World.select
  cases hs : W.selects with
  | nil => simp [hs]
  | cons r rs =>
    rw [hs] at hsel
    simp only [List.mem_cons, forall_eq_or_imp] at hsel
    exact ⟨hsel.1, hsel.2, rfl, rfl⟩

theorem fill_full (P : Protocol) (L : ServerLink) (W : World) (blockTime : Int)
    (hsp : sizeofTbuf P - (compactTcpReadBuffer L).tcpBufferPos = 0) :
    fillTcpReadBuffer P L W blockTime = (0, compactTcpReadBuffer L, W) := by
  unfold fillTcpReadBuffer
  simp only [hsp, if_true]

theorem fill_poll (P : Protocol) (L : ServerLink) (W : World)
    (hsp : sizeofTbuf P - (compactTcpReadBuffer L).tcpBufferPos ≠ 0) :
    fillTcpReadBuffer P L W 0 = fillRecvResult P (compactTcpReadBuffer L) W := by
  unfold fillTcpReadBuffer fillRecvResult
  simp only [hsp, if_false, ne_eq, not_true_eq_false, false_and]

theorem fill_select_fail (P : Protocol) (L : ServerLink) (W : World) (blockTime : Int)
    (hsp : sizeofTbuf P - (compactTcpReadBuffer L).tcpBufferPos ≠ 0) (hb : blockTime ≠ 0)
    (hn : (W.select (compactTcpReadBuffer L).fd).1 < 0) :
    fillTcpReadBuffer P L W blockTime =
      (-1, compactTcpReadBuffer L, (W.select (compactTcpReadBuffer L).fd).2) := by
  unfold fillTcpReadBuffer
  simp only [hsp, hb, hn, if_false, ne_eq, not_false_eq_true, if_true, true_and, and_self]

theorem fill_block (P : Protocol) (L : ServerLink) (W : World) (blockTime : Int)
    (hsp : sizeofTbuf P - (compactTcpReadBuffer L).tcpBufferPos ≠ 0) (hb : blockTime ≠ 0)
    (hn : ¬ (W.select (compactTcpReadBuffer L).fd).1 < 0) :
    fillTcpReadBuffer P L W blockTime =
      fillRecvResult P (compactTcpReadBuffer L) (W.select (compactTcpReadBuffer L).fd).2 := by
  unfold fillTcpReadBuffer fillRecvResult
  simp only [hsp, hb, hn, if_false, ne_eq, not_false_eq_true, if_true, true_and, and_false]

theorem writeAt_nil (mem : List Byte) (off : Nat) : writeAt mem off [] = mem := by
  simp [writeAt]

theorem recv_length (W : World) (fd : Int) (n : Nat) (bytes : List Byte) (W2 : World)
    (h : W.recv fd n = (RecvOutcome.data bytes, W2)) : bytes.length ≤ n := by
  unfold World.recv at h
  split at h
  · simp at h
  · simp at h
  · split at h
    · simp only [Prod.mk.injEq, RecvOutcome.data.injEq] at h
      rw [← h.1]; assumption
    · simp only [Prod.mk.injEq, RecvOutcome.data.injEq] at h
      rw [← h.1]; simp

theorem fillRecvResult_link (P : Protocol) (Lc : ServerLink) (W1 : World) :
    ∃ bytes : List Byte,
      (bytes.length : Int) ≤ max 0 (sizeofTbuf P - Lc.tcpBufferPos) ∧
      (fillRecvResult P Lc W1).2.1 =
        { Lc with tbuf := writeAt Lc.tbuf Lc.tcpBufferPos.toNat bytes,
                  tcpBufferPos := Lc.tcpBufferPos + bytes.length } := by
  have hnil : Lc = { Lc with tbuf := writeAt Lc.tbuf Lc.tcpBufferPos.toNat [],
                             tcpBufferPos := Lc.tcpBufferPos + ([] : List Byte).length } := by
    simp [writeAt_nil]
  unfold fillRecvResult
  cases hrecv : W1.recv Lc.fd (sizeofTbuf P - Lc.tcpBufferPos).toNat with
  | mk o W2 =>
    cases o with
    | error e =>
      refine ⟨[], by simp, ?_⟩
      dsimp only
      split
      · exact hnil
      · split <;> exact hnil
    | data bytes =>
      have hlen := recv_length _ _ _ _ _ hrecv
      refine ⟨bytes, by omega, ?_⟩
      dsimp only
      split
      · rfl
      · rename_i hz
        have : bytes = [] := by
          have : (bytes.length : Int) = 0 := by simpa using hz
          exact List.length_eq_zero.mp (by omega)
        subst this
        simp [writeAt_nil]

theorem fill_link (P : Protocol) (L : ServerLink) (W : World) (blockTime : Int) :
    ∃ bytes : List Byte,
      (bytes.length : Int) ≤ max 0 (sizeofTbuf P - (compactTcpReadBuffer L).tcpBufferPos) ∧
      (fillTcpReadBuffer P L W blockTime).2.1 =
        { compactTcpReadBuffer L with
            tbuf := writeAt (compactTcpReadBuffer L).tbuf
              (compactTcpReadBuffer L).tcpBufferPos.toNat bytes,
            tcpBufferPos := (compactTcpReadBuffer L).tcpBufferPos + bytes.length } := by
  have hnil : compactTcpReadBuffer L =
      { compactTcpReadBuffer L with
          tbuf := writeAt (compactTcpReadBuffer L).tbuf
            (compactTcpReadBuffer L).tcpBufferPos.toNat [],
          tcpBufferPos := (compactTcpReadBuffer L).tcpBufferPos + ([] : List Byte).length } := by
    simp [writeAt_nil]
  by_cases hsp : sizeofTbuf P - (compactTcpReadBuffer L).tcpBufferPos = 0
  · rw [fill_full P L W blockTime hsp]
    exact ⟨[], by simp, hnil⟩
  · by_cases hb : blockTime = 0
    · subst hb
      rw [fill_poll P L W hsp]
      exact fillRecvResult_link P _ _
    · by_cases hn : (W.select (compactTcpReadBuffer L).fd).1 < 0
      · rw [fill_select_fail P L W blockTime hsp hb hn]
        exact ⟨[], by simp, hnil⟩
      · rw [fill_block P L W blockTime hsp hb hn]
        exact fillRecvResult_link P _ _

/-! ## Frame extraction and the cursor invariant -/

theorem unconsumed_length (P : Protocol) (L : ServerLink) (h : bufferInv P L) :
    ((unconsumed L).length : Int) = L.tcpBufferPos - L.tcpBufferConsumed := by
  obtain ⟨⟨h0, h1, h2⟩, h3⟩ := h
  unfold unconsumed
  rw [readAt_length] <;> omega

theorem readAt_take (mem : List Byte) (off n k : Nat) (h : k ≤ n) :
    readAt mem off k = (readAt mem off n).take k := by
  unfold readAt
  rw [List.take_take, Nat.min_eq_left h]

theorem readAt_drop_take (mem : List Byte) (off n a k : Nat) (h : a + k ≤ n) :
    readAt mem (off + a) k = ((readAt mem off n).drop a).take k := by
  unfold readAt
  rw [List.drop_take, List.take_take, List.drop_drop, Nat.min_eq_left (by omega)]

theorem getD_writeAt_zero (hdr data : List Byte) (i : Nat) (h : i < data.length) :
    (writeAt hdr 0 data).getD i 0 = data.getD i 0 := by
  unfold writeAt
  simp [List.getD_eq_getElem?_getD, List.getElem?_append_left h]

theorem frameLen_writeAt (hdr u : List Byte) (h : 4 ≤ u.length) :
    frameLen (writeAt hdr 0 (u.take 4)) = frameLen u := by
  unfold frameLen
  rw [getD_writeAt_zero _ _ 0 (by simp; omega), getD_writeAt_zero _ _ 1 (by simp; omega)]
  simp [List.getD_eq_getElem?_getD, List.getElem?_take]

theorem frameCode_writeAt (hdr u : List Byte) (h : 4 ≤ u.length) :
    frameCode (writeAt hdr 0 (u.take 4)) = frameCode u := by
  unfold frameCode
  rw [getD_writeAt_zero _ _ 2 (by simp; omega), getD_writeAt_zero _ _ 3 (by simp; omega)]
  simp [List.getD_eq_getElem?_getD, List.getElem?_take]

theorem tcpPacketIn_spec (P : Protocol) (L : ServerLink) (hdr msg : List Byte)
    (h : bufferInv P L) :
    tcpPacketIn P L hdr msg =
      if (unconsumed L).length < 4 then (false, hdr, msg, L)
      else if (frameLen (unconsumed L) : Int) + 4 > P.MaxPacketLen then
        (true, writeAt hdr 0 ((unconsumed L).take 4), msg, L)
      else if (unconsumed L).length < frameLen (unconsumed L) + 4 then
        (false, writeAt hdr 0 ((unconsumed L).take 4), msg, L)
      else
        (true, writeAt hdr 0 ((unconsumed L).take 4),
          (if frameLen (unconsumed L) ≠ 0 then
            writeAt msg 0 (((unconsumed L).drop 4).take (frameLen (unconsumed L)))
           else msg),
          { L with tcpBufferConsumed :=
              L.tcpBufferConsumed + ((frameLen (unconsumed L) : Int) + 4) }) := by
  have hlen := unconsumed_length P L h
  obtain ⟨⟨h0, h1, h2⟩, h3⟩ := h
  unfold tcpPacketIn
  by_cases h4 : (unconsumed L).length < 4
  · have : L.tcpBufferPos - L.tcpBufferConsumed < 4 := by omega
    simp only [this, h4, if_true]
  · have h4' : ¬ (L.tcpBufferPos - L.tcpBufferConsumed < 4) := by omega
    have hhdr : readAt L.tbuf L.tcpBufferConsumed.toNat 4 = (unconsumed L).take 4 := by
      unfold unconsumed
      exact readAt_take _ _ _ _ (by omega)
    have hfl : (nboUnpackUShort (writeAt hdr 0 ((unconsumed L).take 4)) 0).1 =
        frameLen (unconsumed L) := by
      rw [← frameLen_writeAt hdr (unconsumed L) (by omega)]
      rfl
    simp only [h4', h4, if_false, hhdr, hfl]
    by_cases hbig : (frameLen (unconsumed L) : Int) + 4 > P.MaxPacketLen
    · simp only [hbig, if_true]
    · simp only [hbig, if_false]
      by_cases hpart : (unconsumed L).length < frameLen (unconsumed L) + 4
      · have : L.tcpBufferPos - L.tcpBufferConsumed < (frameLen (unconsumed L) : Int) + 4 := by
          omega
        simp only [this, hpart, if_true]
      · have : ¬ (L.tcpBufferPos - L.tcpBufferConsumed < (frameLen (unconsumed L) : Int) + 4) := by
          omega
        have hpay : readAt L.tbuf (L.tcpBufferConsumed.toNat + 4) (frameLen (unconsumed L)) =
            ((unconsumed L).drop 4).take (frameLen (unconsumed L)) := by
          exact readAt_drop_take L.tbuf L.tcpBufferConsumed.toNat
            (L.tcpBufferPos - L.tcpBufferConsumed).toNat 4 _ (by omega)
        simp only [this, hpart, if_false, hpay]

theorem tcpPacketIn_cursorInv (P : Protocol) (L : ServerLink) (hdr msg : List Byte)
    (h : cursorInv P L) : cursorInv P (tcpPacketIn P L hdr msg).2.2.2 := by
  obtain ⟨h0, h1, h2⟩ := h
  unfold tcpPacketIn
  dsimp only
  split
  · exact ⟨h0, h1, h2⟩
  · split
    · exact ⟨h0, h1, h2⟩
    · split
      · exact ⟨h0, h1, h2⟩
      · refine ⟨?_, ?_, ?_⟩ <;> dsimp only <;> omega

theorem fill_cursorInv (P : Protocol) (L : ServerLink) (W : World) (blockTime : Int)
    (h : cursorInv P L) : cursorInv P (fillTcpReadBuffer P L W blockTime).2.1 := by
  obtain ⟨h0, h1, h2⟩ := h
  obtain ⟨bytes, hb, heq⟩ := fill_link P L W blockTime
  rw [heq]
  have hc := compact_consumed L
  have hp := compact_pos L
  refine ⟨?_, ?_, ?_⟩ <;> dsimp only <;> omega

theorem readHeader_link (P : Protocol) (L : ServerLink) (W : World) (hdr msg : List Byte) :
    (readHeader P L W hdr msg).link = L ∧ (readHeader P L W hdr msg).world = W ∧
      (readHeader P L W hdr msg).msg = msg := by
  unfold readHeader
  dsimp only
  split <;> exact ⟨rfl, rfl, rfl⟩

theorem readLoop_cursorInv (P : Protocol) (blockTime : Int) (fuel : Nat) :
    ∀ (L : ServerLink) (W : World) (hdr msg : List Byte) (r : ReadResult),
      cursorInv P L → readLoop P blockTime fuel L W hdr msg = some r → cursorInv P r.link := by
  induction fuel with
  | zero => intro L W hdr msg r _ h; simp [readLoop] at h
  | succ n ih =>
    intro L W hdr msg r hinv h
    unfold readLoop at h
    have hf := fill_cursorInv P L W blockTime hinv
    have ht := tcpPacketIn_cursorInv P (fillTcpReadBuffer P L W blockTime).2.1 hdr msg hf
    revert h
    rcases hfe : fillTcpReadBuffer P L W blockTime with ⟨ret, L1, W1⟩
    rw [hfe] at hf ht
    dsimp only at hf ht ⊢
    split
    · intro h; cases h; exact hf
    · rcases hte : tcpPacketIn P L1 hdr msg with ⟨ok, hdr2, msg2, L2⟩
      rw [hte] at ht
      dsimp only at ht
      cases ok
      · dsimp only
        split
        · intro h; cases h; exact ht
        · intro h; exact ih L2 W1 hdr2 msg2 r ht h
      · intro h; cases h
        rw [(readHeader_link P L2 W1 hdr2 msg2).1]; exact ht

theorem readTcp_cursorInv (P : Protocol) (L : ServerLink) (W : World) (msg : List Byte)
    (blockTime : Int) (fuel : Nat) (r : ReadResult) (hinv : cursorInv P L)
    (h : readTcp P L W msg blockTime fuel = some r) : cursorInv P r.link := by
  unfold readTcp at h
  dsimp only at h
  have ht := tcpPacketIn_cursorInv P L [0, 0, 0, 0] msg hinv
  rcases hte : tcpPacketIn P L [0, 0, 0, 0] msg with ⟨ok, hdr2, msg2, L2⟩
  rw [hte] at ht h
  dsimp only at ht
  cases ok
  · exact readLoop_cursorInv P blockTime fuel L2 W hdr2 msg2 r ht h
  · cases h
    rw [(readHeader_link P L2 W hdr2 msg2).1]; exact ht

theorem pollUdp_tcp (P : Protocol) (L : ServerLink) (W : World) :
    (pollUdp P L W).1.tcpBufferPos = L.tcpBufferPos ∧
      (pollUdp P L W).1.tcpBufferConsumed = L.tcpBufferConsumed ∧
      (pollUdp P L W).1.tbuf = L.tbuf ∧ (pollUdp P L W).1.state = L.state := by
  unfold pollUdp
  split
  · split
    split <;> exact ⟨rfl, rfl, rfl, rfl⟩
  · exact ⟨rfl, rfl, rfl, rfl⟩

theorem readDatagram_tcp (L : ServerLink) (W : World) (msg : List Byte) (n : Nat) :
    (readDatagram L W msg n).link.tcpBufferPos = L.tcpBufferPos ∧
      (readDatagram L W msg n).link.tcpBufferConsumed = L.tcpBufferConsumed ∧
      (readDatagram L W msg n).link.tbuf = L.tbuf ∧
      (readDatagram L W msg n).link.state = L.state := by
  unfold readDatagram
  dsimp only
  split
  · exact ⟨rfl, rfl, rfl, rfl⟩
  · split <;> exact ⟨rfl, rfl, rfl, rfl⟩

theorem read_cursorInv (P : Protocol) (L : ServerLink) (W : World) (msg : List Byte)
    (blockTime : Int) (fuel : Nat) (r : ReadResult) (hinv : cursorInv P L)
    (h : read P L W msg blockTime fuel = some r) : cursorInv P r.link := by
  unfold read at h
  split at h
  · cases h; exact hinv
  · split at h
    · have hp := pollUdp_tcp P L W
      revert h
      rcases hpe : pollUdp P L W with ⟨L1, W1⟩
      rw [hpe] at hp
      dsimp only at hp ⊢
      have hinv1 : cursorInv P L1 := by
        unfold cursorInv at *
        rw [hp.1, hp.2.1]; exact hinv
      split
      · intro h; cases h
        have hd := readDatagram_tcp L1 W1 msg P.MsgNull
        unfold cursorInv at *
        rw [hd.1, hd.2.1]; exact hinv1
      · intro h; exact readTcp_cursorInv P L1 W1 msg 0 fuel r hinv1 h
    · exact readTcp_cursorInv P L W msg blockTime fuel r hinv h

/-! ## Construction -/

theorem construct_buffer (P : Protocol) (raw : ServerLink) (addr : Nat) (E : ConnectEnv)
    (L : ServerLink) (h : ServerLink.construct P raw addr E = some L) :
    L.tcpBufferPos = 0 ∧ L.tcpBufferConsumed = 0 ∧
      L.tbuf = List.replicate (P.MaxPacketLen * 4) 0 := by
  unfold ServerLink.construct at h
  dsimp only at h
  repeat' split at h
  all_goals first
    | (cases h; exact ⟨rfl, rfl, rfl⟩)
    | (exfalso; exact Option.noConfusion h)

theorem fill_unconsumed (P : Protocol) (L : ServerLink) (W : World) (blockTime : Int)
    (h : bufferInv P L) :
    ∃ bytes : List Byte,
      unconsumed (fillTcpReadBuffer P L W blockTime).2.1 = unconsumed L ++ bytes ∧
      bufferInv P (fillTcpReadBuffer P L W blockTime).2.1 ∧
      (fillTcpReadBuffer P L W blockTime).2.1.tcpBufferConsumed = 0 := by
  obtain ⟨bytes, hb, heq⟩ := fill_link P L W blockTime
  have hci := compact_bufferInv P L h
  have hcu := unconsumed_compact P L h
  have hc := compact_consumed L
  obtain ⟨⟨h0, h1, h2⟩, h3⟩ := hci
  refine ⟨bytes, ?_, ?_, ?_⟩
  · rw [heq, ← hcu]
    unfold unconsumed
    dsimp only
    rw [hc]
    have e1 : ((compactTcpReadBuffer L).tcpBufferPos + (bytes.length : Int) - 0).toNat =
        (compactTcpReadBuffer L).tcpBufferPos.toNat + bytes.length := by omega
    have e2 : ((compactTcpReadBuffer L).tcpBufferPos - 0).toNat =
        (compactTcpReadBuffer L).tcpBufferPos.toNat := by omega
    rw [e1, e2]
    exact readAt_zero_writeAt_end _ _ _ (by omega)
  · rw [heq]
    refine ⟨⟨?_, ?_, ?_⟩, ?_⟩ <;> dsimp only
    · omega
    · omega
    · omega
    · rw [writeAt_length _ _ _ (by omega)]; exact h3
  · rw [heq]; exact hc

theorem fill_compact (P : Protocol) (L : ServerLink) (W : World) (blockTime : Int) :
    fillTcpReadBuffer P L W blockTime =
      fillTcpReadBuffer P (compactTcpReadBuffer L) W blockTime := by
  unfold fillTcpReadBuffer
  rw [compact_of_consumed_zero (compactTcpReadBuffer L) (compact_consumed L)]

/-- C5: the cursor invariant `0 <= tcpBufferConsumed <= tcpBufferPos <=
sizeof(tbuf)` holds for every link the constructor returns and is preserved
by `fillTcpReadBuffer`, by `tcpPacketIn` and by `read`. -/
theorem C5_cursor_invariant (P : Protocol) :
    (∀ (raw : ServerLink) (addr : Nat) (E : ConnectEnv) (L : ServerLink),
      ServerLink.construct P raw addr E = some L → cursorInv P L) ∧
    (∀ (L : ServerLink) (W : World) (blockTime : Int),
      cursorInv P L → cursorInv P (fillTcpReadBuffer P L W blockTime).2.1) ∧
    (∀ (L : ServerLink) (headerBuffer msg : List Byte),
      cursorInv P L → cursorInv P (tcpPacketIn P L headerBuffer msg).2.2.2) ∧
    (∀ (L : ServerLink) (W : World) (msg : List Byte) (blockTime : Int) (fuel : Nat)
      (r : ReadResult),
      cursorInv P L → read P L W msg blockTime fuel = some r → cursorInv P r.link) := by
  refine ⟨?_, ?_, ?_, ?_⟩
  · intro raw addr E L h
    obtain ⟨hp, hc, _⟩ := construct_buffer P raw addr E L h
    unfold cursorInv sizeofTbuf
    rw [hp, hc]
    omega
  · intro L W blockTime h
    exact fill_cursorInv P L W blockTime h
  · intro L hdr msg h
    exact tcpPacketIn_cursorInv P L hdr msg h
  · intro L W msg blockTime fuel r h hr
    exact read_cursorInv P L W msg blockTime fuel r h hr

/-- C6: compaction. Entered with `tcpBufferConsumed = c > 0`, the compaction
step moves the bytes `[c, p)` to `[0, p - c)` in order and sets the cursors
to `p - c` and `0`; `fillTcpReadBuffer` acts on the compacted buffer, so it
returns with `tcpBufferConsumed = 0` and the unconsumed bytes held before the
call start the unconsumed bytes held after it. -/
theorem C6_compaction (P : Protocol) (L : ServerLink) (W : World) (blockTime : Int)
    (h : bufferInv P L) :
    (0 < L.tcpBufferConsumed →
      (compactTcpReadBuffer L).tcpBufferPos = L.tcpBufferPos - L.tcpBufferConsumed ∧
      (compactTcpReadBuffer L).tcpBufferConsumed = 0 ∧
      readAt (compactTcpReadBuffer L).tbuf 0 (L.tcpBufferPos - L.tcpBufferConsumed).toNat =
        readAt L.tbuf L.tcpBufferConsumed.toNat
          (L.tcpBufferPos - L.tcpBufferConsumed).toNat) ∧
    fillTcpReadBuffer P L W blockTime =
      fillTcpReadBuffer P (compactTcpReadBuffer L) W blockTime ∧
    (fillTcpReadBuffer P L W blockTime).2.1.tcpBufferConsumed = 0 ∧
    unconsumed L <+: unconsumed (fillTcpReadBuffer P L W blockTime).2.1 := by
  obtain ⟨bytes, hu, _, hc⟩ := fill_unconsumed P L W blockTime h
  refine ⟨fun _ => ⟨compact_pos L, compact_consumed L, compact_unconsumed P L h⟩,
    fill_compact P L W blockTime, hc, ?_⟩
  rw [hu]
  exact ⟨bytes, rfl⟩

/-- C7: the compaction step changes nothing when `tcpBufferConsumed = 0`,
and applying it twice gives the same link as applying it once. -/
theorem C7_compaction_idempotent (L : ServerLink) :
    (L.tcpBufferConsumed = 0 → compactTcpReadBuffer L = L) ∧
    compactTcpReadBuffer (compactTcpReadBuffer L) = compactTcpReadBuffer L :=
  ⟨compact_of_consumed_zero L, compact_of_consumed_zero _ (compact_consumed L)⟩

/-- C8: back-pressure. When the unconsumed bytes fill `tbuf`,
`fillTcpReadBuffer` returns 0 and leaves the link and the world as they
were, whatever `blockTime` is: no `select`, no `recv`, the same unconsumed
bytes. -/
theorem C8_back_pressure (P : Protocol) (L : ServerLink) (W : World) (blockTime : Int)
    (h : cursorInv P L) (hfull : L.tcpBufferPos - L.tcpBufferConsumed = sizeofTbuf P) :
    fillTcpReadBuffer P L W blockTime = (0, L, W) ∧
      (fillTcpReadBuffer P L W blockTime).2.2.trace = W.trace ∧
      unconsumed (fillTcpReadBuffer P L W blockTime).2.1 = unconsumed L := by
  obtain ⟨h0, h1, h2⟩ := h
  have hc : L.tcpBufferConsumed = 0 := by omega
  have hcl := compact_of_consumed_zero L hc
  have : fillTcpReadBuffer P L W blockTime = (0, L, W) := by
    rw [fill_full P L W blockTime (by rw [hcl]; omega), hcl]
  rw [this]
  exact ⟨rfl, rfl, rfl⟩

/-- C9: a link whose state is not `Okay` is inert: `send` makes no system
call and returns the link unchanged, `read` returns -1 with `code = MsgNull`
and `len = 0`, makes no system call and leaves the link and `msg` unchanged. -/
theorem C9_inactive_link_inert (P : Protocol) (L : ServerLink) (W : World) (code len : Nat)
    (msg : Option (List Byte)) (msgbuf rmsg : List Byte) (blockTime : Int) (fuel : Nat)
    (h : L.state ≠ State.Okay) :
    send P L W code len msg msgbuf = (L, W) ∧
    read P L W rmsg blockTime fuel = some ⟨-1, P.MsgNull, 0, rmsg, L, W⟩ := by
  constructor
  · simp [send, h]
  · simp [read, h]

theorem C5_cursor_invariant_witness :
    (∃ L, ServerLink.construct tinyProtocol sampleLink 1 sampleHandshake = some L ∧
      L.state = State.Okay ∧ cursorInv tinyProtocol L) ∧
    cursorInv tinyProtocol sampleLink ∧
    cursorInv tinyProtocol (fillTcpReadBuffer tinyProtocol sampleLink idleWorld 0).2.1 ∧
    cursorInv tinyProtocol (tcpPacketIn tinyProtocol sampleLink [0, 0, 0, 0] []).2.2.2 ∧
    read tinyProtocol sampleLink idleWorld [] 0 1 =
      some ⟨1, 0x7075, 2, [9, 8], { sampleLink with tcpBufferConsumed := 8 }, idleWorld⟩ ∧
    cursorInv tinyProtocol { sampleLink with tcpBufferConsumed := 8 } :=
  ⟨⟨_, rfl, by decide,
      (C5_cursor_invariant tinyProtocol).1 sampleLink 1 sampleHandshake _ rfl⟩,
    by decide,
    (C5_cursor_invariant tinyProtocol).2.1 sampleLink idleWorld 0 (by decide),
    (C5_cursor_invariant tinyProtocol).2.2.1 sampleLink [0, 0, 0, 0] [] (by decide),
    by decide,
    (C5_cursor_invariant tinyProtocol).2.2.2 sampleLink idleWorld [] 0 1
      ⟨1, 0x7075, 2, [9, 8], { sampleLink with tcpBufferConsumed := 8 }, idleWorld⟩
      (by decide) (by decide)⟩

theorem C6_compaction_witness :
    bufferInv tinyProtocol sampleLink ∧ 0 < sampleLink.tcpBufferConsumed ∧
    unconsumed sampleLink = [0, 2, 0x70, 0x75, 9, 8] ∧
    (fillTcpReadBuffer tinyProtocol sampleLink idleWorld 0).2.1.tcpBufferConsumed = 0 ∧
    unconsumed sampleLink <+:
      unconsumed (fillTcpReadBuffer tinyProtocol sampleLink idleWorld 0).2.1 :=
  ⟨by decide, by decide, by decide,
    (C6_compaction tinyProtocol sampleLink idleWorld 0 (by decide)).2.2.1,
    (C6_compaction tinyProtocol sampleLink idleWorld 0 (by decide)).2.2.2⟩

theorem C8_back_pressure_witness :
    cursorInv tinyProtocol fullLink ∧
    fullLink.tcpBufferPos - fullLink.tcpBufferConsumed = sizeofTbuf tinyProtocol ∧
    fillTcpReadBuffer tinyProtocol fullLink idleWorld (-1) = (0, fullLink, idleWorld) :=
  ⟨by decide, by decide, (C8_back_pressure tinyProtocol fullLink idleWorld (-1) (by decide)
    (by decide)).1⟩

theorem C9_inactive_link_inert_witness :
    send bzflagProtocol { sampleLink with state := State.Rejected } idleWorld 0x7075 2
        (some [9, 8]) [] = ({ sampleLink with state := State.Rejected }, idleWorld) ∧
    read bzflagProtocol { sampleLink with state := State.Rejected } idleWorld [] 0 1 =
      some ⟨-1, 0, 0, [], { sampleLink with state := State.Rejected }, idleWorld⟩ :=
  C9_inactive_link_inert bzflagProtocol { sampleLink with state := State.Rejected } idleWorld
    0x7075 2 (some [9, 8]) [] [] 0 1 (by decide)

theorem pack_header (msgbuf : List Byte) (code len : Nat) :
    (nboPackUShort (nboPackUShort msgbuf 0 len).1 (nboPackUShort msgbuf 0 len).2 code) =
      ([byteOf (len / 256), byteOf len, byteOf (code / 256), byteOf code] ++ msgbuf.drop 4, 4) := by
  simp [nboPackUShort, writeAt]

theorem pack_payload (hd rest data : List Byte) (h : hd.length = 4) :
    readAt (writeAt (hd ++ rest) 4 data) 0 (data.length + 4) = hd ++ data := by
  have e : data.length + 4 = 4 + data.length := by omega
  rw [e, readAt_zero_writeAt_end _ _ _ (by simp; omega)]
  simp [readAt, ← h]

theorem byteOf_val (n : Nat) (h : n < 256) : (byteOf n).val = n := by
  simp [byteOf, Nat.mod_eq_of_lt h]

theorem unconsumed_congr (L1 L : ServerLink) (h1 : L1.tbuf = L.tbuf)
    (h2 : L1.tcpBufferPos = L.tcpBufferPos) (h3 : L1.tcpBufferConsumed = L.tcpBufferConsumed) :
    unconsumed L1 = unconsumed L := by
  unfold unconsumed; rw [h1, h2, h3]

theorem bufferInv_congr (P : Protocol) (L1 L : ServerLink) (h1 : L1.tbuf = L.tbuf)
    (h2 : L1.tcpBufferPos = L.tcpBufferPos) (h3 : L1.tcpBufferConsumed = L.tcpBufferConsumed)
    (h : bufferInv P L) : bufferInv P L1 := by
  unfold bufferInv cursorInv at *; rw [h1, h2, h3]; exact h

theorem reliableEntry_tcp (P : Protocol) (L : ServerLink) (W : World) :
    (reliableEntry P L W).1.tcpBufferPos = L.tcpBufferPos ∧
      (reliableEntry P L W).1.tcpBufferConsumed = L.tcpBufferConsumed ∧
      (reliableEntry P L W).1.tbuf = L.tbuf ∧ (reliableEntry P L W).1.state = L.state := by
  unfold reliableEntry
  split
  · exact pollUdp_tcp P L W
  · exact ⟨rfl, rfl, rfl, rfl⟩

theorem read_reliable (P : Protocol) (L : ServerLink) (W : World) (msg : List Byte)
    (blockTime : Int) (fuel : Nat) (hs : L.state = State.Okay) (hn : noDatagram P L W) :
    read P L W msg blockTime fuel =
      readTcp P (reliableEntry P L W).1 (reliableEntry P L W).2 msg
        (reliableBlockTime L blockTime) fuel := by
  unfold read reliableEntry reliableBlockTime
  simp only [hs, ne_eq, not_true_eq_false, if_false]
  by_cases hu : L.urecvfd ≥ 0
  · have hz : (pollUdp P L W).1.udpLength = 0 := by
      rcases hn with h | h
      · omega
      · exact h
    simp only [hu, if_true]
    rcases hp : pollUdp P L W with ⟨L1, W1⟩
    rw [hp] at hz
    have hz1 : L1.udpLength = 0 := hz
    simp only [hz1, not_true_eq_false, if_false]
  · simp only [hu, if_false]

theorem readTcp_of_packet (P : Protocol) (L : ServerLink) (W : World) (msg : List Byte)
    (blockTime : Int) (fuel : Nat) (hdr msg1 : List Byte) (L1 : ServerLink)
    (h : tcpPacketIn P L [0, 0, 0, 0] msg = (true, hdr, msg1, L1)) :
    readTcp P L W msg blockTime fuel = some (readHeader P L1 W hdr msg1) := by
  unfold readTcp
  dsimp only
  rw [h]

theorem readHeader_spec (P : Protocol) (L : ServerLink) (W : World) (hdr msg u : List Byte)
    (h : 4 ≤ u.length) :
    readHeader P L W (writeAt hdr 0 (u.take 4)) msg =
      if (frameLen u : Int) > (P.MaxPacketLen : Int) - 4 then
        ⟨-1, frameCode u, frameLen u, msg, L, W⟩
      else ⟨1, frameCode u, frameLen u, msg, L, W⟩ := by
  have h1 : (nboUnpackUShort (writeAt hdr 0 (u.take 4)) 0).1 = frameLen u := by
    rw [← frameLen_writeAt hdr u h]; rfl
  have h2 : (nboUnpackUShort (writeAt hdr 0 (u.take 4))
      (nboUnpackUShort (writeAt hdr 0 (u.take 4)) 0).2).1 = frameCode u := by
    rw [← frameCode_writeAt hdr u h]; rfl
  unfold readHeader
  simp only [h1, h2]

theorem encode_length (f : Frame) : f.encode.length = f.payload.length + 4 := by
  simp [Frame.encode]

theorem frameLen_encode (f : Frame) (rest : List Byte) (h : f.len < 65536) :
    frameLen (f.encode ++ rest) = f.len := by
  simp only [frameLen, Frame.encode, List.cons_append, List.getD_cons_zero, List.getD_cons_succ,
    byteOf]
  omega

theorem frameCode_encode (f : Frame) (rest : List Byte) (h : f.code < 65536) :
    frameCode (f.encode ++ rest) = f.code := by
  simp only [frameCode, Frame.encode, List.cons_append, List.getD_cons_zero, List.getD_cons_succ,
    byteOf]
  omega

theorem encode_payload (f : Frame) (rest : List Byte) :
    ((f.encode ++ rest).drop 4).take f.payload.length = f.payload := by
  simp [Frame.encode]

theorem writeAt_zero_take (msg data : List Byte) :
    (writeAt msg 0 data).take data.length = data := by
  simp [writeAt]

theorem placeInBuffer_inv (P : Protocol) (R : ServerLink) (bytes : List Byte)
    (hsize : (R.tbuf.length : Int) = sizeofTbuf P) (hb : (bytes.length : Int) ≤ sizeofTbuf P) :
    bufferInv P (placeInBuffer R bytes) ∧ unconsumed (placeInBuffer R bytes) = bytes := by
  refine ⟨⟨⟨?_, ?_, ?_⟩, ?_⟩, ?_⟩
  · simp [placeInBuffer]
  · simp [placeInBuffer]
  · simpa [placeInBuffer] using hb
  · show ((writeAt R.tbuf 0 bytes).length : Int) = _
    rw [writeAt_length _ _ _ (by omega)]; exact hsize
  · show readAt (writeAt R.tbuf 0 bytes) (0 : Int).toNat ((bytes.length : Int) - 0).toNat = bytes
    have : ((bytes.length : Int) - 0).toNat = bytes.length := by omega
    rw [this]
    exact readAt_writeAt_same _ _ _ (Nat.zero_le _)

/-- What `tcpPacketIn` does when the unconsumed bytes start with a complete
well-formed frame. -/
theorem tcpPacketIn_frame (P : Protocol) (L : ServerLink) (hdr msg : List Byte) (f : Frame)
    (rest : List Byte) (h : bufferInv P L) (hf : f.wellFormed P)
    (hu : unconsumed L = f.encode ++ rest) :
    tcpPacketIn P L hdr msg =
      (true, writeAt hdr 0 ((unconsumed L).take 4),
        (if f.len ≠ 0 then writeAt msg 0 f.payload else msg),
        { L with tcpBufferConsumed := L.tcpBufferConsumed + ((f.len : Int) + 4) }) := by
  obtain ⟨hcode, hlen16, hpay, hlen⟩ := hf
  have hfl : frameLen (unconsumed L) = f.len := by rw [hu]; exact frameLen_encode f rest hlen16
  have hlenu : (unconsumed L).length = f.len + 4 + rest.length := by
    rw [hu, List.length_append, encode_length, hpay]
  have hp : ((unconsumed L).drop 4).take f.len = f.payload := by
    rw [hu, ← hpay]; exact encode_payload f rest
  rw [tcpPacketIn_spec P L hdr msg h, hfl, hp]
  have h1 : ¬ (unconsumed L).length < 4 := by omega
  have h2 : ¬ ((f.len : Int) + 4 > P.MaxPacketLen) := by omega
  have h3 : ¬ (unconsumed L).length < f.len + 4 := by omega
  simp only [h1, h2, h3, if_false]

theorem unconsumed_advance (P : Protocol) (L : ServerLink) (n : Nat) (h : bufferInv P L)
    (hn : n ≤ (unconsumed L).length) :
    bufferInv P { L with tcpBufferConsumed := L.tcpBufferConsumed + (n : Int) } ∧
    unconsumed { L with tcpBufferConsumed := L.tcpBufferConsumed + (n : Int) } =
      (unconsumed L).drop n := by
  have hlen := unconsumed_length P L h
  obtain ⟨⟨h0, h1, h2⟩, h3⟩ := h
  refine ⟨⟨⟨?_, ?_, ?_⟩, ?_⟩, ?_⟩
  · show 0 ≤ L.tcpBufferConsumed + (n : Int); omega
  · show L.tcpBufferConsumed + (n : Int) ≤ L.tcpBufferPos; omega
  · exact h2
  · exact h3
  · unfold unconsumed readAt
    dsimp only
    rw [List.drop_take, List.drop_drop]
    congr 1
    · omega
    · congr 1; omega

theorem encodeAll_cons (f : Frame) (fs : List Frame) :
    encodeAll (f :: fs) = f.encode ++ encodeAll fs := by
  simp [encodeAll]

theorem frameLen_append (u p : List Byte) (h : 2 ≤ u.length) :
    frameLen (u ++ p) = frameLen u := by
  unfold frameLen
  simp only [List.getD_eq_getElem?_getD]
  rw [List.getElem?_append_left (by omega), List.getElem?_append_left (by omega)]

theorem frameCode_append (u p : List Byte) (h : 4 ≤ u.length) :
    frameCode (u ++ p) = frameCode u := by
  unfold frameCode
  simp only [List.getD_eq_getElem?_getD]
  rw [List.getElem?_append_left (by omega), List.getElem?_append_left (by omega)]

theorem append_split (u p a b : List Byte) (h : u ++ p = a ++ b) (hl : a.length ≤ u.length) :
    ∃ rest, u = a ++ rest ∧ rest ++ p = b := by
  rcases List.append_eq_append_iff.mp h with ⟨a', h1, h2⟩ | ⟨c', h1, h2⟩
  · -- a = u ++ a', p = a' ++ b
    have : a'.length = 0 := by
      have := congrArg List.length h1
      simp at this; omega
    have ha' : a' = [] := List.length_eq_zero.mp this
    subst ha'
    exact ⟨[], by simpa using h1.symm, by simpa using h2⟩
  · exact ⟨c', h1, h2.symm⟩

/-- What the unconsumed bytes hold in the middle of a stream: the complete
next frame, or too little for `tcpPacketIn` to extract one. -/
theorem stream_classify (P : Protocol) (L : ServerLink) (p : List Byte) (fs : List Frame)
    (hP : 4 ≤ P.MaxPacketLen) (h : bufferInv P L) (hst : unconsumed L ++ p = encodeAll fs)
    (hwf : ∀ f ∈ fs, f.wellFormed P) :
    (∃ f fs' rest, fs = f :: fs' ∧ unconsumed L = f.encode ++ rest ∧
      rest ++ p = encodeAll fs') ∨
    ((∀ hdr msg, ∃ hdr', tcpPacketIn P L hdr msg = (false, hdr', msg, L)) ∧
      (unconsumed L).length < P.MaxPacketLen ∧ (p = [] → fs = [] ∧ unconsumed L = [])) := by
  cases fs with
  | nil =>
    right
    have hnil : unconsumed L ++ p = [] := by simpa [encodeAll] using hst
    have hu : unconsumed L = [] := (List.append_eq_nil.mp hnil).1
    refine ⟨?_, by rw [hu]; simp; omega, fun _ => ⟨rfl, hu⟩⟩
    intro hdr msg
    refine ⟨hdr, ?_⟩
    rw [tcpPacketIn_spec P L hdr msg h, hu]
    simp
  | cons f fs' =>
    rw [encodeAll_cons] at hst
    obtain ⟨hcode, hlen16, hpay, hlen⟩ := hwf f (List.mem_cons_self _ _)
    have hel : f.encode.length = f.len + 4 := by rw [encode_length, hpay]
    by_cases hc : f.encode.length ≤ (unconsumed L).length
    · left
      obtain ⟨rest, h1, h2⟩ := append_split _ _ _ _ hst hc
      exact ⟨f, fs', rest, rfl, h1, h2⟩
    · right
      have hshort : (unconsumed L).length < f.len + 4 := by omega
      refine ⟨?_, by omega, ?_⟩
      · intro hdr msg
        rw [tcpPacketIn_spec P L hdr msg h]
        by_cases h4 : (unconsumed L).length < 4
        · exact ⟨hdr, by simp only [h4, if_true]⟩
        · have hfl : frameLen (unconsumed L) = f.len := by
            rw [← frameLen_append (unconsumed L) p (by omega), hst]
            exact frameLen_encode f _ hlen16
          refine ⟨writeAt hdr 0 ((unconsumed L).take 4), ?_⟩
          have h2 : ¬ ((f.len : Int) + 4 > P.MaxPacketLen) := by omega
          simp only [h4, if_false, hfl, h2, hshort, if_true]
      · intro hp
        subst hp
        rw [List.append_nil] at hst
        rw [hst, List.length_append] at hc
        omega

/-- Delivery of the complete frame that starts the unconsumed bytes. -/
theorem stream_deliver (P : Protocol) (L : ServerLink) (W : World) (hdr msg : List Byte)
    (f : Frame) (rest : List Byte) (h : bufferInv P L) (hf : f.wellFormed P)
    (hu : unconsumed L = f.encode ++ rest) :
    ∃ hdr' msg' L',
      tcpPacketIn P L hdr msg = (true, hdr', msg', L') ∧
      readHeader P L' W hdr' msg' = ⟨1, f.code, f.len, msg', L', W⟩ ∧
      msg'.take f.len = f.payload ∧ bufferInv P L' ∧ unconsumed L' = rest ∧
      L'.state = L.state ∧ L'.urecvfd = L.urecvfd := by
  have hpk := tcpPacketIn_frame P L hdr msg f rest h hf hu
  obtain ⟨hcode, hlen16, hpay, hlen⟩ := hf
  have hel : f.encode.length = f.len + 4 := by rw [encode_length, hpay]
  have h4 : 4 ≤ (unconsumed L).length := by rw [hu, List.length_append, hel]; omega
  have hadv := unconsumed_advance P L (f.len + 4) h
    (by rw [hu, List.length_append, hel]; omega)
  refine ⟨_, _, _, hpk, ?_, ?_, ?_, ?_, rfl, rfl⟩
  · rw [readHeader_spec P _ W hdr _ (unconsumed L) h4, hu, frameLen_encode f rest hlen16,
      frameCode_encode f rest hcode]
    have hnb : ¬ ((f.len : Int) > (P.MaxPacketLen : Int) - 4) := by omega
    rw [if_neg hnb]
  · by_cases hz : f.len = 0
    · have : f.payload = [] := List.length_eq_zero.mp (by omega)
      simp [hz, this]
    · rw [if_pos hz, ← hpay]; exact writeAt_zero_take msg f.payload
  · have := hadv.1
    push_cast at this
    exact this
  · have := hadv.2
    push_cast at this
    rw [this, hu, ← hel, List.drop_left]

theorem unconsumed_append (P : Protocol) (Lc : ServerLink) (bytes : List Byte)
    (h : bufferInv P Lc) (hc : Lc.tcpBufferConsumed = 0)
    (hb : (bytes.length : Int) ≤ sizeofTbuf P - Lc.tcpBufferPos) :
    bufferInv P { Lc with tbuf := writeAt Lc.tbuf Lc.tcpBufferPos.toNat bytes,
                          tcpBufferPos := Lc.tcpBufferPos + bytes.length } ∧
    unconsumed { Lc with tbuf := writeAt Lc.tbuf Lc.tcpBufferPos.toNat bytes,
                         tcpBufferPos := Lc.tcpBufferPos + bytes.length } =
      unconsumed Lc ++ bytes := by
  obtain ⟨⟨h0, h1, h2⟩, h3⟩ := h
  constructor
  · refine ⟨⟨?_, ?_, ?_⟩, ?_⟩ <;> dsimp only
    · omega
    · omega
    · omega
    · rw [writeAt_length _ _ _ (by omega)]; exact h3
  · unfold unconsumed
    dsimp only
    rw [hc]
    have e1 : (Lc.tcpBufferPos + (bytes.length : Int) - 0).toNat =
        Lc.tcpBufferPos.toNat + bytes.length := by omega
    have e2 : (Lc.tcpBufferPos - 0).toNat = Lc.tcpBufferPos.toNat := by omega
    rw [e1, e2]
    exact readAt_zero_writeAt_end _ _ _ (by omega)

theorem fillRecvResult_data (P : Protocol) (Lc : ServerLink) (W1 W2 : World) (bytes : List Byte)
    (h : W1.recv Lc.fd (sizeofTbuf P - Lc.tcpBufferPos).toNat = (RecvOutcome.data bytes, W2)) :
    fillRecvResult P Lc W1 =
      (0, { Lc with tbuf := writeAt Lc.tbuf Lc.tcpBufferPos.toNat bytes,
                    tcpBufferPos := Lc.tcpBufferPos + bytes.length }, W2) := by
  unfold fillRecvResult
  rw [h]
  dsimp only
  split
  · rfl
  · rename_i hz
    have : bytes = [] := by
      have : (bytes.length : Int) = 0 := by simpa using hz
      exact List.length_eq_zero.mp (by omega)
    subst this
    simp [writeAt_nil]

theorem fillRecvResult_again (P : Protocol) (Lc : ServerLink) (W1 W2 : World)
    (h : W1.recv Lc.fd (sizeofTbuf P - Lc.tcpBufferPos).toNat =
      (RecvOutcome.error Errno.EAGAIN, W2)) :
    fillRecvResult P Lc W1 = (0, Lc, W2) := by
  unfold fillRecvResult
  rw [h]
  simp

/-- One `recv` of `n > 0` bytes on a stream socket that holds the chunks `cs`. -/
theorem recv_stream (W1 : World) (fd : Int) (n : Nat) (cs : List (List Byte)) (hn : 0 < n)
    (hin : W1.tcpIn = cs.map RecvOutcome.data) :
    (cs = [] ∧ ∃ W2, W1.recv fd n = (RecvOutcome.error Errno.EAGAIN, W2) ∧ W2.tcpIn = [] ∧
      W2.selects = W1.selects) ∨
    (cs ≠ [] ∧ ∃ W2 taken cs', W1.recv fd n = (RecvOutcome.data taken, W2) ∧
      W2.tcpIn = cs'.map RecvOutcome.data ∧ W2.selects = W1.selects ∧
      taken ++ cs'.flatten = cs.flatten ∧ taken.length ≤ n ∧ pending cs' < pending cs) := by
  cases cs with
  | nil =>
    left
    refine ⟨rfl, ?_⟩
    simp only [List.map_nil] at hin
    unfold World.recv
    rw [hin]
    exact ⟨_, rfl, rfl, rfl⟩
  | cons c rest =>
    right
    refine ⟨by simp, ?_⟩
    simp only [List.map_cons] at hin
    unfold World.recv
    rw [hin]
    dsimp only
    by_cases hc : c.length ≤ n
    · rw [if_pos hc]
      refine ⟨_, c, rest, rfl, rfl, rfl, by simp, hc, ?_⟩
      simp [pending]; omega
    · rw [if_neg hc]
      refine ⟨_, c.take n, c.drop n :: rest, rfl, rfl, rfl,
        by simp [← List.append_assoc], by simp, ?_⟩
      simp [pending]; omega

theorem compact_session (L : ServerLink) :
    (compactTcpReadBuffer L).state = L.state ∧ (compactTcpReadBuffer L).urecvfd = L.urecvfd ∧
      (compactTcpReadBuffer L).fd = L.fd := by
  rw [compact_eq]
  exact ⟨rfl, rfl, rfl⟩

/-- One `fillTcpReadBuffer` in the middle of a stream, when the unconsumed
bytes are fewer than `MaxPacketLen`: the call returns 0, moves bytes from the
socket to the buffer and keeps the stream intact; unless the socket holds
nothing, what it holds shrinks. -/
theorem fill_stream (P : Protocol) (L : ServerLink) (W : World) (blockTime : Int)
    (cs : List (List Byte)) (fs : List Frame) (hP : 4 ≤ P.MaxPacketLen)
    (h : StreamInv P L W cs fs) (hroom : (unconsumed L).length < P.MaxPacketLen) :
    ∃ L1 W1 cs1, fillTcpReadBuffer P L W blockTime = (0, L1, W1) ∧ StreamInv P L1 W1 cs1 fs ∧
      ((cs = [] ∧ cs1 = []) ∨ pending cs1 < pending cs) := by
  have hci := compact_bufferInv P L h.buffer
  have hcu := unconsumed_compact P L h.buffer
  have hcc := compact_consumed L
  have hcp := compact_pos L
  have hul := unconsumed_length P L h.buffer
  obtain ⟨hst, hur, _⟩ := compact_session L
  have hsz : sizeofTbuf P = (P.MaxPacketLen : Int) * 4 := rfl
  have hsp : sizeofTbuf P - (compactTcpReadBuffer L).tcpBufferPos ≠ 0 := by omega
  have hn : 0 < (sizeofTbuf P - (compactTcpReadBuffer L).tcpBufferPos).toNat := by omega
  -- the world the recv acts on
  obtain ⟨W0, hfill, hin0, hsel0⟩ : ∃ W0, fillTcpReadBuffer P L W blockTime =
      fillRecvResult P (compactTcpReadBuffer L) W0 ∧ W0.tcpIn = cs.map RecvOutcome.data ∧
      ∀ r ∈ W0.selects, 0 ≤ r := by
    by_cases hb : blockTime = 0
    · subst hb
      exact ⟨W, fill_poll P L W hsp, h.tcpIn, h.selects⟩
    · obtain ⟨s1, s2, s3, _⟩ := select_spec W (compactTcpReadBuffer L).fd h.selects
      exact ⟨_, fill_block P L W blockTime hsp hb (by omega), s3.trans h.tcpIn, s2⟩
  rcases recv_stream W0 (compactTcpReadBuffer L).fd _ cs hn hin0 with
    ⟨hcs, W2, hrecv, hin2, hsel2⟩ | ⟨hcs, W2, taken, cs1, hrecv, hin2, hsel2, htk, htl, hpend⟩
  · subst hcs
    refine ⟨compactTcpReadBuffer L, W2, [], hfill.trans (fillRecvResult_again P _ W0 W2 hrecv),
      ?_, Or.inl ⟨rfl, rfl⟩⟩
    · exact ⟨hst.trans h.okay, by rw [hur]; exact h.noUdp, hci, hin2,
        by rw [hsel2]; exact hsel0, by rw [hcu]; exact h.stream, h.frames⟩
  · obtain ⟨hinv1, hu1⟩ := unconsumed_append P (compactTcpReadBuffer L) taken hci hcc (by omega)
    refine ⟨_, W2, cs1, hfill.trans (fillRecvResult_data P _ W0 W2 taken hrecv), ?_,
      Or.inr hpend⟩
    refine ⟨hst.trans h.okay, ?_, hinv1, hin2, by rw [hsel2]; exact hsel0, ?_, h.frames⟩
    · show (compactTcpReadBuffer L).urecvfd < 0
      rw [hur]; exact h.noUdp
    · rw [hu1, hcu, List.append_assoc, htk]; exact h.stream

theorem stream_cases (P : Protocol) (L : ServerLink) (W : World) (cs : List (List Byte))
    (fs : List Frame) (hP : 4 ≤ P.MaxPacketLen) (h : StreamInv P L W cs fs) :
    (∃ f fs' rest, fs = f :: fs' ∧ unconsumed L = f.encode ++ rest ∧
      rest ++ cs.flatten = encodeAll fs') ∨
    (Starved P L ∧ (cs.flatten = [] → fs = [] ∧ unconsumed L = [])) := by
  rcases stream_classify P L cs.flatten fs hP h.buffer h.stream h.frames with h1 | ⟨h1, h2, h3⟩
  · exact Or.inl h1
  · exact Or.inr ⟨⟨h1, h2⟩, h3⟩

/-- In the middle of a stream, with the complete next frame buffered,
`tcpPacketIn` followed by the decoding of the header delivers that frame. -/
theorem stream_extract (P : Protocol) (L : ServerLink) (W : World) (cs : List (List Byte))
    (f : Frame) (fs' : List Frame) (rest hdr msg : List Byte)
    (h : StreamInv P L W cs (f :: fs')) (hu : unconsumed L = f.encode ++ rest)
    (hrest : rest ++ cs.flatten = encodeAll fs') :
    ∃ hdr' msg' L', tcpPacketIn P L hdr msg = (true, hdr', msg', L') ∧
      (readHeader P L' W hdr' msg').ret = 1 ∧ (readHeader P L' W hdr' msg').frame = f ∧
      StreamInv P (readHeader P L' W hdr' msg').link (readHeader P L' W hdr' msg').world cs fs' := by
  have hf := h.frames f (List.mem_cons_self _ _)
  obtain ⟨hdr', msg', L', hpk, hrh, hmsg, hinv, hu', hst, hur⟩ :=
    stream_deliver P L W hdr msg f rest h.buffer hf hu
  refine ⟨hdr', msg', L', hpk, ?_, ?_, ?_⟩
  · rw [hrh]
  · rw [hrh]
    show (⟨f.code, f.len, msg'.take f.len⟩ : Frame) = f
    rw [hmsg]
  · rw [hrh]
    exact ⟨hst.trans h.okay, by rw [hur]; exact h.noUdp, hinv, h.tcpIn, h.selects,
      by rw [hu']; exact hrest, fun g hg => h.frames g (List.mem_cons_of_mem _ hg)⟩

theorem readLoop_found (P : Protocol) (blockTime : Int) (n : Nat) (L L1 L2 : ServerLink)
    (W W1 : World) (hdr msg hdr' msg' : List Byte)
    (hfill : fillTcpReadBuffer P L W blockTime = (0, L1, W1))
    (hpk : tcpPacketIn P L1 hdr msg = (true, hdr', msg', L2)) :
    readLoop P blockTime (n + 1) L W hdr msg = some (readHeader P L2 W1 hdr' msg') := by
  rw [readLoop, hfill]
  simp [hpk]

theorem readLoop_starved (P : Protocol) (blockTime : Int) (n : Nat) (L L1 L2 : ServerLink)
    (W W1 : World) (hdr msg hdr' msg' : List Byte)
    (hfill : fillTcpReadBuffer P L W blockTime = (0, L1, W1))
    (hpk : tcpPacketIn P L1 hdr msg = (false, hdr', msg', L2)) :
    readLoop P blockTime (n + 1) L W hdr msg =
      if blockTime ≥ 0 then some ⟨0, P.MsgNull, 0, msg', L2, W1⟩
      else readLoop P blockTime n L2 W1 hdr' msg' := by
  rw [readLoop, hfill]
  simp [hpk]

theorem read_stream (P : Protocol) (L : ServerLink) (W : World) (cs : List (List Byte))
    (fs : List Frame) (msg : List Byte) (blockTime : Int) (fuel : Nat)
    (h : StreamInv P L W cs fs) :
    read P L W msg blockTime fuel = readTcp P L W msg blockTime fuel := by
  have hu : ¬ L.urecvfd ≥ 0 := by have := h.noUdp; omega
  unfold read
  simp only [h.okay, ne_eq, not_true_eq_false, if_false, hu]

/-- One polling `read` in the middle of a stream: it delivers the next frame,
or reports no message having made progress on the socket, unless everything
has been delivered. -/
theorem read_poll (P : Protocol) (L : ServerLink) (W : World) (cs : List (List Byte))
    (fs : List Frame) (msg : List Byte) (blockTime : Int) (fuel : Nat)
    (hP : 4 ≤ P.MaxPacketLen) (h : StreamInv P L W cs fs) (hbt : 0 ≤ blockTime)
    (hfuel : 1 ≤ fuel) :
    ∃ r, read P L W msg blockTime fuel = some r ∧
      ((∃ f fs' cs1, fs = f :: fs' ∧ r.ret = 1 ∧ r.frame = f ∧
          StreamInv P r.link r.world cs1 fs' ∧ pending cs1 ≤ pending cs) ∨
        (∃ cs1, r.ret = 0 ∧ StreamInv P r.link r.world cs1 fs ∧
          ((cs = [] ∧ cs1 = [] ∧ fs = []) ∨ pending cs1 < pending cs))) := by
  rw [read_stream P L W cs fs msg blockTime fuel h]
  rcases stream_cases P L W cs fs hP h with ⟨f, fs', rest, hfs, hu, hrest⟩ | ⟨⟨hst, hroom⟩, hdone⟩
  · subst hfs
    obtain ⟨hdr', msg', L', hpk, hret, hfr, hinv⟩ :=
      stream_extract P L W cs f fs' rest [0, 0, 0, 0] msg h hu hrest
    refine ⟨_, readTcp_of_packet P L W msg blockTime fuel hdr' msg' L' hpk, Or.inl ?_⟩
    exact ⟨f, fs', cs, rfl, hret, hfr, hinv, Nat.le_refl _⟩
  · obtain ⟨hdr0, hpk0⟩ := hst [0, 0, 0, 0] msg
    obtain ⟨n, rfl⟩ : ∃ n, fuel = n + 1 := ⟨fuel - 1, by omega⟩
    have hrt : readTcp P L W msg blockTime (n + 1) =
        readLoop P blockTime (n + 1) L W hdr0 msg := by
      unfold readTcp
      dsimp only
      rw [hpk0]
    rw [hrt]
    obtain ⟨L1, W1, cs1, hfill, hinv1, hprog⟩ := fill_stream P L W blockTime cs fs hP h hroom
    rcases stream_cases P L1 W1 cs1 fs hP hinv1 with
      ⟨f, fs', rest, hfs, hu, hrest⟩ | ⟨⟨hst1, _⟩, hdone1⟩
    · subst hfs
      obtain ⟨hdr', msg', L', hpk, hret, hfr, hinv⟩ :=
        stream_extract P L1 W1 cs1 f fs' rest hdr0 msg hinv1 hu hrest
      refine ⟨_, readLoop_found P blockTime n L L1 L' W W1 hdr0 msg hdr' msg' hfill hpk,
        Or.inl ?_⟩
      refine ⟨f, fs', cs1, rfl, hret, hfr, hinv, ?_⟩
      rcases hprog with ⟨_, h2⟩ | h2
      · subst h2; simp [pending]
      · omega
    · obtain ⟨hdr1, hpk1⟩ := hst1 hdr0 msg
      have hl := readLoop_starved P blockTime n L L1 L1 W W1 hdr0 msg hdr1 msg hfill hpk1
      rw [if_pos hbt] at hl
      refine ⟨_, hl, Or.inr ⟨cs1, rfl, hinv1, ?_⟩⟩
      rcases hprog with ⟨h1, h2⟩ | h2
      · subst h1
        exact Or.inl ⟨rfl, h2, (hdone rfl).1⟩
      · exact Or.inr h2

/-- The receive loop of a blocking `read` in the middle of a stream, entered
without a complete frame in the buffer: it returns with the next frame once
it has enough rounds to drain what the socket holds. -/
theorem readLoop_block (P : Protocol) (f : Frame) (fs' : List Frame) (blockTime : Int)
    (hP : 4 ≤ P.MaxPacketLen) (hbt : blockTime < 0) :
    ∀ (fuel : Nat) (L : ServerLink) (W : World) (cs : List (List Byte)) (hdr msg : List Byte),
      StreamInv P L W cs (f :: fs') → Starved P L → pending cs + 1 ≤ fuel →
      ∃ r cs1, readLoop P blockTime fuel L W hdr msg = some r ∧ r.ret = 1 ∧ r.frame = f ∧
        StreamInv P r.link r.world cs1 fs' ∧ pending cs1 ≤ pending cs := by
  intro fuel
  induction fuel with
  | zero => intro L W cs hdr msg _ _ hf; omega
  | succ n ih =>
    intro L W cs hdr msg h hst hf
    obtain ⟨L1, W1, cs1, hfill, hinv1, hprog⟩ :=
      fill_stream P L W blockTime cs (f :: fs') hP h hst.2
    have hcs : cs.flatten ≠ [] := by
      intro hc
      rcases stream_cases P L W cs (f :: fs') hP h with
        ⟨g, gs, rest, hfs, hu, hrest⟩ | ⟨_, hdone⟩
      · cases hfs
        obtain ⟨_, _, _, hpk, _⟩ := stream_extract P L W cs f fs' rest hdr msg h hu hrest
        obtain ⟨_, hpk'⟩ := hst.1 hdr msg
        rw [hpk] at hpk'
        cases hpk'
      · exact absurd (hdone hc).1 (by simp)
    have hlt : pending cs1 < pending cs := by
      rcases hprog with ⟨h1, _⟩ | h2
      · subst h1; simp at hcs
      · exact h2
    rcases stream_cases P L1 W1 cs1 (f :: fs') hP hinv1 with
      ⟨g, gs, rest, hfs, hu, hrest⟩ | ⟨hst1, _⟩
    · cases hfs
      obtain ⟨hdr', msg', L', hpk, hret, hfr, hinv⟩ :=
        stream_extract P L1 W1 cs1 f fs' rest hdr msg hinv1 hu hrest
      exact ⟨_, cs1, readLoop_found P blockTime n L L1 L' W W1 hdr msg hdr' msg' hfill hpk,
        hret, hfr, hinv, by omega⟩
    · obtain ⟨hdr1, hpk1⟩ := hst1.1 hdr msg
      have hl := readLoop_starved P blockTime n L L1 L1 W W1 hdr msg hdr1 msg hfill hpk1
      rw [if_neg (by omega)] at hl
      obtain ⟨r, cs2, hr, hret, hfr, hinv, hp⟩ := ih L1 W1 cs1 hdr1 msg hinv1 hst1 (by omega)
      exact ⟨r, cs2, hl.trans hr, hret, hfr, hinv, by omega⟩

/-- One blocking `read` in the middle of a stream returns the next frame. -/
theorem read_block (P : Protocol) (L : ServerLink) (W : World) (cs : List (List Byte))
    (f : Frame) (fs' : List Frame) (msg : List Byte) (blockTime : Int) (fuel : Nat)
    (hP : 4 ≤ P.MaxPacketLen) (h : StreamInv P L W cs (f :: fs')) (hbt : blockTime < 0)
    (hfuel : pending cs + 1 ≤ fuel) :
    ∃ r cs1, read P L W msg blockTime fuel = some r ∧ r.ret = 1 ∧ r.frame = f ∧
      StreamInv P r.link r.world cs1 fs' ∧ pending cs1 ≤ pending cs := by
  rw [read_stream P L W cs (f :: fs') msg blockTime fuel h]
  rcases stream_cases P L W cs (f :: fs') hP h with ⟨g, gs, rest, hfs, hu, hrest⟩ | ⟨hst, _⟩
  · cases hfs
    obtain ⟨hdr', msg', L', hpk, hret, hfr, hinv⟩ :=
      stream_extract P L W cs f fs' rest [0, 0, 0, 0] msg h hu hrest
    exact ⟨_, cs, readTcp_of_packet P L W msg blockTime fuel hdr' msg' L' hpk, hret, hfr, hinv,
      Nat.le_refl _⟩
  · obtain ⟨hdr0, hpk0⟩ := hst.1 [0, 0, 0, 0] msg
    have hrt : readTcp P L W msg blockTime fuel = readLoop P blockTime fuel L W hdr0 msg := by
      unfold readTcp
      dsimp only
      rw [hpk0]
    rw [hrt]
    exact readLoop_block P f fs' blockTime hP hbt fuel L W cs hdr0 msg h hst hfuel

/-- A polling caller receives exactly the frames of the stream. -/
theorem pollFrames_poll (P : Protocol) (blockTime : Int) (fuel : Nat) (hP : 4 ≤ P.MaxPacketLen)
    (hbt : 0 ≤ blockTime) (hfuel : 1 ≤ fuel) :
    ∀ (k : Nat) (L : ServerLink) (W : World) (cs : List (List Byte)) (fs : List Frame)
      (msg : List Byte),
      StreamInv P L W cs fs → fs.length + pending cs ≤ k →
      ∃ L' W', pollFrames P blockTime fuel k L W msg = some (fs, L', W') ∧
        unconsumed L' = [] ∧ W'.tcpIn = [] := by
  intro k
  induction k with
  | zero =>
    intro L W cs fs msg h hk
    have hfs : fs = [] := List.length_eq_zero.mp (by omega)
    have hcs : cs = [] := List.length_eq_zero.mp (by unfold pending at hk; omega)
    subst hfs hcs
    refine ⟨L, W, rfl, ?_, by simpa using h.tcpIn⟩
    simpa [encodeAll] using h.stream
  | succ k ih =>
    intro L W cs fs msg h hk
    obtain ⟨r, hr, hcase⟩ := read_poll P L W cs fs msg blockTime fuel hP h hbt hfuel
    rcases hcase with ⟨f, fs', cs1, hfs, hret, hfr, hinv, hp⟩ | ⟨cs1, hret, hinv, hp⟩
    · subst hfs
      obtain ⟨L', W', hpf, hu, hin⟩ := ih r.link r.world cs1 fs' r.msg hinv
        (by simp only [List.length_cons] at hk; omega)
      refine ⟨L', W', ?_, hu, hin⟩
      rw [pollFrames, hr]
      simp only [hret, if_true, hpf]
      rw [← hfr]; rfl
    · have hk' : fs.length + pending cs1 ≤ k := by
        rcases hp with ⟨h1, h2, h3⟩ | h2
        · subst h2 h3; simp [pending]
        · omega
      obtain ⟨L', W', hpf, hu, hin⟩ := ih r.link r.world cs1 fs r.msg hinv hk'
      refine ⟨L', W', ?_, hu, hin⟩
      rw [pollFrames, hr]
      simp only [hret, hpf]
      rfl

/-- A blocking caller receives the frames of the stream, one for each call. -/
theorem pollFrames_block (P : Protocol) (blockTime : Int) (fuel : Nat) (hP : 4 ≤ P.MaxPacketLen)
    (hbt : blockTime < 0) :
    ∀ (fs : List Frame) (L : ServerLink) (W : World) (cs : List (List Byte)) (msg : List Byte),
      StreamInv P L W cs fs → pending cs + 1 ≤ fuel →
      ∃ L' W', pollFrames P blockTime fuel fs.length L W msg = some (fs, L', W') ∧
        unconsumed L' = [] := by
  intro fs
  induction fs with
  | nil =>
    intro L W cs msg h _
    refine ⟨L, W, rfl, ?_⟩
    have := h.stream
    simp only [encodeAll, List.map_nil, List.flatten_nil, List.append_eq_nil] at this
    exact this.1
  | cons f fs' ih =>
    intro L W cs msg h hf
    obtain ⟨r, cs1, hr, hret, hfr, hinv, hp⟩ :=
      read_block P L W cs f fs' msg blockTime fuel hP h hbt hf
    obtain ⟨L', W', hpf, hu⟩ := ih r.link r.world cs1 r.msg hinv (by omega)
    refine ⟨L', W', ?_, hu⟩
    rw [List.length_cons, pollFrames, hr]
    simp only [hret, if_true, hpf]
    rw [← hfr]; rfl

/-- C1: chunking invariance of the reliable receive path. Let `fs` be
well-formed frames and `cs` any cutting of their concatenated encodings into
chunks, held by the stream socket of an established link without datagram
socket whose receive buffer is empty; every `recv` hands over at most the
free space `fillTcpReadBuffer` offers and no `select` fails. Then the calls
of `read` deliver exactly the frames `fs`, with code, length and payload, in
order, without gap or duplicate: a polling caller (`blockTime >= 0`) collects
them in any number of calls from `N + chunks + bytes` on, the last calls
reporting no message; a blocking caller (`blockTime < 0`) gets one frame from
each of `N` calls. Afterwards no unconsumed byte is left. -/
theorem C1_chunking_invariance (P : Protocol) (fs : List Frame) (cs : List (List Byte))
    (L : ServerLink) (W : World) (msg : List Byte) (blockTime : Int)
    (hP : 4 ≤ P.MaxPacketLen) (hwf : ∀ f ∈ fs, f.wellFormed P)
    (hcs : cs.flatten = encodeAll fs)
    (hs : L.state = State.Okay) (hu : L.urecvfd < 0) (hinv : bufferInv P L)
    (hempty : unconsumed L = [])
    (hin : W.tcpIn = cs.map RecvOutcome.data) (hsel : ∀ r ∈ W.selects, 0 ≤ r) :
    (0 ≤ blockTime → ∀ fuel k, 1 ≤ fuel → fs.length + cs.length + (encodeAll fs).length ≤ k →
      ∃ L' W', pollFrames P blockTime fuel k L W msg = some (fs, L', W') ∧
        unconsumed L' = [] ∧ W'.tcpIn = []) ∧
    (blockTime < 0 → ∀ fuel, cs.length + (encodeAll fs).length + 1 ≤ fuel →
      ∃ L' W', pollFrames P blockTime fuel fs.length L W msg = some (fs, L', W') ∧
        unconsumed L' = []) := by
  have hstream : StreamInv P L W cs fs :=
    ⟨hs, hu, hinv, hin, hsel, by rw [hempty, List.nil_append, hcs], hwf⟩
  have hpend : pending cs = cs.length + (encodeAll fs).length := by rw [pending, hcs]
  constructor
  · intro hbt fuel k hfuel hk
    exact pollFrames_poll P blockTime fuel hP hbt hfuel k L W cs fs msg hstream (by omega)
  · intro hbt fuel hfuel
    exact pollFrames_block P blockTime fuel hP hbt fs L W cs msg hstream (by omega)

theorem C1_chunking_invariance_witness :
    (∃ L' W', pollFrames tinyProtocol 0 1 15 (placeInBuffer sampleLink []) sampleStreamWorld [] =
        some (sampleFrames, L', W') ∧ unconsumed L' = [] ∧ W'.tcpIn = []) ∧
    (∃ L' W', pollFrames tinyProtocol (-1) 14 2 (placeInBuffer sampleLink []) sampleStreamWorld
        [] = some (sampleFrames, L', W') ∧ unconsumed L' = []) :=
  ⟨(C1_chunking_invariance tinyProtocol sampleFrames sampleChunks (placeInBuffer sampleLink [])
      sampleStreamWorld [] 0 (by decide) (by decide) (by decide) rfl (by decide) (by decide)
      (by decide) rfl (by decide)).1 (by decide) 1 15 (by decide) (by decide),
    (C1_chunking_invariance tinyProtocol sampleFrames sampleChunks (placeInBuffer sampleLink [])
      sampleStreamWorld [] (-1) (by decide) (by decide) (by decide) rfl (by decide) (by decide)
      (by decide) rfl (by decide)).2 (by decide) 14 (by decide)⟩

theorem read_inactive (P : Protocol) (L : ServerLink) (W : World) (msg : List Byte)
    (blockTime : Int) (fuel : Nat) (h : L.state ≠ State.Okay) :
    read P L W msg blockTime fuel = some ⟨-1, P.MsgNull, 0, msg, L, W⟩ := by
  simp [read, h]

theorem read_datagram (P : Protocol) (L : ServerLink) (W : World) (msg : List Byte)
    (blockTime : Int) (fuel : Nat) (hs : L.state = State.Okay) (hn : ¬ noDatagram P L W) :
    read P L W msg blockTime fuel =
      some (readDatagram (pollUdp P L W).1 (pollUdp P L W).2 msg P.MsgNull) := by
  unfold noDatagram at hn
  have hu : L.urecvfd ≥ 0 := by
    by_contra hc
    exact hn (Or.inl (by omega))
  have hz : (pollUdp P L W).1.udpLength ≠ 0 := fun hc => hn (Or.inr hc)
  unfold read
  simp only [hs, ne_eq, not_true_eq_false, if_false, hu, if_true]
  rcases hp : pollUdp P L W with ⟨L1, W1⟩
  rw [hp] at hz
  have hz1 : ¬ L1.udpLength = 0 := hz
  simp only [hz1, not_false_eq_true, if_true]

theorem readDatagram_ret (L : ServerLink) (W : World) (msg : List Byte) (n : Nat) :
    (readDatagram L W msg n).ret = 1 ∨ (readDatagram L W msg n).ret = -1 := by
  unfold readDatagram
  dsimp only
  split
  · exact Or.inr rfl
  · split
    · exact Or.inr rfl
    · exact Or.inl rfl

/-- C2: malformed-frame signal. With at least 4 unconsumed bytes whose length
field `len` (big-endian, first two bytes) exceeds `MaxPacketLen - 4`,
`tcpPacketIn` answers true and leaves the link as it is, whatever else is
buffered; `read` returns, never with the no-message result 0 and never having
moved `tcpBufferConsumed`, and its result is -1 unless a datagram is served
first. With `len = MaxPacketLen - 4` the frame is an ordinary one:
`tcpPacketIn` answers true exactly when all `MaxPacketLen` bytes are there,
then consumes them, and `read` returns 1. -/
theorem C2_malformed_frame (P : Protocol) (L : ServerLink) (W : World)
    (headerBuffer msg : List Byte) (blockTime : Int) (fuel : Nat)
    (h : bufferInv P L) (h4 : 4 ≤ (unconsumed L).length) :
    ((frameLen (unconsumed L) : Int) > (P.MaxPacketLen : Int) - 4 →
      tcpPacketIn P L headerBuffer msg =
        (true, writeAt headerBuffer 0 ((unconsumed L).take 4), msg, L) ∧
      ∃ r, read P L W msg blockTime fuel = some r ∧ r.ret ≠ 0 ∧
        r.link.tcpBufferConsumed = L.tcpBufferConsumed ∧
        (noDatagram P L W → r.ret = -1)) ∧
    ((frameLen (unconsumed L) : Int) = (P.MaxPacketLen : Int) - 4 →
      ((tcpPacketIn P L headerBuffer msg).1 = true ↔ P.MaxPacketLen ≤ (unconsumed L).length) ∧
      ((unconsumed L).length < P.MaxPacketLen → (tcpPacketIn P L headerBuffer msg).2.2.2 = L) ∧
      (P.MaxPacketLen ≤ (unconsumed L).length →
        (tcpPacketIn P L headerBuffer msg).2.2.2.tcpBufferConsumed =
          L.tcpBufferConsumed + P.MaxPacketLen ∧
        (L.state = State.Okay → noDatagram P L W →
          ∃ r, read P L W msg blockTime fuel = some r ∧ r.ret = 1 ∧
            r.len = frameLen (unconsumed L) ∧
            r.link.tcpBufferConsumed = L.tcpBufferConsumed + P.MaxPacketLen))) := by
  have hnot4 : ¬ (unconsumed L).length < 4 := by omega
  have het := reliableEntry_tcp P L W
  have hinv1 : bufferInv P (reliableEntry P L W).1 :=
    bufferInv_congr P _ L het.2.2.1 het.1 het.2.1 h
  have hu1 : unconsumed (reliableEntry P L W).1 = unconsumed L :=
    unconsumed_congr _ L het.2.2.1 het.1 het.2.1
  constructor
  · intro hbig
    have hbig' : (frameLen (unconsumed L) : Int) + 4 > P.MaxPacketLen := by omega
    constructor
    · rw [tcpPacketIn_spec P L headerBuffer msg h]
      simp only [hnot4, hbig', if_false, if_true]
    · by_cases hs : L.state = State.Okay
      · by_cases hn : noDatagram P L W
        · have hread : read P L W msg blockTime fuel =
              some (readHeader P (reliableEntry P L W).1 (reliableEntry P L W).2
                (writeAt [0, 0, 0, 0] 0 ((unconsumed L).take 4)) msg) := by
            rw [read_reliable P L W msg blockTime fuel hs hn]
            apply readTcp_of_packet
            rw [tcpPacketIn_spec P _ _ msg hinv1, hu1]
            simp only [hnot4, hbig', if_false, if_true]
          refine ⟨_, hread, ?_⟩
          rw [readHeader_spec P _ _ _ msg (unconsumed L) h4, if_pos hbig]
          exact ⟨by show (-1 : Int) ≠ 0; decide, het.2.1, fun _ => rfl⟩
        · refine ⟨_, read_datagram P L W msg blockTime fuel hs hn, ?_, ?_,
            fun hc => absurd hc hn⟩
          · rcases readDatagram_ret (pollUdp P L W).1 (pollUdp P L W).2 msg P.MsgNull with
              h1 | h1 <;> rw [h1] <;> decide
          · rw [(readDatagram_tcp _ _ msg P.MsgNull).2.1, (pollUdp_tcp P L W).2.1]
      · refine ⟨_, read_inactive P L W msg blockTime fuel hs, ?_, rfl, fun _ => rfl⟩
        show (-1 : Int) ≠ 0
        decide
  · intro heq
    have hbig' : ¬ ((frameLen (unconsumed L) : Int) + 4 > P.MaxPacketLen) := by omega
    have hbig : ¬ ((frameLen (unconsumed L) : Int) > (P.MaxPacketLen : Int) - 4) := by omega
    refine ⟨?_, ?_, ?_⟩
    · rw [tcpPacketIn_spec P L headerBuffer msg h]
      simp only [hnot4, hbig', if_false]
      split
      · simp; omega
      · simp; omega
    · intro hshort
      have : (unconsumed L).length < frameLen (unconsumed L) + 4 := by omega
      rw [tcpPacketIn_spec P L headerBuffer msg h]
      simp only [hnot4, hbig', if_false, this, if_true]
    · intro hfull
      have hfull' : ¬ ((unconsumed L).length < frameLen (unconsumed L) + 4) := by omega
      constructor
      · rw [tcpPacketIn_spec P L headerBuffer msg h]
        simp only [hnot4, hbig', if_false, hfull']
        omega
      · intro hs hn
        have hread : read P L W msg blockTime fuel = some (readHeader P
            { (reliableEntry P L W).1 with tcpBufferConsumed :=
                (reliableEntry P L W).1.tcpBufferConsumed +
                  ((frameLen (unconsumed L) : Int) + 4) }
            (reliableEntry P L W).2 (writeAt [0, 0, 0, 0] 0 ((unconsumed L).take 4))
            (if frameLen (unconsumed L) ≠ 0 then
              writeAt msg 0 (((unconsumed L).drop 4).take (frameLen (unconsumed L)))
             else msg)) := by
          rw [read_reliable P L W msg blockTime fuel hs hn]
          apply readTcp_of_packet
          rw [tcpPacketIn_spec P _ _ msg hinv1, hu1]
          simp only [hnot4, hbig', if_false, hfull']
        refine ⟨_, hread, ?_⟩
        rw [readHeader_spec P _ _ _ _ (unconsumed L) h4, if_neg hbig]
        refine ⟨rfl, rfl, ?_⟩
        show (reliableEntry P L W).1.tcpBufferConsumed + _ = _
        rw [het.2.1]; omega

theorem C2_malformed_frame_witness :
    bufferInv tinyProtocol malformedLink ∧
    unconsumed malformedLink = [0, 5, 0x70, 0x75, 1, 2, 3, 4, 5] ∧
    tcpPacketIn tinyProtocol malformedLink [0, 0, 0, 0] [] =
      (true, [0, 5, 0x70, 0x75], [], malformedLink) ∧
    (∃ r, read tinyProtocol malformedLink idleWorld [] 0 1 = some r ∧ r.ret ≠ 0 ∧
      r.link.tcpBufferConsumed = 0 ∧ (noDatagram tinyProtocol malformedLink idleWorld →
        r.ret = -1)) ∧
    (tcpPacketIn tinyProtocol largestFrameLink [0, 0, 0, 0] []).2.2.2.tcpBufferConsumed = 8 :=
  ⟨by decide, by decide,
    ((C2_malformed_frame tinyProtocol malformedLink idleWorld [0, 0, 0, 0] [] 0 1 (by decide)
      (by decide)).1 (by decide)).1,
    ((C2_malformed_frame tinyProtocol malformedLink idleWorld [0, 0, 0, 0] [] 0 1 (by decide)
      (by decide)).1 (by decide)).2,
    ((C2_malformed_frame tinyProtocol largestFrameLink idleWorld [0, 0, 0, 0] [] 0 1 (by decide)
      (by decide)).2 (by decide)).2.2 (by decide) |>.1⟩

theorem send_eq (P : Protocol) (L : ServerLink) (W : World) (code len : Nat)
    (msg : Option (List Byte)) (msgbuf : List Byte) (hs : L.state = State.Okay) :
    send P L W code len msg msgbuf =
      if needForSpeed P L code then
        (L, { W with trace := W.trace ++
          [Syscall.sendto L.urecvfd
            (readAt (packFrame msgbuf code len msg).1 0 (packFrame msgbuf code len msg).2)
            L.usendaddr] })
      else
        (L, { W with trace := W.trace ++
          [Syscall.send L.fd (readAt (packFrame msgbuf code len msg).1 0 (len + 4))] }) := by
  have hroute : (if code = P.MsgUDPLinkRequest then true
      else if L.urecvfd ≥ 0 ∧ L.ulinkup = true then
        decide (code = P.MsgShotBegin ∨ code = P.MsgShotEnd ∨ code = P.MsgPlayerUpdate ∨
          code = P.MsgPlayerUpdateSmall ∨ code = P.MsgGMUpdate ∨
          code = P.MsgUDPLinkRequest ∨ code = P.MsgUDPLinkEstablished)
      else false) = decide (needForSpeed P L code) := by
    unfold needForSpeed speedSensitive
    by_cases h1 : code = P.MsgUDPLinkRequest
    · simp [h1]
    · by_cases h2 : L.urecvfd ≥ 0 ∧ L.ulinkup = true
      · simp [h1, h2]
      · simp only [h1, h2, if_false]
        have : ¬ (L.urecvfd ≥ 0 ∧ L.ulinkup = true ∧
            code ∈ [P.MsgShotBegin, P.MsgShotEnd, P.MsgPlayerUpdate, P.MsgPlayerUpdateSmall,
              P.MsgGMUpdate, P.MsgUDPLinkRequest, P.MsgUDPLinkEstablished]) :=
          fun h => h2 ⟨h.1, h.2.1⟩
        simp only [this, h1, or_self, decide_False]
  unfold send
  simp only [hs, ne_eq, not_true_eq_false, if_false, hroute, decide_eq_true_eq]

theorem packFrame_header (msgbuf : List Byte) (code len : Nat) (msg : Option (List Byte)) :
    ∃ tail, (packFrame msgbuf code len msg).1 = frameHeader code len ++ tail ∧
      4 ≤ (packFrame msgbuf code len msg).2 := by
  unfold packFrame
  dsimp only
  rw [pack_header]
  cases msg with
  | none => exact ⟨msgbuf.drop 4, rfl, Nat.le_refl _⟩
  | some m =>
    dsimp only
    split
    · refine ⟨m.take len ++
        (frameHeader code len ++ msgbuf.drop 4).drop (4 + (m.take len).length), ?_, by
        simp [nboPackString]⟩
      simp [nboPackString, writeAt, frameHeader]
    · exact ⟨msgbuf.drop 4, rfl, Nat.le_refl _⟩

theorem packFrame_frame (msgbuf : List Byte) (code len : Nat) (msg : Option (List Byte))
    (hmsg : len ≤ (msg.getD []).length) :
    readAt (packFrame msgbuf code len msg).1 0 (len + 4) =
        Frame.encode ⟨code, len, payloadOf msg len⟩ ∧
      (packFrame msgbuf code len msg).2 = len + 4 := by
  unfold packFrame
  dsimp only
  rw [pack_header]
  have hhd : ([byteOf (len / 256), byteOf len, byteOf (code / 256), byteOf code] :
      List Byte).length = 4 := rfl
  cases msg with
  | none =>
    have hl : len = 0 := by simpa using hmsg
    subst hl
    simp [Frame.encode, payloadOf, readAt]
  | some m =>
    by_cases hl : len = 0
    · subst hl
      simp [Frame.encode, payloadOf, readAt]
    · have hm : (m.take len).length = len := by
        simp only [Option.getD_some] at hmsg
        simp; omega
      have h1 := pack_payload [byteOf (len / 256), byteOf len, byteOf (code / 256), byteOf code]
        (msgbuf.drop 4) (m.take len) hhd
      rw [hm] at h1
      have h2 : 4 + len = len + 4 := by omega
      have hl' : len ≠ 0 := hl
      dsimp only
      rw [if_pos hl']
      simp only [nboPackString, h2, h1, Frame.encode, payloadOf, Option.getD_some, and_self]

theorem send_frame (P : Protocol) (L : ServerLink) (W : World) (code len : Nat)
    (msg : Option (List Byte)) (msgbuf : List Byte) (hs : L.state = State.Okay)
    (hmsg : len ≤ (msg.getD []).length) :
    send P L W code len msg msgbuf =
      if needForSpeed P L code then
        (L, { W with trace := W.trace ++
          [Syscall.sendto L.urecvfd (Frame.encode ⟨code, len, payloadOf msg len⟩) L.usendaddr] })
      else
        (L, { W with trace := W.trace ++
          [Syscall.send L.fd (Frame.encode ⟨code, len, payloadOf msg len⟩)] }) := by
  obtain ⟨h1, h2⟩ := packFrame_frame msgbuf code len msg hmsg
  rw [send_eq P L W code len msg msgbuf hs, h2, h1]

/-- C4: wire layout. A message of `len` payload bytes that `send` routes to
the reliable socket is written by one `::send` of exactly `len + 4` bytes: the
high byte of `len`, the low byte of `len`, the high byte of `code`, the low
byte of `code`, then the payload bytes unchanged. -/
theorem C4_wire_layout (P : Protocol) (L : ServerLink) (W : World) (code len : Nat)
    (msg : Option (List Byte)) (msgbuf : List Byte) (hs : L.state = State.Okay)
    (hroute : ¬ needForSpeed P L code) (hcode : code < 65536) (hlen16 : len < 65536)
    (_hlen : (len : Int) ≤ (P.MaxPacketLen : Int) - 4) (hmsg : (msg.getD []).length = len) :
    send P L W code len msg msgbuf =
      (L, { W with trace := W.trace ++
        [Syscall.send L.fd (byteOf (len / 256) :: byteOf len :: byteOf (code / 256) ::
          byteOf code :: msg.getD [])] }) ∧
    (byteOf (len / 256) :: byteOf len :: byteOf (code / 256) :: byteOf code ::
      msg.getD []).length = len + 4 ∧
    (byteOf (len / 256)).val = len / 256 ∧ (byteOf len).val = len % 256 ∧
    (byteOf (code / 256)).val = code / 256 ∧ (byteOf code).val = code % 256 := by
  refine ⟨?_, ?_, byteOf_val _ (by omega), rfl, byteOf_val _ (by omega), rfl⟩
  · rw [send_frame P L W code len msg msgbuf hs (by omega)]
    simp only [hroute, if_false, Frame.encode, payloadOf]
    rw [← hmsg, List.take_length]
    rfl
  · simp [hmsg]

theorem C4_wire_layout_witness :
    send bzflagProtocol sampleLink idleWorld 0x7075 2 (some [9, 8]) (List.replicate 1024 0) =
      (sampleLink, { idleWorld with trace := [Syscall.send 5 [0, 2, 0x70, 0x75, 9, 8]] }) :=
  (C4_wire_layout bzflagProtocol sampleLink idleWorld 0x7075 2 (some [9, 8])
    (List.replicate 1024 0) rfl (by decide) (by decide) (by decide) (by decide) rfl).1

/-- C10: send routing while the datagram link is not up. In state `Okay`,
with no datagram socket (`urecvfd < 0`) or `ulinkup` false, every message
whose code is not `MsgUDPLinkRequest` (so each of `MsgShotBegin`, `MsgShotEnd`,
`MsgPlayerUpdate`, `MsgPlayerUpdateSmall`, `MsgGMUpdate`,
`MsgUDPLinkEstablished`) is handed to the reliable socket by the single system
call `::send(fd, msgbuf, len + 4)`: no datagram is sent, the message is not
dropped; and when `msg` holds the `len` payload bytes, the bytes written are
the complete frame, `len + 4` bytes long. -/
theorem C10_send_routing_link_down (P : Protocol) (L : ServerLink) (W : World) (code len : Nat)
    (msg : Option (List Byte)) (msgbuf : List Byte) (hs : L.state = State.Okay)
    (hdown : L.urecvfd < 0 ∨ L.ulinkup = false) (hcode : code ≠ P.MsgUDPLinkRequest) :
    send P L W code len msg msgbuf =
      (L, { W with trace := W.trace ++
        [Syscall.send L.fd (readAt (packFrame msgbuf code len msg).1 0 (len + 4))] }) ∧
    (len ≤ (msg.getD []).length →
      readAt (packFrame msgbuf code len msg).1 0 (len + 4) =
        Frame.encode ⟨code, len, payloadOf msg len⟩ ∧
      (Frame.encode ⟨code, len, payloadOf msg len⟩).length = len + 4) := by
  have hroute : ¬ needForSpeed P L code := by
    rintro (⟨h1, h2, _⟩ | h)
    · rcases hdown with hd | hd
      · omega
      · rw [hd] at h2; cases h2
    · exact hcode h
  constructor
  · rw [send_eq P L W code len msg msgbuf hs, if_neg hroute]
  · intro hmsg
    refine ⟨(packFrame_frame msgbuf code len msg hmsg).1, ?_⟩
    simp [Frame.encode, payloadOf]
    omega

theorem C10_send_routing_link_down_witness :
    send bzflagProtocol { sampleLink with urecvfd := 6 } idleWorld bzflagProtocol.MsgShotBegin 2
        (some [9, 8]) [] =
      ({ sampleLink with urecvfd := 6 },
        { idleWorld with trace := [Syscall.send 5 [0, 2, 0x73, 0x62, 9, 8]] }) :=
  (C10_send_routing_link_down bzflagProtocol { sampleLink with urecvfd := 6 } idleWorld
    bzflagProtocol.MsgShotBegin 2 (some [9, 8]) [] rfl (Or.inr rfl) (by decide)).1

/-- C3: frame round trip. The bytes `send` writes to the reliable socket for
a message `(code, len, payload)` with `len <= MaxPacketLen - 4`, placed in an
empty receive buffer, make `read` return 1 with that code, that length and
that payload in `msg`, and move `tcpBufferConsumed` to `len + 4`, leaving no
unconsumed byte. -/
theorem C3_frame_round_trip (P : Protocol) (S : ServerLink) (W : World) (code len : Nat)
    (payload msgbuf : List Byte) (R : ServerLink) (W2 : World) (rmsg : List Byte)
    (blockTime : Int) (fuel : Nat)
    (hs : S.state = State.Okay) (hroute : ¬ needForSpeed P S code)
    (hcode : code < 65536) (hlen16 : len < 65536)
    (hlen : (len : Int) ≤ (P.MaxPacketLen : Int) - 4) (hpay : payload.length = len)
    (hr : R.state = State.Okay) (hsize : (R.tbuf.length : Int) = sizeofTbuf P)
    (hn : noDatagram P (placeInBuffer R (Frame.encode ⟨code, len, payload⟩)) W2) :
    send P S W code len (some payload) msgbuf =
      (S, { W with trace := W.trace ++
        [Syscall.send S.fd (Frame.encode ⟨code, len, payload⟩)] }) ∧
    ∃ r, read P (placeInBuffer R (Frame.encode ⟨code, len, payload⟩)) W2 rmsg blockTime fuel =
        some r ∧
      r.ret = 1 ∧ r.code = code ∧ r.len = len ∧ r.msg.take len = payload ∧
      r.link.tcpBufferConsumed = (len : Int) + 4 ∧ unconsumed r.link = [] := by
  constructor
  · rw [send_frame P S W code len (some payload) msgbuf hs (by simp [hpay])]
    simp only [hroute, if_false, payloadOf, Option.getD_some]
    rw [← hpay, List.take_length]
  · have hwf : Frame.wellFormed P ⟨code, len, payload⟩ := ⟨hcode, hlen16, hpay, hlen⟩
    have henc : (Frame.encode ⟨code, len, payload⟩).length = len + 4 := by
      rw [encode_length]; simp [hpay]
    obtain ⟨hinv, hu⟩ := placeInBuffer_inv P R (Frame.encode ⟨code, len, payload⟩) hsize
      (by rw [henc]; unfold sizeofTbuf; push_cast; omega)
    have het := reliableEntry_tcp P (placeInBuffer R (Frame.encode ⟨code, len, payload⟩)) W2
    have hinv1 := bufferInv_congr P _ _ het.2.2.1 het.1 het.2.1 hinv
    have hu1 := (unconsumed_congr _ _ het.2.2.1 het.1 het.2.1).trans hu
    have hu1' : unconsumed (reliableEntry P
        (placeInBuffer R (Frame.encode ⟨code, len, payload⟩)) W2).1 =
        Frame.encode ⟨code, len, payload⟩ ++ [] := by rw [hu1, List.append_nil]
    have hpk := tcpPacketIn_frame P _ [0, 0, 0, 0] rmsg ⟨code, len, payload⟩ [] hinv1 hwf hu1'
    have hread := read_reliable P (placeInBuffer R (Frame.encode ⟨code, len, payload⟩)) W2 rmsg
      blockTime fuel hr hn
    rw [readTcp_of_packet P _ _ rmsg _ fuel _ _ _ hpk] at hread
    refine ⟨_, hread, ?_⟩
    have h4 : 4 ≤ (unconsumed (reliableEntry P
        (placeInBuffer R (Frame.encode ⟨code, len, payload⟩)) W2).1).length := by
      rw [hu1, henc]; omega
    rw [readHeader_spec P _ _ _ _ _ h4, hu1']
    rw [frameLen_encode _ _ hlen16, frameCode_encode _ _ hcode]
    have hnb : ¬ ((len : Int) > (P.MaxPacketLen : Int) - 4) := by omega
    rw [if_neg hnb]
    have hadv := unconsumed_advance P _ (len + 4) hinv1 (by rw [hu1, henc])
    refine ⟨rfl, rfl, rfl, ?_, ?_, ?_⟩
    · show (if len ≠ 0 then writeAt rmsg 0 payload else rmsg).take len = payload
      by_cases hz : len = 0
      · subst hz
        have : payload = [] := List.length_eq_zero.mp hpay
        simp [this]
      · rw [if_pos hz, ← hpay]; exact writeAt_zero_take rmsg payload
    · show (reliableEntry P _ W2).1.tcpBufferConsumed + ((len : Int) + 4) = _
      rw [het.2.1]; simp [placeInBuffer]
    · have := hadv.2
      rw [hu1] at this
      have hd : (Frame.encode ⟨code, len, payload⟩).drop (len + 4) = [] := by
        apply List.drop_eq_nil_of_le; omega
      rw [hd] at this
      rw [← this]
      push_cast
      rfl

theorem C3_frame_round_trip_witness :
    ∃ r, read tinyProtocol (placeInBuffer sampleLink [0, 2, 0x70, 0x75, 9, 8]) idleWorld [] 0 0 =
        some r ∧
      r.ret = 1 ∧ r.code = 0x7075 ∧ r.len = 2 ∧ r.msg.take 2 = [9, 8] ∧
      r.link.tcpBufferConsumed = 6 ∧ unconsumed r.link = [] :=
  (C3_frame_round_trip tinyProtocol sampleLink idleWorld 0x7075 2 [9, 8] [] sampleLink idleWorld
    [] 0 0 rfl (by decide) (by decide) (by decide) (by decide) rfl rfl (by decide)
    (by decide)).2

theorem C7_compaction_idempotent_witness :
    compactTcpReadBuffer fullLink = fullLink ∧
    (compactTcpReadBuffer sampleLink).tcpBufferPos = 6 ∧
    compactTcpReadBuffer (compactTcpReadBuffer sampleLink) = compactTcpReadBuffer sampleLink :=
  ⟨(C7_compaction_idempotent fullLink).1 rfl, by decide,
    (C7_compaction_idempotent sampleLink).2⟩

/-! ## Routing of `send` -/

theorem needForSpeed_iff (P : Protocol) (L : ServerLink) (code : Nat) :
    needForSpeed P L code ↔ routedUnreliable P L code := by
  unfold needForSpeed routedUnreliable speedSensitive
  simp only [List.mem_cons, List.mem_singleton, List.not_mem_nil, or_false]
  tauto

/-- C11: routing decision of `send` in state `Okay`, for a message whose
`len` payload bytes are behind `msg`. The only system call is either a
`sendto` on the datagram socket carrying exactly the `len + 4` byte frame, or
a `::send` of that frame on the reliable socket. It is the `sendto` if and
only if the code is `MsgUDPLinkRequest` (whatever `urecvfd` and `ulinkup`
are) or the link is up (`urecvfd >= 0` and `ulinkup`) and the code is one of
`MsgShotBegin`, `MsgShotEnd`, `MsgPlayerUpdate`, `MsgPlayerUpdateSmall`,
`MsgGMUpdate`, `MsgUDPLinkEstablished`; it is the `::send` if and only if
not. -/
theorem C11_send_routing (P : Protocol) (L : ServerLink) (W : World) (code len : Nat)
    (msg : Option (List Byte)) (msgbuf : List Byte) (hs : L.state = State.Okay)
    (hmsg : len ≤ (msg.getD []).length) :
    (send P L W code len msg msgbuf =
        (L, { W with trace := W.trace ++
          [Syscall.sendto L.urecvfd (Frame.encode ⟨code, len, payloadOf msg len⟩)
            L.usendaddr] }) ↔ routedUnreliable P L code) ∧
    (send P L W code len msg msgbuf =
        (L, { W with trace := W.trace ++
          [Syscall.send L.fd (Frame.encode ⟨code, len, payloadOf msg len⟩)] }) ↔
      ¬ routedUnreliable P L code) ∧
    (Frame.encode ⟨code, len, payloadOf msg len⟩).length = len + 4 := by
  have hsf := send_frame P L W code len msg msgbuf hs hmsg
  have hne : ∀ (a b : List Byte) (fd1 fd2 : Int) (ad : Nat),
      (L, { W with trace := W.trace ++ [Syscall.sendto fd1 a ad] }) ≠
        (L, { W with trace := W.trace ++ [Syscall.send fd2 b] }) := by
    intro a b fd1 fd2 ad h
    have h2 := congrArg (fun x => x.2.trace) h
    simp at h2
  refine ⟨?_, ?_, ?_⟩
  · rw [← needForSpeed_iff]
    constructor
    · intro h
      by_contra hn
      rw [hsf, if_neg hn] at h
      exact hne _ _ _ _ _ h.symm
    · intro h
      rw [hsf, if_pos h]
  · rw [← needForSpeed_iff]
    constructor
    · intro h hn
      rw [hsf, if_pos hn] at h
      exact hne _ _ _ _ _ h
    · intro h
      rw [hsf, if_neg h]
  · simp [Frame.encode, payloadOf]
    omega

theorem C11_send_routing_witness :
    send bzflagProtocol sampleLink idleWorld bzflagProtocol.MsgUDPLinkRequest 1 (some [3])
        (List.replicate 1024 0) =
      (sampleLink, { idleWorld with trace := [Syscall.sendto (-1) [0, 1, 0x6f, 0x66, 3] 1] }) ∧
    send bzflagProtocol udpLink idleWorld bzflagProtocol.MsgPlayerUpdate 2 (some [9, 8])
        (List.replicate 1024 0) =
      (udpLink, { idleWorld with trace := [Syscall.sendto 6 [0, 2, 0x70, 0x75, 9, 8] 1] }) ∧
    send bzflagProtocol udpLink idleWorld 0x6d67 2 (some [9, 8]) (List.replicate 1024 0) =
      (udpLink, { idleWorld with trace := [Syscall.send 5 [0, 2, 0x6d, 0x67, 9, 8]] }) :=
  ⟨(C11_send_routing bzflagProtocol sampleLink idleWorld bzflagProtocol.MsgUDPLinkRequest 1
      (some [3]) (List.replicate 1024 0) rfl (by decide)).1.mpr (by decide),
    (C11_send_routing bzflagProtocol udpLink idleWorld bzflagProtocol.MsgPlayerUpdate 2
      (some [9, 8]) (List.replicate 1024 0) rfl (by decide)).1.mpr (by decide),
    (C11_send_routing bzflagProtocol udpLink idleWorld 0x6d67 2
      (some [9, 8]) (List.replicate 1024 0) rfl (by decide)).2.1.mpr (by decide)⟩

/-! ## The handshake -/

theorem construct_connected (P : Protocol) (raw : ServerLink) (addr : Nat) (E : ConnectEnv)
    (hc : E.connected) :
    ServerLink.construct P raw addr E =
      match versionWait E.timeout (ServerLink.initial P raw).version E.versionWait with
      | VersionWait.waiting => none
      | VersionWait.failed => some { ServerLink.initial P raw with usendaddr := addr }
      | VersionWait.got i version =>
        handshakeTail P { ServerLink.initial P raw with usendaddr := addr, version := version }
          E i := by
  obtain ⟨h1, h2, h3⟩ := hc
  have h1' : ¬ E.socket < 0 := by omega
  have h2' : ¬ E.setNonBlocking < 0 := by omega
  have h3' : ¬ (E.connect < 0 ∧
      (E.inProgress = false ∨ E.connectSelect ≤ 0 ∨ E.getsockopt < 0 ∨ E.connectError ≠ 0)) := by
    rintro ⟨ha, hb⟩
    rcases h3 with h3 | ⟨hp, hs, hg, he⟩
    · omega
    · rcases hb with hb | hb | hb | hb
      · rw [hp] at hb; cases hb
      · omega
      · omega
      · exact hb he
  unfold ServerLink.construct ConnectEnv.timeout handshakeTail
  simp only [h1', h2', h3', if_false]

theorem cstr_append_nul (v : List Byte) : cstr (v ++ [0]) = cstr v := by
  unfold cstr
  induction v with
  | nil => simp
  | cons a t ih =>
    by_cases ha : a = 0
    · simp [List.takeWhile_cons, ha]
    · simp only [List.cons_append, List.takeWhile_cons, ne_eq, ha, not_false_eq_true,
        decide_True, if_true, ih]

theorem cstr_of_no_nul (v : List Byte) (h : ∀ b ∈ v, b ≠ 0) : cstr v = v := by
  unfold cstr
  rw [List.takeWhile_eq_self_iff]
  intro b hb
  simpa using h b hb

theorem cstr_length_le (v : List Byte) : (cstr v).length ≤ v.length := by
  unfold cstr
  exact (List.takeWhile_sublist _).length_le

theorem cstr_eq_self_of_length (v : List Byte) (h : (cstr v).length = v.length) :
    cstr v = v := by
  unfold cstr at *
  exact (List.takeWhile_sublist _).eq_of_length h

theorem versionWait_idle (T : Int) (ver : List Byte) (idle rounds : List VersionRound)
    (h : ∀ x ∈ idle, x.idle T) :
    versionWait T ver (idle ++ rounds) = versionWait T ver rounds := by
  induction idle with
  | nil => rfl
  | cons r t ih =>
    obtain ⟨h1, h2, h3⟩ := h r (List.mem_cons_self _ _)
    have ht := ih (fun x hx => h x (List.mem_cons_of_mem _ hx))
    have hn : ¬ r.nfound ≤ 0 := by omega
    have he : ¬ r.elapsed > T := by omega
    rw [List.cons_append, versionWait]
    simp only [hn, if_false]
    cases hr : r.recv with
    | data bytes =>
      rw [hr] at h2
      have hb : bytes = [] := h2
      subst hb
      simp [he, ht]
    | error e =>
      simp [he, ht]

theorem versionWait_arrives (T : Int) (ver : List Byte) (rounds : List VersionRound)
    (v : List Byte) (h : versionArrives T rounds v) :
    versionWait T ver rounds = VersionWait.got v.length (writeAt ver 0 v) := by
  obtain ⟨idle, r, rest, bytes, hr, hidle, hn, hrecv, htake, hv⟩ := h
  subst hr
  rw [versionWait_idle T ver idle _ hidle, versionWait]
  have hn' : ¬ r.nfound ≤ 0 := by omega
  have hl : 0 < v.length := List.length_pos.mpr hv
  simp only [hn', if_false, hrecv, htake]
  have : ((v.length : Int) > 0) := by omega
  simp only [this, if_true]

theorem versionWait_timeout (T : Int) (ver : List Byte) (rounds : List VersionRound)
    (hno : ∀ r ∈ rounds, r.recv.noData) (hlate : ∃ r ∈ rounds, r.elapsed > T) :
    versionWait T ver rounds = VersionWait.failed := by
  induction rounds with
  | nil => obtain ⟨r, hr, _⟩ := hlate; cases hr
  | cons r t ih =>
    rw [versionWait]
    by_cases hn : r.nfound ≤ 0
    · simp only [hn, if_true]
    · simp only [hn, if_false]
      have hnd := hno r (List.mem_cons_self _ _)
      by_cases he : r.elapsed > T
      · cases hr : r.recv with
        | data bytes =>
          rw [hr] at hnd
          have hb : bytes = [] := hnd
          subst hb
          simp [he]
        | error e => simp [he]
      · have ht : versionWait T ver t = VersionWait.failed := by
          apply ih (fun x hx => hno x (List.mem_cons_of_mem _ hx))
          obtain ⟨x, hx, hxl⟩ := hlate
          rcases List.mem_cons.mp hx with hx | hx
          · subst hx; exact absurd hxl he
          · exact ⟨x, hx, hxl⟩
        cases hr : r.recv with
        | data bytes =>
          rw [hr] at hnd
          have hb : bytes = [] := hnd
          subst hb
          simp [he, ht]
        | error e => simp [he, ht]

theorem initial_version (P : Protocol) (raw : ServerLink) (v : List Byte) (h : v.length = 8) :
    writeAt (ServerLink.initial P raw).version 0 v = v ++ [0] := by
  simp [ServerLink.initial, writeAt, h]

/-- The constructor once the connection stands and the version wait has
received the 8 bytes `v`. -/
theorem construct_version (P : Protocol) (raw : ServerLink) (addr : Nat) (E : ConnectEnv)
    (v : List Byte) (hc : E.connected) (hv : versionArrives E.timeout E.versionWait v)
    (hlen : v.length = 8) :
    ServerLink.construct P raw addr E =
      handshakeTail P { ServerLink.initial P raw with usendaddr := addr, version := v ++ [0] }
        E 8 := by
  rw [construct_connected P raw addr E hc,
    versionWait_arrives E.timeout _ E.versionWait v hv, initial_version P raw v hlen, hlen]
  rfl

/-- C12: handshake outcome by identity byte. When the connection is
established, the version wait receives the 8 bytes of the expected version
tag, the socket can be made non-blocking again and the identity read returns
a byte `b` within its timeout, the constructor ends with state `Okay`,
`getId() = b` and `getSocket()` the connected socket if `b` is not 255, and
with state `Rejected` and an empty rejection message if `b = 255`. -/
theorem C12_handshake_identity (P : Protocol) (raw : ServerLink) (addr : Nat) (E : ConnectEnv)
    (b : Byte) (more : List Byte)
    (hc : E.connected) (hv : versionArrives E.timeout E.versionWait P.serverVersion)
    (hlen : P.serverVersion.length = 8) (hnb : 0 ≤ E.setNonBlocking2)
    (hsel : 0 < E.idSelect) (hid : E.idRecv = RecvOutcome.data (b :: more)) :
    ∃ L, ServerLink.construct P raw addr E = some L ∧
      (b.val ≠ 255 → L.getState = State.Okay ∧ L.getId = b.val ∧ L.getSocket = E.socket) ∧
      (b.val = 255 → L.getState = State.Rejected ∧ L.getRejectionMessage = []) := by
  rw [construct_version P raw addr E P.serverVersion hc hv hlen]
  have h1 : ¬ E.setNonBlocking2 < 0 := by omega
  have h2 : ¬ E.idSelect ≤ 0 := by omega
  have h3 : ¬ ((8 : Int) < 8) := by decide
  by_cases hb : b.val = 255
  · have ht : handshakeTail P
        { ServerLink.initial P raw with usendaddr := addr, version := P.serverVersion ++ [0] }
        E 8 =
        some { ServerLink.initial P raw with
          usendaddr := addr, version := P.serverVersion ++ [0],
          server_abilities := (ServerLink.initial P raw).server_abilities ||| 1,
          id := b.val, state := State.Rejected } := by
      unfold handshakeTail
      simp only [h1, h2, h3, if_false, cstr_append_nul, ne_eq, not_true_eq_false, hid,
        List.take_succ_cons, List.take_zero, hb, if_true]
    exact ⟨_, ht, fun h => absurd hb h, fun _ => ⟨rfl, rfl⟩⟩
  · have ht : handshakeTail P
        { ServerLink.initial P raw with usendaddr := addr, version := P.serverVersion ++ [0] }
        E 8 =
        some { ServerLink.initial P raw with
          usendaddr := addr, version := P.serverVersion ++ [0],
          server_abilities := (ServerLink.initial P raw).server_abilities ||| 1,
          id := b.val, fd := E.socket, state := State.Okay } := by
      unfold handshakeTail
      simp only [h1, h2, h3, if_false, cstr_append_nul, ne_eq, not_true_eq_false, hid,
        List.take_succ_cons, List.take_zero, hb]
    exact ⟨_, ht, fun _ => ⟨rfl, rfl, rfl⟩, fun h => absurd h hb⟩

theorem C12_handshake_identity_witness :
    ∃ L, ServerLink.construct bzflagProtocol sampleLink 1 sampleHandshake = some L ∧
      ((3 : Byte).val ≠ 255 →
        L.getState = State.Okay ∧ L.getId = (3 : Byte).val ∧ L.getSocket = 5) ∧
      ((3 : Byte).val = 255 → L.getState = State.Rejected ∧ L.getRejectionMessage = []) :=
  C12_handshake_identity bzflagProtocol sampleLink 1 sampleHandshake 3 [] (by decide)
    ⟨[], ⟨1, RecvOutcome.data [66, 90, 70, 83, 48, 50, 50, 49], 12⟩, [],
      [66, 90, 70, 83, 48, 50, 50, 49], rfl, by simp, by decide, rfl, by decide, by decide⟩
    rfl (by decide) (by decide) rfl

/-- The constructor when the version received is the refusal token: the state
is `Refused` and the rejection message is the C string in what `recv` stored,
with the last byte received overwritten by the terminator. -/
theorem construct_refused (P : Protocol) (raw : ServerLink) (addr : Nat) (E : ConnectEnv)
    (R : List Byte) (hc : E.connected)
    (hv : versionArrives E.timeout E.versionWait P.BanRefusalString)
    (hbr : P.BanRefusalString.length = 8)
    (hne : cstr P.BanRefusalString ≠ cstr P.serverVersion)
    (hnb : 0 ≤ E.setNonBlocking2) (hr : E.refusal = RecvOutcome.data R) :
    ∃ L, ServerLink.construct P raw addr E = some L ∧ L.getState = State.Refused ∧
      L.getRejectionMessage = cstr ((R.take 512).take ((R.take 512).length - 1)) := by
  have h1 : ¬ E.setNonBlocking2 < 0 := by omega
  have h3 : ¬ ((8 : Int) < 8) := by decide
  have h5 : cstr (P.BanRefusalString ++ [0]) = cstr P.BanRefusalString := cstr_append_nul _
  rw [construct_version P raw addr E P.BanRefusalString hc hv hbr]
  unfold handshakeTail
  simp only [h1, h3, if_false, ne_eq, h5, hne, not_false_eq_true, if_true, hr]
  exact ⟨_, rfl, rfl, rfl⟩

/-- C13, as stated, fails: after the refusal token and the bare 11 reason
bytes `server full` the constructor ends in state `Refused`, but
`message[len - 1] = 0` overwrites the last byte received:
`getRejectionMessage()` is the 10 bytes `server ful`, not the reason sent. -/
theorem C13_refusal_reason_cut :
    (ServerLink.construct bzflagProtocol sampleLink 1 refusedHandshake).map
        (fun L => (L.getState, L.getRejectionMessage)) =
      some (State.Refused, [115, 101, 114, 118, 101, 114, 32, 102, 117, 108]) ∧
    (ServerLink.construct bzflagProtocol sampleLink 1 refusedHandshake).map
        (fun L => L.getRejectionMessage) ≠
      some [115, 101, 114, 118, 101, 114, 32, 102, 117, 108, 108] := by
  constructor
  · decide
  · decide

/-- C13, as amended: handshake refusal reason. When the connection is
established, the 8-byte version response is the refusal token and the `recv`
that follows returns a reason `R` (without NUL, at most 511 bytes) followed by
one more byte, the constructor ends in state `Refused` and
`getRejectionMessage()` equals `R` exactly: the terminator `message[len - 1] = 0`
takes the place of the last byte received, whatever that byte is. -/
theorem C13_refusal_reason_before_last_byte (P : Protocol) (raw : ServerLink) (addr : Nat)
    (E : ConnectEnv) (R : List Byte) (last : Byte) (hc : E.connected)
    (hv : versionArrives E.timeout E.versionWait P.BanRefusalString)
    (hbr : P.BanRefusalString.length = 8)
    (hne : cstr P.BanRefusalString ≠ cstr P.serverVersion)
    (hnb : 0 ≤ E.setNonBlocking2) (hr : E.refusal = RecvOutcome.data (R ++ [last]))
    (hlen : R.length ≤ 511) (hnul : ∀ b ∈ R, b ≠ 0) :
    ∃ L, ServerLink.construct P raw addr E = some L ∧ L.getState = State.Refused ∧
      L.getRejectionMessage = R := by
  obtain ⟨L, h, hs, hm⟩ := construct_refused P raw addr E (R ++ [last]) hc hv hbr hne hnb hr
  refine ⟨L, h, hs, ?_⟩
  have hl : (R ++ [last]).length = R.length + 1 := by simp
  have ht : (R ++ [last]).take 512 = R ++ [last] := List.take_of_length_le (by omega)
  rw [hm, ht, hl, Nat.add_sub_cancel, List.take_left, cstr_of_no_nul R hnul]

theorem C13_refusal_reason_before_last_byte_witness :
    ∃ L, ServerLink.construct bzflagProtocol sampleLink 1 terminatedRefusalHandshake = some L ∧
      L.getState = State.Refused ∧
      L.getRejectionMessage = [115, 101, 114, 118, 101, 114, 32, 102, 117, 108, 108] :=
  C13_refusal_reason_before_last_byte bzflagProtocol sampleLink 1 terminatedRefusalHandshake
    [115, 101, 114, 118, 101, 114, 32, 102, 117, 108, 108] 0 (by decide)
    ⟨[], ⟨1, RecvOutcome.data [82, 69, 70, 85, 83, 69, 68, 58], 12⟩, [],
      [82, 69, 70, 85, 83, 69, 68, 58], rfl, by simp, by decide, rfl, by decide, by decide⟩
    rfl (by decide) (by decide) rfl (by decide) (by simp)

theorem cstr_ne_of_ne (v tag : List Byte) (hv : v.length = 8) (ht : tag.length = 8)
    (hnul : ∀ b ∈ tag, b ≠ 0) (hne : v ≠ tag) : cstr (v ++ [0]) ≠ cstr tag := by
  rw [cstr_append_nul, cstr_of_no_nul tag hnul]
  intro h
  have hl : (cstr v).length = v.length := by rw [h, ht, hv]
  exact hne ((cstr_eq_self_of_length v hl).symm.trans h)

/-- The constructor when the version received is neither the expected tag
nor the refusal token. -/
theorem handshakeTail_mismatch (P : Protocol) (L : ServerLink) (E : ConnectEnv) (v : List Byte)
    (hL : L.version = v ++ [0])
    (hlen : v.length = 8) (hne : v ≠ P.serverVersion) (hnr : v ≠ P.BanRefusalString)
    (hsv : P.serverVersion.length = 8 ∧ ∀ b ∈ P.serverVersion, b ≠ 0)
    (hbr : P.BanRefusalString.length = 8 ∧ ∀ b ∈ P.BanRefusalString, b ≠ 0)
    (hnb : 0 ≤ E.setNonBlocking2) :
    handshakeTail P L E 8 =
      some { L with server_abilities := L.server_abilities ||| 1, state := State.BadVersion } := by
  have h1 : ¬ E.setNonBlocking2 < 0 := by omega
  have h3 : ¬ ((8 : Int) < 8) := by decide
  have h4 := cstr_ne_of_ne v P.serverVersion hlen hsv.1 hsv.2 hne
  have h5 := cstr_ne_of_ne v P.BanRefusalString hlen hbr.1 hbr.2 hnr
  unfold handshakeTail
  simp only [h1, h3, if_false, hL, ne_eq, h4, h5, not_false_eq_true, if_true]

theorem versionWait_got_inv (T : Int) (ver : List Byte) (rounds : List VersionRound) (i : Int)
    (version : List Byte) (h : versionWait T ver rounds = VersionWait.got i version) :
    ∃ v, versionArrives T rounds v ∧ i = v.length ∧ version = writeAt ver 0 v := by
  induction rounds with
  | nil => simp [versionWait] at h
  | cons r t ih =>
    rw [versionWait] at h
    by_cases hn : r.nfound ≤ 0
    · simp [hn] at h
    · simp only [hn, if_false] at h
      cases hr : r.recv with
      | data bytes =>
        rw [hr] at h
        dsimp only at h
        by_cases hb : ((bytes.take 8).length : Int) > 0
        · rw [if_pos hb] at h
          cases h
          refine ⟨bytes.take 8, ⟨[], r, t, bytes, rfl, by simp, by omega, hr, rfl, ?_⟩, rfl, rfl⟩
          intro hc
          rw [hc] at hb
          simp at hb
        · rw [if_neg hb] at h
          by_cases he : r.elapsed > T
          · simp [he] at h
          · rw [if_neg he] at h
            obtain ⟨v, ⟨idle, r', rest, bytes', h1, h2, h3, h4, h5, h6⟩, hi, hver⟩ := ih h
            refine ⟨v, ⟨r :: idle, r', rest, bytes', by rw [h1]; rfl, ?_, h3, h4, h5, h6⟩,
              hi, hver⟩
            intro x hx
            rcases List.mem_cons.mp hx with hx | hx
            · subst hx
              refine ⟨by omega, ?_, by omega⟩
              rw [hr]
              show bytes = []
              have : (bytes.take 8).length = 0 := by omega
              have h8 := List.length_eq_zero.mp this
              cases bytes with
              | nil => rfl
              | cons a l => simp at h8
            · exact h2 x hx
      | error e =>
        rw [hr] at h
        dsimp only at h
        by_cases he : r.elapsed > T
        · simp [he] at h
        · rw [if_neg he] at h
          obtain ⟨v, ⟨idle, r', rest, bytes', h1, h2, h3, h4, h5, h6⟩, hi, hver⟩ := ih h
          refine ⟨v, ⟨r :: idle, r', rest, bytes', by rw [h1]; rfl, ?_, h3, h4, h5, h6⟩,
            hi, hver⟩
          intro x hx
          rcases List.mem_cons.mp hx with hx | hx
          · subst hx
            refine ⟨by omega, ?_, by omega⟩
            rw [hr]
            trivial
          · exact h2 x hx

/-- Without a connection the constructor returns before the version wait. -/
theorem construct_unconnected (P : Protocol) (raw : ServerLink) (addr : Nat) (E : ConnectEnv)
    (hc : ¬ E.connected) :
    ∃ L, ServerLink.construct P raw addr E = some L ∧ L.state = State.SocketError ∧
      L.fd = -1 := by
  unfold ServerLink.construct
  dsimp only
  by_cases h1 : E.socket < 0
  · rw [if_pos h1]; exact ⟨_, rfl, rfl, rfl⟩
  · rw [if_neg h1]
    by_cases h2 : E.setNonBlocking < 0
    · rw [if_pos h2]; exact ⟨_, rfl, rfl, rfl⟩
    · rw [if_neg h2]
      by_cases h3 : E.connect < 0 ∧
          (E.inProgress = false ∨ E.connectSelect ≤ 0 ∨ E.getsockopt < 0 ∨ E.connectError ≠ 0)
      · rw [if_pos h3]; exact ⟨_, rfl, rfl, rfl⟩
      · exfalso
        apply hc
        refine ⟨by omega, by omega, ?_⟩
        by_cases h4 : 0 ≤ E.connect
        · exact Or.inl h4
        · right
          have h5 : E.connect < 0 := by omega
          refine ⟨?_, ?_, ?_, ?_⟩
          · cases hp : E.inProgress with
            | true => rfl
            | false => exact absurd ⟨h5, Or.inl hp⟩ h3
          · by_contra hx
            exact h3 ⟨h5, Or.inr (Or.inl (by omega))⟩
          · by_contra hx
            exact h3 ⟨h5, Or.inr (Or.inr (Or.inl (by omega)))⟩
          · by_contra hx
            exact h3 ⟨h5, Or.inr (Or.inr (Or.inr hx))⟩

/-- When the version wait fails, whatever happened before it, the link is
left as the member initialisers made it: `SocketError`, no socket. -/
theorem construct_failed (P : Protocol) (raw : ServerLink) (addr : Nat) (E : ConnectEnv)
    (h : versionWait E.timeout (ServerLink.initial P raw).version E.versionWait =
      VersionWait.failed) :
    ∃ L, ServerLink.construct P raw addr E = some L ∧ L.state = State.SocketError ∧
      L.fd = -1 := by
  by_cases hc : E.connected
  · rw [construct_connected P raw addr E hc, h]
    exact ⟨_, rfl, rfl, rfl⟩
  · exact construct_unconnected P raw addr E hc

/-- The tail of the handshake reaches `Okay` only past the version
comparison. -/
theorem handshakeTail_okay (P : Protocol) (L0 : ServerLink) (E : ConnectEnv) (i : Int)
    (L : ServerLink) (h0 : L0.state ≠ State.Okay)
    (h : handshakeTail P L0 E i = some L) (hs : L.state = State.Okay) :
    8 ≤ i ∧ cstr L0.version = cstr P.serverVersion := by
  unfold handshakeTail at h
  by_cases h1 : i < 8
  · rw [if_pos h1] at h; cases h; exact absurd hs h0
  · rw [if_neg h1] at h
    by_cases h2 : E.setNonBlocking2 < 0
    · rw [if_pos h2] at h; cases h; exact absurd hs h0
    · rw [if_neg h2] at h
      dsimp only at h
      by_cases h3 : cstr L0.version ≠ cstr P.serverVersion
      · rw [if_pos h3] at h
        by_cases h4 : cstr L0.version = cstr P.BanRefusalString
        · rw [if_pos h4] at h; cases h; cases hs
        · rw [if_neg h4] at h; cases h; cases hs
      · exact ⟨by omega, not_not.mp h3⟩

/-- The constructor reaches `Okay` only when the version wait has received
eight bytes that compare equal to the expected tag. -/
theorem construct_okay_inv (P : Protocol) (raw : ServerLink) (addr : Nat) (E : ConnectEnv)
    (L : ServerLink) (h : ServerLink.construct P raw addr E = some L)
    (hs : L.state = State.Okay) :
    ∃ v, versionArrives E.timeout E.versionWait v ∧ v.length = 8 ∧
      cstr (v ++ [0]) = cstr P.serverVersion := by
  by_cases hc : E.connected
  · rw [construct_connected P raw addr E hc] at h
    cases hw : versionWait E.timeout (ServerLink.initial P raw).version E.versionWait with
    | waiting => rw [hw] at h; cases h
    | failed => rw [hw] at h; cases h; cases hs
    | got i version =>
      rw [hw] at h
      dsimp only at h
      obtain ⟨v, hv, hi, hver⟩ := versionWait_got_inv _ _ _ _ _ hw
      obtain ⟨h8, hcmp⟩ := handshakeTail_okay P _ E i L (by intro hx; cases hx) h hs
      have hv8 : v.length = 8 := by
        obtain ⟨idle, r, rest, bytes, _, _, _, _, htake, _⟩ := hv
        have : v.length ≤ 8 := by rw [← htake, List.length_take]; omega
        omega
      refine ⟨v, hv, hv8, ?_⟩
      rw [← initial_version P raw v hv8, ← hver]
      exact hcmp
  · obtain ⟨L', h', hs', _⟩ := construct_unconnected P raw addr E hc
    rw [h'] at h
    cases h
    rw [hs] at hs'
    cases hs'

/-- C14: handshake version mismatch. When the tags are 8 bytes without a
NUL and the version wait receives 8 bytes `v` that are neither the expected
tag nor the refusal token, the constructor ends with state `BadVersion`, an
empty rejection message and `getSocket() = -1`, whatever the identity
`select` and `recv` would have answered (they are not consulted). For every
environment, the constructor ends in `Okay` only if the version wait received
exactly the 8 bytes of the expected tag. -/
theorem C14_version_mismatch (P : Protocol) (raw : ServerLink) (addr : Nat) (E : ConnectEnv)
    (v : List Byte) (hc : E.connected) (hv : versionArrives E.timeout E.versionWait v)
    (hlen : v.length = 8) (hne : v ≠ P.serverVersion) (hnr : v ≠ P.BanRefusalString)
    (hsv : P.serverVersion.length = 8 ∧ ∀ b ∈ P.serverVersion, b ≠ 0)
    (hbr : P.BanRefusalString.length = 8 ∧ ∀ b ∈ P.BanRefusalString, b ≠ 0)
    (hnb : 0 ≤ E.setNonBlocking2) :
    (∃ L, ServerLink.construct P raw addr E = some L ∧ L.getState = State.BadVersion ∧
      L.getRejectionMessage = [] ∧ L.getSocket = -1 ∧
      ∀ (s : Int) (r : RecvOutcome),
        ServerLink.construct P raw addr { E with idSelect := s, idRecv := r } = some L) ∧
    (∀ (E' : ConnectEnv) (L : ServerLink), ServerLink.construct P raw addr E' = some L →
      L.getState = State.Okay →
      versionArrives E'.timeout E'.versionWait P.serverVersion) := by
  constructor
  · refine ⟨_, (construct_version P raw addr E v hc hv hlen).trans
      (handshakeTail_mismatch P _ E v rfl hlen hne hnr hsv hbr hnb), rfl, rfl, rfl, ?_⟩
    intro s r
    exact (construct_version P raw addr { E with idSelect := s, idRecv := r } v hc hv hlen).trans
      (handshakeTail_mismatch P _ _ v rfl hlen hne hnr hsv hbr hnb)
  · intro E' L h hs
    obtain ⟨w, hw, hw8, hcmp⟩ := construct_okay_inv P raw addr E' L h hs
    rw [cstr_append_nul, cstr_of_no_nul _ hsv.2] at hcmp
    have hl : (cstr w).length = w.length := by rw [hcmp, hsv.1, hw8]
    have : w = P.serverVersion := (cstr_eq_self_of_length w hl).symm.trans hcmp
    rw [← this]
    exact hw

/-- C15: handshake timeout. When no receive attempt of the version wait
returns data and the time elapsed at one of them exceeds the connect timeout
(30 seconds unless `connectionTimeout` is set), the constructor returns with
state `SocketError` and `getSocket() = -1`; in particular the state is not
`Okay`. -/
theorem C15_handshake_timeout (P : Protocol) (raw : ServerLink) (addr : Nat) (E : ConnectEnv)
    (hno : ∀ r ∈ E.versionWait, r.recv.noData)
    (hlate : ∃ r ∈ E.versionWait, r.elapsed > E.timeout) :
    (∃ L, ServerLink.construct P raw addr E = some L ∧ L.getState = State.SocketError ∧
      L.getSocket = -1 ∧ L.getState ≠ State.Okay) ∧
    (E.connectionTimeout = none → E.timeout = 30000) ∧
    (∀ t, E.connectionTimeout = some t → E.timeout = t) := by
  refine ⟨?_, ?_, ?_⟩
  · obtain ⟨L, h, hs, hf⟩ := construct_failed P raw addr E
      (versionWait_timeout E.timeout _ E.versionWait hno hlate)
    refine ⟨L, h, hs, hf, ?_⟩
    show L.state ≠ State.Okay
    rw [hs]
    decide
  · intro h
    unfold ConnectEnv.timeout
    rw [h]
  · intro t h
    unfold ConnectEnv.timeout
    rw [h]

theorem C14_version_mismatch_witness :
    (∃ L, ServerLink.construct bzflagProtocol sampleLink 1 mismatchHandshake = some L ∧
      L.getState = State.BadVersion ∧ L.getRejectionMessage = [] ∧ L.getSocket = -1 ∧
      ∀ (s : Int) (r : RecvOutcome),
        ServerLink.construct bzflagProtocol sampleLink 1
          { mismatchHandshake with idSelect := s, idRecv := r } = some L) ∧
    (∀ (E' : ConnectEnv) (L : ServerLink),
      ServerLink.construct bzflagProtocol sampleLink 1 E' = some L →
      L.getState = State.Okay →
      versionArrives E'.timeout E'.versionWait bzflagProtocol.serverVersion) :=
  C14_version_mismatch bzflagProtocol sampleLink 1 mismatchHandshake
    [66, 90, 70, 83, 48, 50, 50, 48] (by decide)
    ⟨[], ⟨1, RecvOutcome.data [66, 90, 70, 83, 48, 50, 50, 48], 12⟩, [],
      [66, 90, 70, 83, 48, 50, 50, 48], rfl, by simp, by decide, rfl, by decide, by decide⟩
    rfl (by decide) (by decide) ⟨rfl, by simp [bzflagProtocol]⟩
    ⟨rfl, by simp [bzflagProtocol]⟩ (by decide)

theorem C15_handshake_timeout_witness :
    (∃ L, ServerLink.construct bzflagProtocol sampleLink 1 silentHandshake = some L ∧
      L.getState = State.SocketError ∧ L.getSocket = -1 ∧ L.getState ≠ State.Okay) ∧
    (silentHandshake.connectionTimeout = none → silentHandshake.timeout = 30000) ∧
    (∀ t, silentHandshake.connectionTimeout = some t → silentHandshake.timeout = t) :=
  C15_handshake_timeout bzflagProtocol sampleLink 1 silentHandshake (by decide)
    ⟨⟨1, RecvOutcome.error Errno.EAGAIN, 31000⟩, by simp [silentHandshake], by decide⟩

/-! ## What the calls keep of a session -/

theorem sessionKept_refl (L : ServerLink) : sessionKept L L := ⟨rfl, rfl, id⟩

theorem sessionKept_trans (A B C : ServerLink) (h1 : sessionKept A B) (h2 : sessionKept B C) :
    sessionKept A C :=
  ⟨h2.1.trans h1.1, h2.2.1.trans h1.2.1, fun h => h2.2.2 (h1.2.2 h)⟩

theorem send_link (P : Protocol) (L : ServerLink) (W : World) (code len : Nat)
    (msg : Option (List Byte)) (msgbuf : List Byte) :
    (send P L W code len msg msgbuf).1 = L := by
  by_cases hs : L.state = State.Okay
  · rw [send_eq P L W code len msg msgbuf hs]
    split <;> rfl
  · unfold send
    rw [if_pos hs]

theorem compact_kept (L : ServerLink) : sessionKept L (compactTcpReadBuffer L) := by
  rw [compact_eq]
  exact ⟨rfl, rfl, id⟩

theorem fill_kept (P : Protocol) (L : ServerLink) (W : World) (blockTime : Int) :
    sessionKept L (fillTcpReadBuffer P L W blockTime).2.1 := by
  obtain ⟨bytes, _, h⟩ := fill_link P L W blockTime
  rw [h]
  exact sessionKept_trans _ _ _ (compact_kept L) ⟨rfl, rfl, id⟩

theorem tcpPacketIn_kept (P : Protocol) (L : ServerLink) (hdr msg : List Byte) :
    sessionKept L (tcpPacketIn P L hdr msg).2.2.2 := by
  unfold tcpPacketIn
  dsimp only
  split
  · exact sessionKept_refl L
  · split
    · exact sessionKept_refl L
    · split
      · exact sessionKept_refl L
      · exact ⟨rfl, rfl, id⟩

theorem readLoop_kept (P : Protocol) (blockTime : Int) (fuel : Nat) :
    ∀ (L : ServerLink) (W : World) (hdr msg : List Byte) (r : ReadResult),
      readLoop P blockTime fuel L W hdr msg = some r → sessionKept L r.link := by
  induction fuel with
  | zero => intro L W hdr msg r h; simp [readLoop] at h
  | succ n ih =>
    intro L W hdr msg r h
    rw [readLoop] at h
    have hf := fill_kept P L W blockTime
    rcases hfe : fillTcpReadBuffer P L W blockTime with ⟨ret, L1, W1⟩
    rw [hfe] at h hf
    dsimp only at h hf
    by_cases hr : ret < 0
    · rw [if_pos hr] at h
      cases h
      exact hf
    · rw [if_neg hr] at h
      have ht := tcpPacketIn_kept P L1 hdr msg
      rcases hte : tcpPacketIn P L1 hdr msg with ⟨b, hdr2, msg2, L2⟩
      rw [hte] at h ht
      dsimp only at ht
      cases b with
      | true =>
        dsimp only at h
        cases h
        rw [(readHeader_link P L2 W1 hdr2 msg2).1]
        exact sessionKept_trans _ _ _ hf ht
      | false =>
        dsimp only at h
        by_cases hb : blockTime ≥ 0
        · rw [if_pos hb] at h
          cases h
          exact sessionKept_trans _ _ _ hf ht
        · rw [if_neg hb] at h
          exact sessionKept_trans _ _ _ (sessionKept_trans _ _ _ hf ht) (ih _ _ _ _ _ h)

theorem readTcp_kept (P : Protocol) (L : ServerLink) (W : World) (msg : List Byte)
    (blockTime : Int) (fuel : Nat) (r : ReadResult)
    (h : readTcp P L W msg blockTime fuel = some r) : sessionKept L r.link := by
  unfold readTcp at h
  dsimp only at h
  have ht := tcpPacketIn_kept P L [0, 0, 0, 0] msg
  rcases hte : tcpPacketIn P L [0, 0, 0, 0] msg with ⟨b, hdr2, msg2, L2⟩
  rw [hte] at h ht
  dsimp only at ht
  cases b with
  | true =>
    dsimp only at h
    cases h
    rw [(readHeader_link P L2 W hdr2 msg2).1]
    exact ht
  | false =>
    dsimp only at h
    exact sessionKept_trans _ _ _ ht (readLoop_kept P blockTime fuel _ _ _ _ _ h)

theorem pollUdp_kept (P : Protocol) (L : ServerLink) (W : World) :
    sessionKept L (pollUdp P L W).1 := by
  unfold pollUdp
  split
  · split
    split
    · exact ⟨rfl, rfl, id⟩
    · exact sessionKept_refl L
  · exact sessionKept_refl L

theorem readDatagram_kept (L : ServerLink) (W : World) (msg : List Byte) (n : Nat) :
    sessionKept L (readDatagram L W msg n).link := by
  unfold readDatagram
  dsimp only
  split
  · exact ⟨rfl, rfl, id⟩
  · split <;> exact ⟨rfl, rfl, id⟩

theorem read_kept (P : Protocol) (L : ServerLink) (W : World) (msg : List Byte)
    (blockTime : Int) (fuel : Nat) (r : ReadResult)
    (h : read P L W msg blockTime fuel = some r) : sessionKept L r.link := by
  unfold read at h
  by_cases hs : L.state ≠ State.Okay
  · rw [if_pos hs] at h
    cases h
    exact sessionKept_refl L
  · rw [if_neg hs] at h
    by_cases hu : L.urecvfd ≥ 0
    · rw [if_pos hu] at h
      have hp := pollUdp_kept P L W
      rcases hpe : pollUdp P L W with ⟨L1, W1⟩
      rw [hpe] at h hp
      dsimp only at h hp
      by_cases hl : L1.udpLength ≠ 0
      · rw [if_pos hl] at h
        cases h
        exact sessionKept_trans _ _ _ hp (readDatagram_kept L1 W1 msg P.MsgNull)
      · rw [if_neg hl] at h
        exact sessionKept_trans _ _ _ hp (readTcp_kept P L1 W1 msg 0 fuel r h)
    · rw [if_neg hu] at h
      exact readTcp_kept P L W msg blockTime fuel r h

theorem sendUDPlinkRequest_kept (P : Protocol) (L : ServerLink) (W : World) (E : UdpEnv)
    (msgbuf : List Byte) : sessionKept L (sendUDPlinkRequest P L W E msgbuf).1 := by
  unfold sendUDPlinkRequest
  split
  · exact sessionKept_refl L
  · dsimp only
    split
    · exact ⟨rfl, rfl, id⟩
    · split
      · exact ⟨rfl, rfl, id⟩
      · split
        · exact ⟨rfl, rfl, id⟩
        · rw [send_link]
          exact ⟨rfl, rfl, id⟩

theorem confirmIncomingUDP_kept (P : Protocol) (L : ServerLink) (W : World)
    (msgbuf : List Byte) :
    sessionKept L (confirmIncomingUDP P L W msgbuf).1 ∧
      (confirmIncomingUDP P L W msgbuf).1.ulinkup = true := by
  unfold confirmIncomingUDP
  dsimp only
  rw [send_link]
  exact ⟨⟨rfl, rfl, fun _ => rfl⟩, rfl⟩

theorem exec_kept (P : Protocol) (c : Call) (L : ServerLink) (W : World) (L1 : ServerLink)
    (W1 : World) (h : c.exec P L W = some (L1, W1)) : sessionKept L L1 := by
  cases c with
  | send code len msg msgbuf =>
    simp only [Call.exec, Option.some.injEq] at h
    have hl := send_link P L W code len msg msgbuf
    rw [h] at hl
    have hl' : L1 = L := hl
    rw [hl']
    exact sessionKept_refl L
  | read msg blockTime fuel =>
    simp only [Call.exec] at h
    cases hr : read P L W msg blockTime fuel with
    | none => rw [hr] at h; cases h
    | some r =>
      rw [hr] at h
      cases h
      exact read_kept P L W msg blockTime fuel r hr
  | fillTcpReadBuffer blockTime =>
    simp only [Call.exec, Option.some.injEq] at h
    have := fill_kept P L W blockTime
    rw [h] at this
    exact this
  | tcpPacketIn hdr msg =>
    simp only [Call.exec, Option.some.injEq, Prod.mk.injEq] at h
    rw [← h.1]
    exact tcpPacketIn_kept P L hdr msg
  | sendUDPlinkRequest E msgbuf =>
    simp only [Call.exec, Option.some.injEq] at h
    have := sendUDPlinkRequest_kept P L W E msgbuf
    rw [h] at this
    exact this
  | enableOutboundUDP =>
    simp only [Call.exec, Option.some.injEq, Prod.mk.injEq] at h
    rw [← h.1]
    exact ⟨rfl, rfl, fun _ => rfl⟩
  | confirmIncomingUDP msgbuf =>
    simp only [Call.exec, Option.some.injEq] at h
    have := (confirmIncomingUDP_kept P L W msgbuf).1
    rw [h] at this
    exact this

theorem runCalls_kept (P : Protocol) (calls : List Call) :
    ∀ (L : ServerLink) (W : World) (L1 : ServerLink) (W1 : World),
      runCalls P calls L W = some (L1, W1) → sessionKept L L1 := by
  induction calls with
  | nil =>
    intro L W L1 W1 h
    simp only [runCalls, Option.some.injEq, Prod.mk.injEq] at h
    rw [← h.1]
    exact sessionKept_refl L
  | cons c cs ih =>
    intro L W L1 W1 h
    rw [runCalls] at h
    cases he : c.exec P L W with
    | none => rw [he] at h; cases h
    | some r =>
      obtain ⟨L2, W2⟩ := r
      rw [he] at h
      exact sessionKept_trans _ _ _ (exec_kept P c L W L2 W2 he) (ih L2 W2 L1 W1 h)

/-- Outside state `Okay` every call returns: `read` gives up before its
loop. -/
theorem exec_terminal (P : Protocol) (c : Call) (L : ServerLink) (W : World)
    (hs : L.state ≠ State.Okay) : ∃ L1 W1, c.exec P L W = some (L1, W1) := by
  cases c with
  | read msg blockTime fuel =>
    refine ⟨L, W, ?_⟩
    simp only [Call.exec]
    unfold read
    rw [if_pos hs]
  | send code len msg msgbuf => exact ⟨_, _, rfl⟩
  | fillTcpReadBuffer blockTime => exact ⟨_, _, rfl⟩
  | tcpPacketIn hdr msg => exact ⟨_, _, rfl⟩
  | sendUDPlinkRequest E msgbuf => exact ⟨_, _, rfl⟩
  | enableOutboundUDP => exact ⟨_, _, rfl⟩
  | confirmIncomingUDP msgbuf => exact ⟨_, _, rfl⟩

theorem runCalls_terminal (P : Protocol) (calls : List Call) :
    ∀ (L : ServerLink) (W : World), L.state ≠ State.Okay →
      ∃ L1 W1, runCalls P calls L W = some (L1, W1) := by
  induction calls with
  | nil => intro L W _; exact ⟨L, W, rfl⟩
  | cons c cs ih =>
    intro L W hs
    obtain ⟨L2, W2, he⟩ := exec_terminal P c L W hs
    have hk := exec_kept P c L W L2 W2 he
    obtain ⟨L1, W1, hr⟩ := ih L2 W2 (by rw [hk.1]; exact hs)
    refine ⟨L1, W1, ?_⟩
    rw [runCalls, he]
    exact hr

/-- C16: terminal states are permanent. Whatever sequence of calls to `send`,
`read`, `fillTcpReadBuffer`, `tcpPacketIn`, `sendUDPlinkRequest`,
`enableOutboundUDP` and `confirmIncomingUDP` is made on a link, when the
calls have returned the state and `getId()` are what they were before; and on
a link whose state is not `Okay` every such sequence does return, with a state
that is not `Okay`. -/
theorem C16_terminal_states_permanent (P : Protocol) (calls : List Call) (L : ServerLink)
    (W : World) :
    (∀ (L' : ServerLink) (W' : World), runCalls P calls L W = some (L', W') →
      L'.getState = L.getState ∧ L'.getId = L.getId) ∧
    (L.getState ≠ State.Okay →
      ∃ (L' : ServerLink) (W' : World), runCalls P calls L W = some (L', W') ∧
        L'.getState ≠ State.Okay ∧ L'.getState = L.getState ∧ L'.getId = L.getId) := by
  constructor
  · intro L' W' h
    have hk := runCalls_kept P calls L W L' W' h
    exact ⟨hk.1, hk.2.1⟩
  · intro hs
    obtain ⟨L', W', h⟩ := runCalls_terminal P calls L W hs
    have hk := runCalls_kept P calls L W L' W' h
    refine ⟨L', W', h, ?_, hk.1, hk.2.1⟩
    show L'.state ≠ State.Okay
    rw [hk.1]
    exact hs

theorem C16_terminal_states_permanent_witness :
    ∃ (L' : ServerLink) (W' : World),
      runCalls tinyProtocol sampleCalls rejectedLink sampleStreamWorld = some (L', W') ∧
        L'.getState ≠ State.Okay ∧ L'.getState = rejectedLink.getState ∧
        L'.getId = rejectedLink.getId :=
  (C16_terminal_states_permanent tinyProtocol sampleCalls rejectedLink sampleStreamWorld).2
    (by decide)

/-- C17: monotonicity of the datagram-link flag. When `ulinkup` is true, it
is still true after any sequence of calls to `send`, `read`,
`fillTcpReadBuffer`, `tcpPacketIn`, `sendUDPlinkRequest`, `enableOutboundUDP`
and `confirmIncomingUDP`; the destructor clears it, exactly when the state is
`Okay` (in the other states the destructor returns at once). -/
theorem C17_ulinkup_monotone (P : Protocol) (calls : List Call) (L : ServerLink) (W : World)
    (L' : ServerLink) (W' : World) (hup : L.ulinkup = true)
    (h : runCalls P calls L W = some (L', W')) :
    L'.ulinkup = true ∧ (L'.destroy.ulinkup = false ↔ L'.getState = State.Okay) := by
  have hk := runCalls_kept P calls L W L' W' h
  have hu := hk.2.2 hup
  refine ⟨hu, ?_⟩
  unfold ServerLink.destroy ServerLink.getState
  by_cases hs : L'.state = State.Okay
  · rw [if_neg (not_not.mpr hs)]
    exact ⟨fun _ => hs, fun _ => rfl⟩
  · rw [if_pos hs, hu]
    exact ⟨fun hx => (by cases hx), fun hx => absurd hx hs⟩

theorem C17_ulinkup_monotone_witness :
    ({ udpLink with
        urecvaddr := 2, tcpBufferPos := 3, tcpBufferConsumed := 0,
        tbuf := [0, 2, 112, 2, 112, 117, 9, 8] ++ List.replicate 24 0 } : ServerLink).ulinkup =
      true ∧
    (({ udpLink with
        urecvaddr := 2, tcpBufferPos := 3, tcpBufferConsumed := 0,
        tbuf := [0, 2, 112, 2, 112, 117, 9, 8] ++ List.replicate 24 0 } :
          ServerLink).destroy.ulinkup = false ↔
      ({ udpLink with
        urecvaddr := 2, tcpBufferPos := 3, tcpBufferConsumed := 0,
        tbuf := [0, 2, 112, 2, 112, 117, 9, 8] ++ List.replicate 24 0 } :
          ServerLink).getState = State.Okay) :=
  C17_ulinkup_monotone tinyProtocol sampleCalls udpLink sampleStreamWorld
    { udpLink with
        urecvaddr := 2, tcpBufferPos := 3, tcpBufferConsumed := 0,
        tbuf := [0, 2, 112, 2, 112, 117, 9, 8] ++ List.replicate 24 0 }
    { sampleStreamWorld with
        tcpIn := [RecvOutcome.data [117, 9, 8, 0, 0, 1], RecvOutcome.data [2]],
        trace := [Syscall.sendto 6 [0, 2, 112, 117, 9, 8] 1, Syscall.recvfrom 6 8,
          Syscall.recv 5 32, Syscall.sendto 6 [0, 1, 111, 102, 3] 1,
          Syscall.sendto 6 [0, 0, 111, 103] 1] }
    rfl (by decide)

/-! ## Polling and blocking reads, datagrams -/

theorem tcpPacketIn_incomplete (P : Protocol) (L : ServerLink) (hdr msg : List Byte)
    (h : bufferInv P L) (hi : incomplete P (unconsumed L)) :
    ∃ hdr', tcpPacketIn P L hdr msg = (false, hdr', msg, L) := by
  rw [tcpPacketIn_spec P L hdr msg h]
  rcases hi with h4 | ⟨hv, hs⟩
  · exact ⟨hdr, by rw [if_pos h4]⟩
  · by_cases h4 : (unconsumed L).length < 4
    · exact ⟨hdr, by rw [if_pos h4]⟩
    · refine ⟨writeAt hdr 0 ((unconsumed L).take 4), ?_⟩
      rw [if_neg h4, if_neg (by omega), if_pos hs]

theorem incomplete_of_append (P : Protocol) (u p : List Byte) (h : incomplete P (u ++ p)) :
    incomplete P u := by
  by_cases h4 : u.length < 4
  · exact Or.inl h4
  · have hl : (u ++ p).length = u.length + p.length := List.length_append u p
    rcases h with h | ⟨hv, hs⟩
    · omega
    · rw [frameLen_append u p (by omega)] at hv hs
      exact Or.inr ⟨hv, by omega⟩

/-- One round of the receive loop of a polling `read` when the fill reports
no error and leaves no complete frame. -/
theorem readLoop_nopacket (P : Protocol) (blockTime : Int) (n : Nat) (L : ServerLink)
    (W : World) (hdr msg : List Byte) (hbt : 0 ≤ blockTime)
    (hret : 0 ≤ (fillTcpReadBuffer P L W blockTime).1)
    (hinv : bufferInv P (fillTcpReadBuffer P L W blockTime).2.1)
    (hi : incomplete P (unconsumed (fillTcpReadBuffer P L W blockTime).2.1)) :
    readLoop P blockTime (n + 1) L W hdr msg =
      some ⟨0, P.MsgNull, 0, msg, (fillTcpReadBuffer P L W blockTime).2.1,
        (fillTcpReadBuffer P L W blockTime).2.2⟩ := by
  rw [readLoop]
  rcases hfe : fillTcpReadBuffer P L W blockTime with ⟨ret, L1, W1⟩
  rw [hfe] at hret hinv hi
  dsimp only at hret hinv hi ⊢
  rw [if_neg (by omega)]
  obtain ⟨hdr', hpk⟩ := tcpPacketIn_incomplete P L1 hdr msg hinv hi
  rw [hpk]
  dsimp only
  rw [if_pos hbt]

/-- C18: a polling read reports no message. In state `Okay` with no datagram
to serve and a well-formed receive buffer, for every `blockTime >= 0`: when
the one `fillTcpReadBuffer` of the call reports no error and leaves fewer than
4 unconsumed bytes, or a header with an admissible length `len` and fewer than
`len + 4` unconsumed bytes, `read` returns 0 with `code = MsgNull`, `len = 0`
and `msg` untouched; `tcpBufferConsumed` has not advanced and the bytes that
were unconsumed before the call are still the first unconsumed ones. -/
theorem C18_polling_read_no_message (P : Protocol) (L : ServerLink) (W : World)
    (msg : List Byte) (blockTime : Int) (fuel : Nat)
    (hs : L.state = State.Okay) (hn : noDatagram P L W) (hinv : bufferInv P L)
    (hbt : 0 ≤ blockTime) (hfuel : 1 ≤ fuel)
    (hret : 0 ≤ (fillTcpReadBuffer P (reliableEntry P L W).1 (reliableEntry P L W).2
      (reliableBlockTime L blockTime)).1)
    (hi : incomplete P (unconsumed (fillTcpReadBuffer P (reliableEntry P L W).1
      (reliableEntry P L W).2 (reliableBlockTime L blockTime)).2.1)) :
    ∃ r, read P L W msg blockTime fuel = some r ∧
      r.ret = 0 ∧ r.code = P.MsgNull ∧ r.len = 0 ∧ r.msg = msg ∧
      r.link = (fillTcpReadBuffer P (reliableEntry P L W).1 (reliableEntry P L W).2
        (reliableBlockTime L blockTime)).2.1 ∧
      r.link.tcpBufferConsumed ≤ L.tcpBufferConsumed ∧
      ∃ bytes, unconsumed r.link = unconsumed L ++ bytes := by
  obtain ⟨n, rfl⟩ : ∃ n, fuel = n + 1 := ⟨fuel - 1, by omega⟩
  obtain ⟨e1, e2, e3, _⟩ := reliableEntry_tcp P L W
  have hinvE : bufferInv P (reliableEntry P L W).1 := bufferInv_congr P _ L e3 e1 e2 hinv
  have huE : unconsumed (reliableEntry P L W).1 = unconsumed L := unconsumed_congr _ L e3 e1 e2
  have hbt' : 0 ≤ reliableBlockTime L blockTime := by
    unfold reliableBlockTime
    split <;> omega
  obtain ⟨bytes, hu, hinvF, hc0⟩ := fill_unconsumed P (reliableEntry P L W).1
    (reliableEntry P L W).2 (reliableBlockTime L blockTime) hinvE
  have hiE : incomplete P (unconsumed (reliableEntry P L W).1) := by
    rw [hu] at hi
    exact incomplete_of_append P _ bytes hi
  obtain ⟨hdr', hpk⟩ := tcpPacketIn_incomplete P (reliableEntry P L W).1 [0, 0, 0, 0] msg
    hinvE hiE
  have hread : read P L W msg blockTime (n + 1) =
      some ⟨0, P.MsgNull, 0, msg,
        (fillTcpReadBuffer P (reliableEntry P L W).1 (reliableEntry P L W).2
          (reliableBlockTime L blockTime)).2.1,
        (fillTcpReadBuffer P (reliableEntry P L W).1 (reliableEntry P L W).2
          (reliableBlockTime L blockTime)).2.2⟩ := by
    rw [read_reliable P L W msg blockTime (n + 1) hs hn]
    unfold readTcp
    dsimp only
    rw [hpk]
    dsimp only
    exact readLoop_nopacket P _ n _ _ hdr' msg hbt' hret hinvF hi
  refine ⟨_, hread, rfl, rfl, rfl, rfl, rfl, ?_, bytes, ?_⟩
  · show (fillTcpReadBuffer P (reliableEntry P L W).1 (reliableEntry P L W).2
      (reliableBlockTime L blockTime)).2.1.tcpBufferConsumed ≤ L.tcpBufferConsumed
    rw [hc0]
    exact hinv.1.1
  · show unconsumed (fillTcpReadBuffer P (reliableEntry P L W).1 (reliableEntry P L W).2
      (reliableBlockTime L blockTime)).2.1 = unconsumed L ++ bytes
    rw [hu, huE]

theorem C18_polling_read_no_message_witness :
    ∃ r, read tinyProtocol partialLink oneByteWorld [0, 0, 0, 0] 0 1 = some r ∧
      r.ret = 0 ∧ r.code = tinyProtocol.MsgNull ∧ r.len = 0 ∧ r.msg = [0, 0, 0, 0] ∧
      r.link = (fillTcpReadBuffer tinyProtocol (reliableEntry tinyProtocol partialLink
        oneByteWorld).1 (reliableEntry tinyProtocol partialLink oneByteWorld).2
        (reliableBlockTime partialLink 0)).2.1 ∧
      r.link.tcpBufferConsumed ≤ partialLink.tcpBufferConsumed ∧
      ∃ bytes, unconsumed r.link = unconsumed partialLink ++ bytes :=
  C18_polling_read_no_message tinyProtocol partialLink oneByteWorld [0, 0, 0, 0] 0 1
    (by decide) (by decide) (by decide) (by decide) (by decide) (by decide) (by decide)

theorem writeAt_zero (mem data : List Byte) :
    writeAt mem 0 data = data ++ mem.drop data.length := by
  simp [writeAt]

/-- The poll of the datagram socket when a datagram that fits the buffer is
queued and none is pending. -/
theorem pollUdp_datagram (P : Protocol) (L : ServerLink) (W : World) (d : List Byte)
    (rest : List (List Byte)) (h0 : L.udpLength = 0) (hq : W.udpIn = d :: rest)
    (hd : 0 < d.length) (hfit : d.length ≤ P.MaxPacketLen) :
    pollUdp P L W =
      ({ L with ubuf := d ++ L.ubuf.drop d.length, udpLength := d.length, udpBufferPtr := 0 },
        { W with udpIn := rest,
                 trace := W.trace ++ [Syscall.recvfrom L.urecvfd P.MaxPacketLen] }) := by
  have ht : d.take P.MaxPacketLen = d := List.take_of_length_le hfit
  have hpos : ((d.length : Nat) : Int) > 0 := by omega
  unfold pollUdp World.recvfrom
  rw [if_pos h0, hq]
  dsimp only
  rw [ht, if_pos hpos, writeAt_zero]

/-- The decoding of a pending datagram that is one well-formed frame. -/
theorem readDatagram_frame (P : Protocol) (L : ServerLink) (W : World) (msg : List Byte)
    (f : Frame) (tail : List Byte) (hf : f.wellFormed P)
    (hu : L.ubuf = f.encode ++ tail) (hl : L.udpLength = (f.encode.length : Int))
    (hp : L.udpBufferPtr = 0) :
    readDatagram L W msg P.MsgNull =
      ⟨1, f.code, f.len, writeAt msg 0 f.payload,
        { L with udpBufferPtr := 4 + f.len, udpLength := 0 }, W⟩ := by
  obtain ⟨hcode, hlen, hpay, _⟩ := hf
  have henc := encode_length f
  have h1 : nboUnpackUShort L.ubuf 0 = (f.len, 2) := by
    show (frameLen L.ubuf, 2) = _
    rw [hu, frameLen_encode f tail hlen]
  have h2 : nboUnpackUShort L.ubuf 2 = (f.code, 4) := by
    show (frameCode L.ubuf, 4) = _
    rw [hu, frameCode_encode f tail hcode]
  have h3 : readAt L.ubuf 4 f.len = f.payload := by
    unfold readAt
    rw [hu, ← hpay]
    exact encode_payload f tail
  unfold readDatagram
  dsimp only
  rw [hl, hp, h1]
  dsimp only
  rw [h2]
  dsimp only
  rw [if_neg (by omega), if_neg (by omega), h3]
  congr 2
  omega

/-- C19: unreliable traffic has priority. In state `Okay` with the datagram
socket open and no datagram bytes left pending by an earlier call, when the
socket holds a datagram that is exactly one well-formed frame, `read` returns
1 with the code, the length and (in `msg`) the payload of that frame; no
datagram bytes stay pending, the datagram is taken from the socket, and the
reliable receive buffer, both of its cursors and the stream socket are as
they were, whatever the buffer holds. -/
theorem C19_datagram_priority (P : Protocol) (L : ServerLink) (W : World) (msg : List Byte)
    (blockTime : Int) (fuel : Nat) (f : Frame) (rest : List (List Byte))
    (hs : L.state = State.Okay) (hopen : L.urecvfd ≥ 0) (h0 : L.udpLength = 0)
    (hq : W.udpIn = f.encode :: rest) (hf : f.wellFormed P) :
    ∃ r, read P L W msg blockTime fuel = some r ∧
      r.ret = 1 ∧ r.code = f.code ∧ r.len = f.len ∧ r.msg.take f.len = f.payload ∧
      r.link.udpLength = 0 ∧
      r.link.tbuf = L.tbuf ∧ r.link.tcpBufferPos = L.tcpBufferPos ∧
      r.link.tcpBufferConsumed = L.tcpBufferConsumed ∧
      r.world.udpIn = rest ∧ r.world.tcpIn = W.tcpIn := by
  have henc := encode_length f
  have hfit : f.encode.length ≤ P.MaxPacketLen := by
    obtain ⟨_, _, hpay, hmax⟩ := hf
    omega
  have hpoll := pollUdp_datagram P L W f.encode rest h0 hq (by omega) hfit
  have hn : ¬ noDatagram P L W := by
    unfold noDatagram
    rw [hpoll]
    dsimp only
    omega
  have hread := read_datagram P L W msg blockTime fuel hs hn
  rw [hpoll] at hread
  dsimp only at hread
  rw [readDatagram_frame P _ _ msg f (L.ubuf.drop f.encode.length) hf rfl rfl rfl] at hread
  refine ⟨_, hread, rfl, rfl, rfl, ?_, rfl, rfl, rfl, rfl, rfl, rfl⟩
  show (writeAt msg 0 f.payload).take f.len = f.payload
  rw [← hf.2.2.1]
  exact writeAt_zero_take msg f.payload

theorem C19_datagram_priority_witness :
    ∃ r, read tinyProtocol openLink datagramWorld [0, 0, 0, 0] (-1) 1 = some r ∧
      r.ret = 1 ∧ r.code = 0x6d67 ∧ r.len = 2 ∧ r.msg.take 2 = [5, 6] ∧
      r.link.udpLength = 0 ∧
      r.link.tbuf = openLink.tbuf ∧ r.link.tcpBufferPos = openLink.tcpBufferPos ∧
      r.link.tcpBufferConsumed = openLink.tcpBufferConsumed ∧
      r.world.udpIn = [] ∧ r.world.tcpIn = datagramWorld.tcpIn :=
  C19_datagram_priority tinyProtocol openLink datagramWorld [0, 0, 0, 0] (-1) 1
    ⟨0x6d67, 2, [5, 6]⟩ [] (by decide) (by decide) (by decide) (by decide) (by decide)

theorem readHeader_ret (P : Protocol) (L : ServerLink) (W : World) (hdr msg : List Byte) :
    (readHeader P L W hdr msg).ret = 1 ∨ (readHeader P L W hdr msg).ret = -1 := by
  unfold readHeader
  dsimp only
  split
  · exact Or.inr rfl
  · exact Or.inl rfl

theorem readLoop_blocking_ret (P : Protocol) (blockTime : Int) (hbt : blockTime < 0)
    (fuel : Nat) :
    ∀ (L : ServerLink) (W : World) (hdr msg : List Byte) (r : ReadResult),
      readLoop P blockTime fuel L W hdr msg = some r → r.ret = 1 ∨ r.ret = -1 := by
  induction fuel with
  | zero => intro L W hdr msg r h; simp [readLoop] at h
  | succ n ih =>
    intro L W hdr msg r h
    rw [readLoop] at h
    rcases hfe : fillTcpReadBuffer P L W blockTime with ⟨ret, L1, W1⟩
    rw [hfe] at h
    dsimp only at h
    by_cases hr : ret < 0
    · rw [if_pos hr] at h
      cases h
      exact Or.inr rfl
    · rw [if_neg hr] at h
      rcases hte : tcpPacketIn P L1 hdr msg with ⟨b, hdr2, msg2, L2⟩
      rw [hte] at h
      cases b with
      | true =>
        dsimp only at h
        cases h
        exact readHeader_ret P L2 W1 hdr2 msg2
      | false =>
        dsimp only at h
        rw [if_neg (by omega)] at h
        exact ih _ _ _ _ _ h

/-- Without a datagram socket a blocking `read` that returns never reports
"no message": its result is 1 or -1. -/
theorem read_blocking_ret (P : Protocol) (L : ServerLink) (W : World) (msg : List Byte)
    (blockTime : Int) (fuel : Nat) (r : ReadResult) (hbt : blockTime < 0)
    (hu : L.urecvfd < 0) (h : read P L W msg blockTime fuel = some r) :
    r.ret = 1 ∨ r.ret = -1 := by
  by_cases hs : L.state = State.Okay
  · rw [read_reliable P L W msg blockTime fuel hs (Or.inl hu)] at h
    have hE : reliableEntry P L W = (L, W) := by
      unfold reliableEntry
      rw [if_neg (by omega)]
    have hB : reliableBlockTime L blockTime = blockTime := by
      unfold reliableBlockTime
      rw [if_neg (by omega)]
    rw [hE, hB] at h
    unfold readTcp at h
    dsimp only at h
    rcases hte : tcpPacketIn P L [0, 0, 0, 0] msg with ⟨b, hdr2, msg2, L2⟩
    rw [hte] at h
    cases b with
    | true =>
      dsimp only at h
      cases h
      exact readHeader_ret P L2 W hdr2 msg2
    | false =>
      dsimp only at h
      exact readLoop_blocking_ret P blockTime hbt fuel _ _ _ _ _ h
  · rw [read_inactive P L W msg blockTime fuel hs] at h
    cases h
    exact Or.inr rfl

/-- Line 627: with the datagram socket open the caller's `blockTime` is
not used. -/
theorem read_open_polls (P : Protocol) (L : ServerLink) (W : World) (msg : List Byte)
    (blockTime : Int) (fuel : Nat) (hu : L.urecvfd ≥ 0) :
    read P L W msg blockTime fuel = read P L W msg 0 fuel := by
  unfold read
  rw [if_pos hu, if_pos hu]

/-- C20: a blocking read, evaluated on the code. In state `Okay` with the
datagram socket open, no datagram pending and nothing on the stream socket,
`read` with `blockTime = -1` returns 0 after one round: line 627 sets
`blockTime = 0` whenever `urecvfd >= 0`, although the declaration says "if
millisecondsToBlock < 0 then block forever". The second part is the same on a
link fresh from the handshake whose datagram socket `sendUDPlinkRequest` has
opened. -/
theorem C20_blocking_read_reports_no_message :
    quietLink.state = State.Okay ∧ quietLink.urecvfd ≥ 0 ∧
    (read tinyProtocol quietLink idleWorld [0, 0, 0, 0] (-1) 1).map
        (fun r => (r.ret, r.code, r.len)) =
      some (0, tinyProtocol.MsgNull, 0) ∧
    ((ServerLink.construct bzflagProtocol sampleLink 1 sampleHandshake).bind
        (fun L =>
          read bzflagProtocol
            (sendUDPlinkRequest bzflagProtocol L idleWorld ⟨6, 0, 2, 0⟩ (List.replicate 1024 0)).1
            (sendUDPlinkRequest bzflagProtocol L idleWorld ⟨6, 0, 2, 0⟩ (List.replicate 1024 0)).2
            [0, 0, 0, 0] (-1) 1)).map
        (fun r => (r.link.state, decide (r.link.urecvfd ≥ 0), r.ret)) =
      some (State.Okay, true, 0) := by
  decide

/-! ## Malformed frames, bad datagrams and a closed peer -/

/-- The reliable part of `read` when the unconsumed bytes start with a header
whose length exceeds `MaxPacketLen - 4`: the result is -1 and the link is the
one the reliable part was entered with. -/
theorem read_malformed (P : Protocol) (L : ServerLink) (W : World) (msg : List Byte)
    (blockTime : Int) (fuel : Nat) (hs : L.state = State.Okay) (hn : noDatagram P L W)
    (h : bufferInv P L) (h4 : 4 ≤ (unconsumed L).length)
    (hbig : (frameLen (unconsumed L) : Int) > (P.MaxPacketLen : Int) - 4) :
    read P L W msg blockTime fuel =
      some ⟨-1, frameCode (unconsumed L), frameLen (unconsumed L), msg,
        (reliableEntry P L W).1, (reliableEntry P L W).2⟩ := by
  have hnot4 : ¬ (unconsumed L).length < 4 := by omega
  have hbig' : (frameLen (unconsumed L) : Int) + 4 > P.MaxPacketLen := by omega
  have het := reliableEntry_tcp P L W
  have hinv1 : bufferInv P (reliableEntry P L W).1 :=
    bufferInv_congr P _ L het.2.2.1 het.1 het.2.1 h
  have hu1 : unconsumed (reliableEntry P L W).1 = unconsumed L :=
    unconsumed_congr _ L het.2.2.1 het.1 het.2.1
  have hread : read P L W msg blockTime fuel =
      some (readHeader P (reliableEntry P L W).1 (reliableEntry P L W).2
        (writeAt [0, 0, 0, 0] 0 ((unconsumed L).take 4)) msg) := by
    rw [read_reliable P L W msg blockTime fuel hs hn]
    apply readTcp_of_packet
    rw [tcpPacketIn_spec P _ _ msg hinv1, hu1]
    simp only [hnot4, hbig', if_false, if_true]
  rw [hread, readHeader_spec P _ _ _ msg (unconsumed L) h4, if_pos hbig]

/-- In state `Okay` every `send` makes a system call. -/
theorem send_trace (P : Protocol) (L : ServerLink) (W : World) (code len : Nat)
    (msg : Option (List Byte)) (msgbuf : List Byte) (hs : L.state = State.Okay) :
    ∃ call, (send P L W code len msg msgbuf).2.trace = W.trace ++ [call] := by
  rw [send_eq P L W code len msg msgbuf hs]
  split
  · exact ⟨_, rfl⟩
  · exact ⟨_, rfl⟩

/-- C21, as amended: a malformed frame ends the reading, not the session.
In state `Okay` with no datagram to serve, when the unconsumed bytes start
with a header whose length exceeds `MaxPacketLen - 4`, `read` returns -1; the
state is still `Okay` and the header is not consumed, so that every later
`read` that serves no datagram returns -1 again, while every later `send`
still makes its system call. -/
theorem C21_malformed_frame_keeps_state (P : Protocol) (L : ServerLink) (W : World)
    (msg : List Byte) (blockTime : Int) (fuel : Nat)
    (hs : L.state = State.Okay) (hn : noDatagram P L W)
    (h : bufferInv P L) (h4 : 4 ≤ (unconsumed L).length)
    (hbig : (frameLen (unconsumed L) : Int) > (P.MaxPacketLen : Int) - 4) :
    ∃ r, read P L W msg blockTime fuel = some r ∧ r.ret = -1 ∧
      r.link.getState = State.Okay ∧ unconsumed r.link = unconsumed L ∧
      r.link.tcpBufferConsumed = L.tcpBufferConsumed ∧
      (∀ (W2 : World) (msg2 : List Byte) (blockTime2 : Int) (fuel2 : Nat),
        noDatagram P r.link W2 →
        ∃ r2, read P r.link W2 msg2 blockTime2 fuel2 = some r2 ∧ r2.ret = -1) ∧
      (∀ (W2 : World) (code len : Nat) (m : Option (List Byte)) (msgbuf : List Byte),
        ∃ call, (send P r.link W2 code len m msgbuf).2.trace = W2.trace ++ [call]) := by
  have het := reliableEntry_tcp P L W
  have hinv1 : bufferInv P (reliableEntry P L W).1 :=
    bufferInv_congr P _ L het.2.2.1 het.1 het.2.1 h
  have hu1 : unconsumed (reliableEntry P L W).1 = unconsumed L :=
    unconsumed_congr _ L het.2.2.1 het.1 het.2.1
  have hs1 : (reliableEntry P L W).1.state = State.Okay := by rw [het.2.2.2]; exact hs
  refine ⟨_, read_malformed P L W msg blockTime fuel hs hn h h4 hbig, rfl, hs1, hu1, het.2.1,
    ?_, ?_⟩
  · intro W2 msg2 blockTime2 fuel2 hn2
    exact ⟨_, read_malformed P _ W2 msg2 blockTime2 fuel2 hs1 hn2 hinv1 (by rw [hu1]; exact h4)
      (by rw [hu1]; exact hbig), rfl⟩
  · intro W2 code len m msgbuf
    exact send_trace P _ W2 code len m msgbuf hs1

theorem C21_malformed_frame_keeps_state_witness :
    ∃ r, read tinyProtocol malformedLink idleWorld [0, 0, 0, 0] 0 1 = some r ∧ r.ret = -1 ∧
      r.link.getState = State.Okay ∧ unconsumed r.link = unconsumed malformedLink ∧
      r.link.tcpBufferConsumed = malformedLink.tcpBufferConsumed ∧
      (∀ (W2 : World) (msg2 : List Byte) (blockTime2 : Int) (fuel2 : Nat),
        noDatagram tinyProtocol r.link W2 →
        ∃ r2, read tinyProtocol r.link W2 msg2 blockTime2 fuel2 = some r2 ∧ r2.ret = -1) ∧
      (∀ (W2 : World) (code len : Nat) (m : Option (List Byte)) (msgbuf : List Byte),
        ∃ call, (send tinyProtocol r.link W2 code len m msgbuf).2.trace = W2.trace ++ [call]) :=
  C21_malformed_frame_keeps_state tinyProtocol malformedLink idleWorld [0, 0, 0, 0] 0 1
    (by decide) (by decide) (by decide) (by decide) (by decide)

/-- C21, as stated, fails: after `read` has met the header `0, 5` (length 5,
more than `MaxPacketLen - 4 = 4`) it returns -1, but the state of the link is
`Okay`, not `SocketError`, and a later `send` is not a no-op: it writes the
frame to the reliable socket. -/
theorem C21_malformed_frame_fatal_counterexample :
    (read tinyProtocol malformedLink idleWorld [0, 0, 0, 0] 0 1).map
        (fun r => (r.ret, r.link.getState)) = some (-1, State.Okay) ∧
    (read tinyProtocol malformedLink idleWorld [0, 0, 0, 0] 0 1).map
        (fun r => (send tinyProtocol r.link r.world 0x6d67 2 (some [9, 8])
          (List.replicate 8 0)).2.trace) =
      some [Syscall.send 5 [0, 2, 0x6d, 0x67, 9, 8]] := by
  decide

/-- The decoding of a pending datagram that is too short for a header or for
the payload its header announces: the result is -1, the datagram is dropped,
`msg` is untouched. -/
theorem readDatagram_bad (L : ServerLink) (W : World) (msg : List Byte) (n : Nat)
    (d tail : List Byte) (hu : L.ubuf = d ++ tail) (hl : L.udpLength = (d.length : Int))
    (hp : L.udpBufferPtr = 0) (hbad : badDatagram d) :
    (readDatagram L W msg n).ret = -1 ∧ (readDatagram L W msg n).msg = msg ∧
      (readDatagram L W msg n).link.udpLength = 0 ∧ (readDatagram L W msg n).world = W := by
  unfold readDatagram
  dsimp only
  rw [hl, hp]
  rcases hbad with ⟨h0, h4⟩ | ⟨h4, hlen⟩
  · rw [if_pos (by omega)]
    exact ⟨rfl, rfl, rfl, rfl⟩
  · rw [if_neg (by omega)]
    have h1 : nboUnpackUShort L.ubuf 0 = (frameLen d, 2) := by
      show (frameLen L.ubuf, 2) = _
      rw [hu, frameLen_append d tail (by omega)]
    rw [h1]
    dsimp only
    rw [if_pos (by omega)]
    exact ⟨rfl, rfl, rfl, rfl⟩

/-- C22, as amended: a datagram-path error is reported, and is not fatal. In
state `Okay` with the datagram socket open and no datagram bytes pending, when
the next datagram of the socket has one to three bytes, or a header whose
length exceeds the bytes behind the header, `read` returns -1 without
turning to the reliable path: the datagram is dropped (`udpLength = 0`),
`msg`, the state, the receive buffer and the stream socket are as they
were. -/
theorem C22_bad_datagram_reported (P : Protocol) (L : ServerLink) (W : World)
    (msg : List Byte) (blockTime : Int) (fuel : Nat) (d : List Byte) (rest : List (List Byte))
    (hs : L.state = State.Okay) (hopen : L.urecvfd ≥ 0) (h0 : L.udpLength = 0)
    (hq : W.udpIn = d :: rest) (hfit : d.length ≤ P.MaxPacketLen) (hbad : badDatagram d) :
    ∃ r, read P L W msg blockTime fuel = some r ∧ r.ret = -1 ∧ r.msg = msg ∧
      r.link.udpLength = 0 ∧ r.link.getState = State.Okay ∧
      r.link.tbuf = L.tbuf ∧ r.link.tcpBufferPos = L.tcpBufferPos ∧
      r.link.tcpBufferConsumed = L.tcpBufferConsumed ∧
      r.world.udpIn = rest ∧ r.world.tcpIn = W.tcpIn ∧
      r.world.trace = W.trace ++ [Syscall.recvfrom L.urecvfd P.MaxPacketLen] := by
  have hpos : 0 < d.length := by
    rcases hbad with ⟨h, _⟩ | ⟨h, _⟩ <;> omega
  have hpoll := pollUdp_datagram P L W d rest h0 hq hpos hfit
  have hn : ¬ noDatagram P L W := by
    unfold noDatagram
    rw [hpoll]
    dsimp only
    omega
  have hread := read_datagram P L W msg blockTime fuel hs hn
  rw [hpoll] at hread
  dsimp only at hread
  obtain ⟨e1, e2, e3, e4⟩ := readDatagram_bad
    { L with ubuf := d ++ L.ubuf.drop d.length, udpLength := d.length, udpBufferPtr := 0 }
    { W with udpIn := rest, trace := W.trace ++ [Syscall.recvfrom L.urecvfd P.MaxPacketLen] }
    msg P.MsgNull d (L.ubuf.drop d.length) rfl rfl rfl hbad
  obtain ⟨t1, t2, t3, t4⟩ := readDatagram_tcp
    { L with ubuf := d ++ L.ubuf.drop d.length, udpLength := d.length, udpBufferPtr := 0 }
    { W with udpIn := rest, trace := W.trace ++ [Syscall.recvfrom L.urecvfd P.MaxPacketLen] }
    msg P.MsgNull
  refine ⟨_, hread, e1, e2, e3, ?_, t3, t1, t2, ?_, ?_, ?_⟩
  · show (readDatagram _ _ msg P.MsgNull).link.state = State.Okay
    rw [t4]
    exact hs
  · rw [e4]
  · rw [e4]
  · rw [e4]

theorem C22_bad_datagram_reported_witness :
    ∃ r, read tinyProtocol openLink overlongDatagramWorld [0, 0, 0, 0] 0 1 = some r ∧
      r.ret = -1 ∧ r.msg = [0, 0, 0, 0] ∧
      r.link.udpLength = 0 ∧ r.link.getState = State.Okay ∧
      r.link.tbuf = openLink.tbuf ∧ r.link.tcpBufferPos = openLink.tcpBufferPos ∧
      r.link.tcpBufferConsumed = openLink.tcpBufferConsumed ∧
      r.world.udpIn = [] ∧ r.world.tcpIn = overlongDatagramWorld.tcpIn ∧
      r.world.trace = overlongDatagramWorld.trace ++
        [Syscall.recvfrom openLink.urecvfd tinyProtocol.MaxPacketLen] :=
  C22_bad_datagram_reported tinyProtocol openLink overlongDatagramWorld [0, 0, 0, 0] 0 1
    [0, 5, 0x6d, 0x67, 1, 2] [] (by decide) (by decide) (by decide) (by decide) (by decide)
    (by decide)

/-- C22, as stated, fails: with a complete frame waiting in the receive
buffer, a datagram of three bytes makes `read` return -1, and so does a
datagram whose header announces 5 bytes and carries 2; the frame of the
receive buffer is not delivered. -/
theorem C22_bad_datagram_swallowed_counterexample :
    unconsumed openLink = [0, 2, 0x70, 0x75, 9, 8] ∧
    (read tinyProtocol openLink shortDatagramWorld [0, 0, 0, 0] 0 1).map
        (fun r => (r.ret, r.link.tcpBufferConsumed)) = some (-1, 2) ∧
    (read tinyProtocol openLink overlongDatagramWorld [0, 0, 0, 0] 0 1).map
        (fun r => (r.ret, r.link.tcpBufferConsumed)) = some (-1, 2) := by
  decide

/-- The `recv` of `fillTcpReadBuffer` when the peer has shut the stream down:
the result is 0 and the link is unchanged. -/
theorem fillRecvResult_closed (P : Protocol) (Lc : ServerLink) (W1 W2 : World)
    (h : W1.recv Lc.fd (sizeofTbuf P - Lc.tcpBufferPos).toNat = (RecvOutcome.data [], W2)) :
    fillRecvResult P Lc W1 = (0, Lc, W2) := by
  rw [fillRecvResult_data P Lc W1 W2 [] h, writeAt_nil]
  simp

/-- C23: a closed peer, evaluated on the code. When `recv` returns 0 bytes
`fillTcpReadBuffer` returns 0, as it does for `EAGAIN`, and a polling `read`
returns 0; a blocking `read` goes round its loop as long as `recv` returns 0
(three rounds here). The second part is a polling `read` on the link a
successful handshake returns. -/
theorem C23_closed_peer_reads_as_no_data :
    (fillTcpReadBuffer tinyProtocol emptyLink closedWorld 0).1 = 0 ∧
    (fillTcpReadBuffer tinyProtocol emptyLink idleWorld 0).1 = 0 ∧
    (read tinyProtocol emptyLink closedWorld [0, 0, 0, 0] 0 1).map
        (fun r => (r.ret, r.code, r.len, r.link.getState)) =
      some (0, tinyProtocol.MsgNull, 0, State.Okay) ∧
    read tinyProtocol emptyLink closedWorld [0, 0, 0, 0] (-1) 3 = none ∧
    ((ServerLink.construct bzflagProtocol sampleLink 1 sampleHandshake).bind
        (fun L => read bzflagProtocol L closedWorld [0, 0, 0, 0] 0 1)).map
        (fun r => (r.ret, r.link.getState)) = some (0, State.Okay) := by
  decide

/-! ## The flag of the datagram link -/

theorem needForSpeed_up (P : Protocol) (L : ServerLink) (code : Nat) (hopen : L.urecvfd ≥ 0)
    (hup : L.ulinkup = true) (hcode : code ∈ linkRouted P) : needForSpeed P L code := by
  rw [needForSpeed_iff]
  exact Or.inr ⟨⟨hopen, hup⟩, hcode⟩

theorem needForSpeed_down (P : Protocol) (L : ServerLink) (code : Nat)
    (hdown : L.urecvfd < 0 ∨ L.ulinkup = false) (hcode : code ≠ P.MsgUDPLinkRequest) :
    ¬ needForSpeed P L code := by
  rw [needForSpeed_iff]
  rintro (h | ⟨⟨h1, h2⟩, _⟩)
  · exact hcode h
  · rcases hdown with hd | hd
    · omega
    · rw [hd] at h2
      cases h2

/-- The method `confirmIncomingUDP` in state `Okay`: the flag is set and the
4-byte frame goes where `send` routes it with the flag set. -/
theorem confirmIncomingUDP_eq (P : Protocol) (L : ServerLink) (W : World)
    (msgbuf : List Byte) (hs : L.state = State.Okay) :
    confirmIncomingUDP P L W msgbuf =
      if needForSpeed P { L with ulinkup := true } P.MsgUDPLinkEstablished then
        ({ L with ulinkup := true }, { W with trace := W.trace ++
          [Syscall.sendto L.urecvfd (Frame.encode ⟨P.MsgUDPLinkEstablished, 0, []⟩)
            L.usendaddr] })
      else
        ({ L with ulinkup := true }, { W with trace := W.trace ++
          [Syscall.send L.fd (Frame.encode ⟨P.MsgUDPLinkEstablished, 0, []⟩)] }) := by
  unfold confirmIncomingUDP
  dsimp only
  have hs' : ({ L with ulinkup := true } : ServerLink).state = State.Okay := hs
  rw [send_frame P { L with ulinkup := true } W P.MsgUDPLinkEstablished 0 none msgbuf hs'
    (Nat.zero_le _)]
  rfl

/-- C24, as amended: the two upgrade directions share the one flag `ulinkup`.
In state `Okay` with the datagram socket open, after `confirmIncomingUDP`
alone, as after `enableOutboundUDP` alone, `send` sends a message of one of the
six link-routed codes (`MsgPlayerUpdate` among them) as a datagram and writes
nothing to the reliable socket; as long as the flag is down such a message is
written to the reliable socket. -/
theorem C24_single_link_flag (P : Protocol) (L : ServerLink) (W W2 : World)
    (msgbuf1 msgbuf : List Byte) (code len : Nat) (msg : Option (List Byte))
    (hs : L.state = State.Okay) (hopen : L.urecvfd ≥ 0) (hcode : code ∈ linkRouted P)
    (hmsg : len ≤ (msg.getD []).length) :
    (confirmIncomingUDP P L W msgbuf1).1 = { L with ulinkup := true } ∧
    enableOutboundUDP L = { L with ulinkup := true } ∧
    send P (confirmIncomingUDP P L W msgbuf1).1 W2 code len msg msgbuf =
      ({ L with ulinkup := true }, { W2 with trace := W2.trace ++
        [Syscall.sendto L.urecvfd (Frame.encode ⟨code, len, payloadOf msg len⟩)
          L.usendaddr] }) ∧
    send P (enableOutboundUDP L) W2 code len msg msgbuf =
      ({ L with ulinkup := true }, { W2 with trace := W2.trace ++
        [Syscall.sendto L.urecvfd (Frame.encode ⟨code, len, payloadOf msg len⟩)
          L.usendaddr] }) ∧
    (L.ulinkup = false → code ≠ P.MsgUDPLinkRequest →
      send P L W2 code len msg msgbuf =
        (L, { W2 with trace := W2.trace ++
          [Syscall.send L.fd (Frame.encode ⟨code, len, payloadOf msg len⟩)] })) := by
  have hc : (confirmIncomingUDP P L W msgbuf1).1 = { L with ulinkup := true } := by
    rw [confirmIncomingUDP_eq P L W msgbuf1 hs]
    split <;> rfl
  have hup : needForSpeed P { L with ulinkup := true } code :=
    needForSpeed_up P { L with ulinkup := true } code hopen rfl hcode
  have hsend : send P { L with ulinkup := true } W2 code len msg msgbuf =
      ({ L with ulinkup := true }, { W2 with trace := W2.trace ++
        [Syscall.sendto L.urecvfd (Frame.encode ⟨code, len, payloadOf msg len⟩)
          L.usendaddr] }) := by
    have hs' : ({ L with ulinkup := true } : ServerLink).state = State.Okay := hs
    rw [send_frame P { L with ulinkup := true } W2 code len msg msgbuf hs' hmsg, if_pos hup]
  refine ⟨hc, rfl, ?_, hsend, ?_⟩
  · rw [hc]
    exact hsend
  · intro hdown hne
    rw [send_frame P L W2 code len msg msgbuf hs hmsg,
      if_neg (needForSpeed_down P L code (Or.inr hdown) hne)]

/-- C25, as amended: the upgrade-confirmed message travels on the datagram
channel. In state `Okay` with the datagram socket open, `confirmIncomingUDP`
sets `ulinkup` and sends the 4-byte `MsgUDPLinkEstablished` frame (length 0)
as one datagram; nothing is written to the reliable socket. Without a datagram
socket the frame is written to the reliable socket. -/
theorem C25_confirm_goes_out_as_datagram (P : Protocol) (L : ServerLink) (W : World)
    (msgbuf : List Byte) (hs : L.state = State.Okay) :
    (L.urecvfd ≥ 0 →
      confirmIncomingUDP P L W msgbuf =
        ({ L with ulinkup := true }, { W with trace := W.trace ++
          [Syscall.sendto L.urecvfd (Frame.encode ⟨P.MsgUDPLinkEstablished, 0, []⟩)
            L.usendaddr] })) ∧
    (L.urecvfd < 0 → P.MsgUDPLinkEstablished ≠ P.MsgUDPLinkRequest →
      confirmIncomingUDP P L W msgbuf =
        ({ L with ulinkup := true }, { W with trace := W.trace ++
          [Syscall.send L.fd (Frame.encode ⟨P.MsgUDPLinkEstablished, 0, []⟩)] })) ∧
    (Frame.encode ⟨P.MsgUDPLinkEstablished, 0, []⟩).length = 4 := by
  refine ⟨?_, ?_, rfl⟩
  · intro hopen
    rw [confirmIncomingUDP_eq P L W msgbuf hs,
      if_pos (needForSpeed_up P { L with ulinkup := true } P.MsgUDPLinkEstablished hopen rfl
        (by simp [linkRouted]))]
  · intro hclosed hne
    rw [confirmIncomingUDP_eq P L W msgbuf hs,
      if_neg (needForSpeed_down P { L with ulinkup := true } P.MsgUDPLinkEstablished
        (Or.inl hclosed) hne)]

theorem C24_single_link_flag_witness :
    (confirmIncomingUDP bzflagProtocol openLink idleWorld (List.replicate 1024 0)).1 =
      { openLink with ulinkup := true } ∧
    enableOutboundUDP openLink = { openLink with ulinkup := true } ∧
    send bzflagProtocol
        (confirmIncomingUDP bzflagProtocol openLink idleWorld (List.replicate 1024 0)).1
        idleWorld bzflagProtocol.MsgPlayerUpdate 2 (some [9, 8]) (List.replicate 1024 0) =
      ({ openLink with ulinkup := true },
        { idleWorld with trace := [Syscall.sendto 6 [0, 2, 0x70, 0x75, 9, 8] 1] }) ∧
    send bzflagProtocol (enableOutboundUDP openLink) idleWorld bzflagProtocol.MsgPlayerUpdate 2
        (some [9, 8]) (List.replicate 1024 0) =
      ({ openLink with ulinkup := true },
        { idleWorld with trace := [Syscall.sendto 6 [0, 2, 0x70, 0x75, 9, 8] 1] }) ∧
    (openLink.ulinkup = false →
      bzflagProtocol.MsgPlayerUpdate ≠ bzflagProtocol.MsgUDPLinkRequest →
      send bzflagProtocol openLink idleWorld bzflagProtocol.MsgPlayerUpdate 2 (some [9, 8])
          (List.replicate 1024 0) =
        (openLink, { idleWorld with trace := [Syscall.send 5 [0, 2, 0x70, 0x75, 9, 8]] })) :=
  C24_single_link_flag bzflagProtocol openLink idleWorld idleWorld (List.replicate 1024 0)
    (List.replicate 1024 0) bzflagProtocol.MsgPlayerUpdate 2 (some [9, 8]) rfl (by decide)
    (by decide) (by decide)

theorem C25_confirm_goes_out_as_datagram_witness :
    (openLink.urecvfd ≥ 0 →
      confirmIncomingUDP bzflagProtocol openLink idleWorld (List.replicate 1024 0) =
        ({ openLink with ulinkup := true },
          { idleWorld with trace := [Syscall.sendto 6 [0, 0, 0x6f, 0x67] 1] })) ∧
    (openLink.urecvfd < 0 →
      bzflagProtocol.MsgUDPLinkEstablished ≠ bzflagProtocol.MsgUDPLinkRequest →
      confirmIncomingUDP bzflagProtocol openLink idleWorld (List.replicate 1024 0) =
        ({ openLink with ulinkup := true },
          { idleWorld with trace := [Syscall.send 5 [0, 0, 0x6f, 0x67]] })) ∧
    (Frame.encode ⟨bzflagProtocol.MsgUDPLinkEstablished, 0, []⟩).length = 4 :=
  C25_confirm_goes_out_as_datagram bzflagProtocol openLink idleWorld (List.replicate 1024 0) rfl

/-- C24, as stated, fails: on a link in state `Okay` with the datagram socket
open and `ulinkup` false, on which `enableOutboundUDP` is never called,
`confirmIncomingUDP` sets `ulinkup`, and the next `send` of a `MsgPlayerUpdate`
is a `sendto` on the datagram socket, not a write to the reliable socket. -/
theorem C24_confirm_enables_outbound_counterexample :
    openLink.ulinkup = false ∧
    (confirmIncomingUDP tinyProtocol openLink idleWorld (List.replicate 8 0)).1.ulinkup = true ∧
    (send tinyProtocol (confirmIncomingUDP tinyProtocol openLink idleWorld
        (List.replicate 8 0)).1 idleWorld tinyProtocol.MsgPlayerUpdate 2 (some [9, 8])
        (List.replicate 8 0)).2.trace = [Syscall.sendto 6 [0, 2, 0x70, 0x75, 9, 8] 1] := by
  decide

/-- C25, as stated, fails: on a link in state `Okay` with the datagram socket
open, the only system call of `confirmIncomingUDP` is a `sendto` of the four
header bytes on the datagram socket; nothing is written to the reliable
socket. -/
theorem C25_confirm_on_reliable_counterexample :
    openLink.getState = State.Okay ∧ openLink.urecvfd ≥ 0 ∧
    (confirmIncomingUDP tinyProtocol openLink idleWorld (List.replicate 8 0)).2.trace =
      [Syscall.sendto 6 [0, 0, 0x6f, 0x67] 1] := by
  decide

/-! ## The size of outbound frames -/

/-- The size of the array `msgbuf` after the frame has been built in it: the
array itself when the frame fits, and `len + 4` bytes when the stores ran
past its end. -/
theorem packFrame_length (msgbuf : List Byte) (code len : Nat) (msg : Option (List Byte))
    (h4 : 4 ≤ msgbuf.length) (hmsg : len ≤ (msg.getD []).length) :
    (packFrame msgbuf code len msg).1.length = max msgbuf.length (len + 4) := by
  unfold packFrame
  dsimp only
  rw [pack_header]
  cases msg with
  | none =>
    have hl : len = 0 := by simpa using hmsg
    subst hl
    simp
    omega
  | some m =>
    have hm : len ≤ m.length := by simpa using hmsg
    dsimp only
    split
    · simp [nboPackString, writeAt, Nat.min_eq_left hm]
      omega
    · rename_i h0
      have hl : len = 0 := by simpa using h0
      subst hl
      simp
      omega

/-- The frame-size ceiling on the sending side, for a message whose `len`
payload bytes are behind `msg`: building the frame in the `MaxPacketLen`-byte
array `msgbuf` stays inside the array exactly when `len + 4 <= MaxPacketLen`;
in that case the frame `send` emits in state `Okay`, on either route, is the
`len + 4 <= MaxPacketLen` bytes of the message. -/
theorem send_frame_ceiling (P : Protocol) (L : ServerLink) (W : World)
    (code len : Nat) (msg : Option (List Byte)) (msgbuf : List Byte)
    (hP : 4 ≤ P.MaxPacketLen) (hbuf : msgbuf.length = P.MaxPacketLen)
    (hmsg : len ≤ (msg.getD []).length) :
    ((packFrame msgbuf code len msg).2 ≤ msgbuf.length ↔ len + 4 ≤ P.MaxPacketLen) ∧
    ((packFrame msgbuf code len msg).1.length = msgbuf.length ↔ len + 4 ≤ P.MaxPacketLen) ∧
    (len + 4 ≤ P.MaxPacketLen → L.state = State.Okay →
      ∃ bytes, bytes.length = len + 4 ∧ bytes.length ≤ P.MaxPacketLen ∧
        bytes = Frame.encode ⟨code, len, payloadOf msg len⟩ ∧
        ((send P L W code len msg msgbuf).2.trace =
            W.trace ++ [Syscall.sendto L.urecvfd bytes L.usendaddr] ∨
          (send P L W code len msg msgbuf).2.trace = W.trace ++ [Syscall.send L.fd bytes])) := by
  have hlen := packFrame_length msgbuf code len msg (by omega) hmsg
  have hptr := (packFrame_frame msgbuf code len msg hmsg).2
  refine ⟨?_, ?_, ?_⟩
  · rw [hptr, hbuf]
  · rw [hlen, hbuf]
    omega
  · intro hfit hs
    have hel : (Frame.encode ⟨code, len, payloadOf msg len⟩).length = len + 4 := by
      simp [Frame.encode, payloadOf]
      omega
    refine ⟨_, hel, by omega, rfl, ?_⟩
    rw [send_frame P L W code len msg msgbuf hs hmsg]
    split
    · exact Or.inl rfl
    · exact Or.inr rfl

/-- C26: the frame-size ceiling in `send`, evaluated on the code. `send` has
no check of `len`. With `MaxPacketLen = 8`, a message of `len = 5` payload
bytes is built past the end of the 8-byte array `msgbuf` (the pointer `buf`
ends 9 bytes behind its start) and is emitted: nine bytes are written to the
reliable socket, `len + 4 = 9 > MaxPacketLen`. With the constants of the
game, `len = 1021` ends the pointer 1025 bytes behind the start of the
1024-byte array. -/
theorem C26_send_overruns_msgbuf :
    tinyProtocol.MaxPacketLen = 8 ∧
    (packFrame (List.replicate 8 0) 0x6d67 5 (some [1, 2, 3, 4, 5])).2 = 9 ∧
    (packFrame (List.replicate 8 0) 0x6d67 5 (some [1, 2, 3, 4, 5])).1.length = 9 ∧
    (send tinyProtocol sampleLink idleWorld 0x6d67 5 (some [1, 2, 3, 4, 5])
        (List.replicate 8 0)).2.trace =
      [Syscall.send 5 [0, 5, 0x6d, 0x67, 1, 2, 3, 4, 5]] ∧
    bzflagProtocol.MaxPacketLen = 1024 ∧
    (packFrame (List.replicate 1024 0) 0x6d67 1021 (some (List.replicate 1021 7))).2 = 1025 := by
  decide

/-! ## Datagrams of several frames -/

theorem nboUnpackUShort_at (pre u : List Byte) :
    nboUnpackUShort (pre ++ u) pre.length = (frameLen u, pre.length + 2) ∧
      nboUnpackUShort (pre ++ u) (pre.length + 2) = (frameCode u, pre.length + 4) := by
  unfold nboUnpackUShort frameLen frameCode
  simp only [List.getD_eq_getElem?_getD]
  have e0 : (pre ++ u)[pre.length]? = u[0]? := by
    rw [List.getElem?_append_right (Nat.le_refl _)]; simp
  have e1 : (pre ++ u)[pre.length + 1]? = u[1]? := by
    rw [List.getElem?_append_right (by omega)]; simp
  have e2 : (pre ++ u)[pre.length + 2]? = u[2]? := by
    rw [List.getElem?_append_right (by omega)]; simp
  have e3 : (pre ++ u)[pre.length + 2 + 1]? = u[3]? := by
    rw [List.getElem?_append_right (by omega)]
    congr 1
    omega
  rw [e0, e1, e2, e3]
  exact ⟨rfl, rfl⟩

theorem readAt_append_right (pre u : List Byte) (a n : Nat) :
    readAt (pre ++ u) (pre.length + a) n = readAt u a n := by
  unfold readAt
  rw [← List.drop_drop, List.drop_left]

/-- The decoding of pending datagram bytes that start with a frame `f`: the
frame is delivered and the `k` bytes behind it stay pending. -/
theorem readDatagram_pending (L : ServerLink) (W : World) (msg : List Byte) (n : Nat)
    (f : Frame) (pre tail : List Byte) (k : Nat)
    (hcode : f.code < 65536) (hlen : f.len < 65536) (hpay : f.payload.length = f.len)
    (hu : L.ubuf = pre ++ (f.encode ++ tail)) (hp : L.udpBufferPtr = pre.length)
    (hl : L.udpLength = ((f.encode.length + k : Nat) : Int)) :
    readDatagram L W msg n =
      ⟨1, f.code, f.len, writeAt msg 0 f.payload,
        { L with udpBufferPtr := pre.length + 4 + f.len, udpLength := k }, W⟩ := by
  have henc := encode_length f
  obtain ⟨u1, u2⟩ := nboUnpackUShort_at pre (f.encode ++ tail)
  rw [frameLen_encode f tail hlen] at u1
  rw [frameCode_encode f tail hcode] at u2
  have h3 : readAt L.ubuf (pre.length + 4) f.len = f.payload := by
    rw [hu, readAt_append_right]
    unfold readAt
    rw [← hpay]
    exact encode_payload f tail
  unfold readDatagram
  dsimp only
  rw [hl, hp, hu, u1]
  dsimp only
  rw [u2]
  dsimp only
  rw [if_neg (by omega), if_neg (by omega), ← hu, h3]
  congr 2
  omega

/-- With datagram bytes pending, `read` decodes them and makes no system
call before. -/
theorem read_pending (P : Protocol) (L : ServerLink) (W : World) (msg : List Byte)
    (blockTime : Int) (fuel : Nat) (hs : L.state = State.Okay) (hopen : L.urecvfd ≥ 0)
    (hpend : L.udpLength ≠ 0) :
    read P L W msg blockTime fuel = some (readDatagram L W msg P.MsgNull) := by
  have hpoll : pollUdp P L W = (L, W) := by
    unfold pollUdp
    rw [if_neg hpend]
  have hn : ¬ noDatagram P L W := by
    unfold noDatagram
    rw [hpoll]
    rintro (h | h)
    · omega
    · exact hpend h
  rw [read_datagram P L W msg blockTime fuel hs hn, hpoll]

/-- With datagram bytes pending that start with a frame `f`, `read` delivers
`f` without a system call and leaves the `k` bytes behind it pending. -/
theorem read_pending_frame (P : Protocol) (L : ServerLink) (W : World) (msg : List Byte)
    (blockTime : Int) (fuel : Nat) (f : Frame) (pre tail : List Byte) (k : Nat)
    (hs : L.state = State.Okay) (hopen : L.urecvfd ≥ 0)
    (hcode : f.code < 65536) (hlen : f.len < 65536) (hpay : f.payload.length = f.len)
    (hu : L.ubuf = pre ++ (f.encode ++ tail)) (hp : L.udpBufferPtr = pre.length)
    (hl : L.udpLength = ((f.encode.length + k : Nat) : Int)) :
    read P L W msg blockTime fuel =
      some ⟨1, f.code, f.len, writeAt msg 0 f.payload,
        { L with udpBufferPtr := pre.length + 4 + f.len, udpLength := k }, W⟩ := by
  have henc := encode_length f
  rw [read_pending P L W msg blockTime fuel hs hopen (by rw [hl]; omega),
    readDatagram_pending L W msg P.MsgNull f pre tail k hcode hlen hpay hu hp hl]

/-- C27, as amended: a datagram may carry several frames, and `read` delivers
them one per call. In state `Okay` with the datagram socket open and nothing
pending, when the next datagram of the socket starts with two well-formed
frames `f1` and `f2`, the first `read` returns 1 with `f1` and leaves the rest
of the datagram pending; the next `read` returns 1 with `f2`, decoded from the
pending bytes: it makes no system call (the socket is not polled, the world is
as the first call left it), and what follows `f2` stays pending. -/
theorem C27_datagram_frames_continue (P : Protocol) (L : ServerLink) (W : World)
    (msg msg2 : List Byte) (blockTime blockTime2 : Int) (fuel fuel2 : Nat)
    (f1 f2 : Frame) (tail : List Byte) (rest : List (List Byte))
    (hs : L.state = State.Okay) (hopen : L.urecvfd ≥ 0) (h0 : L.udpLength = 0)
    (hq : W.udpIn = (f1.encode ++ (f2.encode ++ tail)) :: rest)
    (hfit : (f1.encode ++ (f2.encode ++ tail)).length ≤ P.MaxPacketLen)
    (hf1 : f1.wellFormed P) (hf2 : f2.wellFormed P) :
    ∃ r1, read P L W msg blockTime fuel = some r1 ∧
      r1.ret = 1 ∧ r1.code = f1.code ∧ r1.len = f1.len ∧ r1.msg.take f1.len = f1.payload ∧
      r1.link.udpLength = ((f2.encode ++ tail).length : Int) ∧
      r1.world.udpIn = rest ∧
      ∃ r2, read P r1.link r1.world msg2 blockTime2 fuel2 = some r2 ∧
        r2.ret = 1 ∧ r2.code = f2.code ∧ r2.len = f2.len ∧
        r2.msg.take f2.len = f2.payload ∧
        r2.link.udpLength = (tail.length : Int) ∧ r2.world = r1.world := by
  have he1 := encode_length f1
  have he2 := encode_length f2
  have hla : (f1.encode ++ (f2.encode ++ tail)).length =
      f1.encode.length + (f2.encode.length + tail.length) := by
    simp only [List.length_append]
  have hlb : (f2.encode ++ tail).length = f2.encode.length + tail.length := by
    simp only [List.length_append]
  have hpoll := pollUdp_datagram P L W (f1.encode ++ (f2.encode ++ tail)) rest h0 hq
    (by omega) hfit
  have hn : ¬ noDatagram P L W := by
    unfold noDatagram
    rw [hpoll]
    dsimp only
    omega
  have hread := read_datagram P L W msg blockTime fuel hs hn
  rw [hpoll] at hread
  dsimp only at hread
  rw [readDatagram_pending _ _ msg P.MsgNull f1 []
      ((f2.encode ++ tail) ++ L.ubuf.drop (f1.encode ++ (f2.encode ++ tail)).length)
      (f2.encode ++ tail).length hf1.1 hf1.2.1 hf1.2.2.1
      (by simp only [List.nil_append, List.append_assoc]) rfl
      (by show ((f1.encode ++ (f2.encode ++ tail)).length : Int) = _; rw [hla, hlb])] at hread
  have hread2 := read_pending_frame P
      { L with ubuf := f1.encode ++ (f2.encode ++ tail) ++
                  L.ubuf.drop (f1.encode ++ (f2.encode ++ tail)).length,
               udpBufferPtr := ([] : List Byte).length + 4 + f1.len,
               udpLength := ((f2.encode ++ tail).length : Int) }
      { W with udpIn := rest, trace := W.trace ++ [Syscall.recvfrom L.urecvfd P.MaxPacketLen] }
      msg2 blockTime2 fuel2 f2 f1.encode
      (tail ++ L.ubuf.drop (f1.encode ++ (f2.encode ++ tail)).length)
      tail.length hs hopen hf2.1 hf2.2.1 hf2.2.2.1
      (by simp only [List.append_assoc])
      (by show ([] : List Byte).length + 4 + f1.len = f1.encode.length
          rw [he1, hf1.2.2.1]; simp; omega)
      (by show ((f2.encode ++ tail).length : Int) = _; rw [hlb])
  refine ⟨_, hread, rfl, rfl, rfl, ?_, rfl, rfl, _, hread2, rfl, rfl, rfl, ?_, rfl, rfl⟩
  · show (writeAt msg 0 f1.payload).take f1.len = f1.payload
    rw [← hf1.2.2.1]
    exact writeAt_zero_take msg f1.payload
  · show (writeAt msg2 0 f2.payload).take f2.len = f2.payload
    rw [← hf2.2.2.1]
    exact writeAt_zero_take msg2 f2.payload

theorem C27_datagram_frames_continue_witness :
    ∃ r1, read tinyProtocol openLink twoFrameWorld [0, 0, 0, 0] 0 1 = some r1 ∧
      r1.ret = 1 ∧ r1.code = 0x0102 ∧ r1.len = 0 ∧ r1.msg.take 0 = [] ∧
      r1.link.udpLength = ((Frame.encode ⟨0x0304, 0, []⟩ ++ []).length : Int) ∧
      r1.world.udpIn = [[0, 0, 5, 6]] ∧
      ∃ r2, read tinyProtocol r1.link r1.world [0, 0, 0, 0] 0 1 = some r2 ∧
        r2.ret = 1 ∧ r2.code = 0x0304 ∧ r2.len = 0 ∧
        r2.msg.take 0 = [] ∧
        r2.link.udpLength = (([] : List Byte).length : Int) ∧ r2.world = r1.world :=
  C27_datagram_frames_continue tinyProtocol openLink twoFrameWorld [0, 0, 0, 0] [0, 0, 0, 0]
    0 0 1 1 ⟨0x0102, 0, []⟩ ⟨0x0304, 0, []⟩ [] [[0, 0, 5, 6]]
    (by decide) (by decide) (by decide) (by decide) (by decide) (by decide) (by decide)

/-- C27, as stated, fails: the datagram socket holds a datagram of two frames
(codes `0x0102`, `0x0304`) and behind it another datagram (code `0x0506`).
The first `read` delivers `0x0102`; the second `read` delivers `0x0304`, the
bytes that follow the first frame in the same datagram, and does not poll the
socket: the other datagram is still queued and the trace holds the one
`recvfrom` of the first call. -/
theorem C27_one_frame_per_datagram_counterexample :
    (read tinyProtocol openLink twoFrameWorld [0, 0, 0, 0] 0 1).map
        (fun r => (r.ret, r.code, r.link.udpLength)) = some (1, 0x0102, 4) ∧
    ((read tinyProtocol openLink twoFrameWorld [0, 0, 0, 0] 0 1).bind
        (fun r => read tinyProtocol r.link r.world [0, 0, 0, 0] 0 1)).map
        (fun r => (r.ret, r.code, r.world.udpIn, r.world.trace)) =
      some (1, 0x0304, [[0, 0, 5, 6]], [Syscall.recvfrom 6 8]) := by
  decide

/-! ## A version tag in pieces -/

/-- C28, as amended: the version wait ends with the first receive that
returns data. When the connection is established and that receive returns
fewer than 8 bytes (after any number of rounds in which nothing arrives and
the time limit has not passed), the constructor returns with state
`SocketError` and `getSocket() = -1`, whatever the later rounds would have
delivered: it does not poll again. -/
theorem C28_short_version_read_ends_handshake (P : Protocol) (raw : ServerLink) (addr : Nat)
    (E : ConnectEnv) (v : List Byte) (hc : E.connected)
    (hv : versionArrives E.timeout E.versionWait v) (hshort : v.length < 8) :
    ∃ L, ServerLink.construct P raw addr E = some L ∧ L.getState = State.SocketError ∧
      L.getSocket = -1 ∧ L.getState ≠ State.Okay := by
  have hlt : ((v.length : Nat) : Int) < 8 := by omega
  rw [construct_connected P raw addr E hc, versionWait_arrives E.timeout _ E.versionWait v hv]
  dsimp only
  unfold handshakeTail
  rw [if_pos hlt]
  refine ⟨_, rfl, rfl, rfl, ?_⟩
  show State.SocketError ≠ State.Okay
  decide

theorem C28_short_version_read_ends_handshake_witness :
    ∃ L, ServerLink.construct bzflagProtocol sampleLink 1 piecewiseHandshake = some L ∧
      L.getState = State.SocketError ∧ L.getSocket = -1 ∧ L.getState ≠ State.Okay :=
  C28_short_version_read_ends_handshake bzflagProtocol sampleLink 1 piecewiseHandshake
    [66, 90, 70, 83] (by decide)
    ⟨[], ⟨1, RecvOutcome.data [66, 90, 70, 83], 12⟩,
      [⟨1, RecvOutcome.data [48, 50, 50, 49], 20⟩], [66, 90, 70, 83], rfl, by simp,
      by decide, rfl, by decide, by decide⟩
    (by decide)

/-- C28, as stated, fails: the expected tag `BZFS0221` arrives in two pieces
of four bytes, well within the 30 seconds. The constructor ends in
`SocketError` after the first piece, although the same eight bytes in one
piece give `Okay`. -/
theorem C28_version_accumulates_counterexample :
    (ServerLink.construct bzflagProtocol sampleLink 1 piecewiseHandshake).map
        (fun L => (L.getState, L.getSocket)) = some (State.SocketError, -1) ∧
    (ServerLink.construct bzflagProtocol sampleLink 1 sampleHandshake).map
        (fun L => (L.getState, L.getSocket)) = some (State.Okay, 5) := by
  decide

/-! ## A full receive buffer -/

/-- C29: back-pressure cannot stall the stream. When a frame can hold a
header (`4 <= MaxPacketLen`), in every well-formed receive buffer that holds
at least `MaxPacketLen` unconsumed bytes `tcpPacketIn` answers true: it signals
a malformed header and leaves the link as it is, or it consumes one complete
frame. In particular, when the buffer is full (`tcpBufferConsumed = 0`,
`tcpBufferPos = 4 * MaxPacketLen`) `fillTcpReadBuffer` returns 0 without having
read anything and `tcpPacketIn` answers true. -/
theorem C29_back_pressure_cannot_stall (P : Protocol) (L : ServerLink) (W : World)
    (headerBuffer msg : List Byte) (blockTime : Int) (hP : 4 ≤ P.MaxPacketLen)
    (h : bufferInv P L) :
    ((P.MaxPacketLen : Int) ≤ L.tcpBufferPos - L.tcpBufferConsumed →
      (tcpPacketIn P L headerBuffer msg).1 = true ∧
      ((frameLen (unconsumed L) : Int) + 4 > P.MaxPacketLen →
        (tcpPacketIn P L headerBuffer msg).2.2.2 = L) ∧
      ((frameLen (unconsumed L) : Int) + 4 ≤ P.MaxPacketLen →
        (tcpPacketIn P L headerBuffer msg).2.2.2 =
          { L with tcpBufferConsumed :=
              L.tcpBufferConsumed + ((frameLen (unconsumed L) : Int) + 4) })) ∧
    (L.tcpBufferConsumed = 0 → L.tcpBufferPos = sizeofTbuf P →
      fillTcpReadBuffer P L W blockTime = (0, L, W) ∧
      (tcpPacketIn P L headerBuffer msg).1 = true) := by
  have hlen := unconsumed_length P L h
  have key : (P.MaxPacketLen : Int) ≤ L.tcpBufferPos - L.tcpBufferConsumed →
      (tcpPacketIn P L headerBuffer msg).1 = true ∧
      ((frameLen (unconsumed L) : Int) + 4 > P.MaxPacketLen →
        (tcpPacketIn P L headerBuffer msg).2.2.2 = L) ∧
      ((frameLen (unconsumed L) : Int) + 4 ≤ P.MaxPacketLen →
        (tcpPacketIn P L headerBuffer msg).2.2.2 =
          { L with tcpBufferConsumed :=
              L.tcpBufferConsumed + ((frameLen (unconsumed L) : Int) + 4) }) := by
    intro hfull
    have h4 : ¬ (unconsumed L).length < 4 := by omega
    rw [tcpPacketIn_spec P L headerBuffer msg h, if_neg h4]
    by_cases hbig : (frameLen (unconsumed L) : Int) + 4 > P.MaxPacketLen
    · rw [if_pos hbig]
      exact ⟨rfl, fun _ => rfl, fun hc => absurd hbig (by omega)⟩
    · have hall : ¬ (unconsumed L).length < frameLen (unconsumed L) + 4 := by omega
      rw [if_neg hbig, if_neg hall]
      exact ⟨rfl, fun hc => absurd hc hbig, fun _ => rfl⟩
  refine ⟨key, ?_⟩
  intro hc hp
  constructor
  · have hcomp : compactTcpReadBuffer L = L := compact_of_consumed_zero L hc
    have := fill_full P L W blockTime (by rw [hcomp, hp]; omega)
    rw [this, hcomp]
  · refine (key ?_).1
    rw [hc, hp]
    unfold sizeofTbuf
    omega

theorem C29_back_pressure_cannot_stall_witness :
    ((tinyProtocol.MaxPacketLen : Int) ≤ fullLink.tcpBufferPos - fullLink.tcpBufferConsumed →
      (tcpPacketIn tinyProtocol fullLink [0, 0, 0, 0] [0, 0, 0, 0]).1 = true ∧
      ((frameLen (unconsumed fullLink) : Int) + 4 > tinyProtocol.MaxPacketLen →
        (tcpPacketIn tinyProtocol fullLink [0, 0, 0, 0] [0, 0, 0, 0]).2.2.2 = fullLink) ∧
      ((frameLen (unconsumed fullLink) : Int) + 4 ≤ tinyProtocol.MaxPacketLen →
        (tcpPacketIn tinyProtocol fullLink [0, 0, 0, 0] [0, 0, 0, 0]).2.2.2 =
          { fullLink with tcpBufferConsumed :=
              fullLink.tcpBufferConsumed + ((frameLen (unconsumed fullLink) : Int) + 4) })) ∧
    (fullLink.tcpBufferConsumed = 0 → fullLink.tcpBufferPos = sizeofTbuf tinyProtocol →
      fillTcpReadBuffer tinyProtocol fullLink sampleStreamWorld 0 =
        (0, fullLink, sampleStreamWorld) ∧
      (tcpPacketIn tinyProtocol fullLink [0, 0, 0, 0] [0, 0, 0, 0]).1 = true) :=
  C29_back_pressure_cannot_stall tinyProtocol fullLink sampleStreamWorld [0, 0, 0, 0]
    [0, 0, 0, 0] 0 (by decide) (by decide)

/-! ## Delivered payloads -/

theorem sameDatagram_refl (L : ServerLink) : sameDatagram L L := ⟨rfl, rfl, rfl⟩

theorem sameDatagram_trans (A B C : ServerLink) (h1 : sameDatagram A B)
    (h2 : sameDatagram B C) : sameDatagram A C :=
  ⟨h2.1.trans h1.1, h2.2.1.trans h1.2.1, h2.2.2.trans h1.2.2⟩

theorem datagramInv_of_same (P : Protocol) (A B : ServerLink) (h : sameDatagram A B)
    (hA : datagramInv P A) : datagramInv P B := by
  unfold datagramInv at *
  rw [h.1, h.2.1, h.2.2]
  exact hA

theorem fill_sameDatagram (P : Protocol) (L : ServerLink) (W : World) (blockTime : Int) :
    sameDatagram L (fillTcpReadBuffer P L W blockTime).2.1 := by
  obtain ⟨bytes, _, h⟩ := fill_link P L W blockTime
  rw [h, compact_eq]
  exact ⟨rfl, rfl, rfl⟩

/-- What `tcpPacketIn` has done when it answers true. -/
theorem tcpPacketIn_true (P : Protocol) (L : ServerLink) (hdr msg hdr' msg' : List Byte)
    (L' : ServerLink) (h : bufferInv P L)
    (hpk : tcpPacketIn P L hdr msg = (true, hdr', msg', L')) :
    4 ≤ (unconsumed L).length ∧ hdr' = writeAt hdr 0 ((unconsumed L).take 4) ∧
      (((frameLen (unconsumed L) : Int) + 4 > P.MaxPacketLen ∧ msg' = msg ∧ L' = L) ∨
        ((frameLen (unconsumed L) : Int) + 4 ≤ P.MaxPacketLen ∧
          frameLen (unconsumed L) + 4 ≤ (unconsumed L).length ∧
          msg' = writeAt msg 0 (((unconsumed L).drop 4).take (frameLen (unconsumed L))) ∧
          L' = { L with tcpBufferConsumed :=
            L.tcpBufferConsumed + ((frameLen (unconsumed L) : Int) + 4) })) := by
  rw [tcpPacketIn_spec P L hdr msg h] at hpk
  by_cases h4 : (unconsumed L).length < 4
  · rw [if_pos h4] at hpk
    cases hpk
  · rw [if_neg h4] at hpk
    by_cases hbig : (frameLen (unconsumed L) : Int) + 4 > P.MaxPacketLen
    · rw [if_pos hbig] at hpk
      simp only [Prod.mk.injEq, true_and] at hpk
      exact ⟨by omega, hpk.1.symm, Or.inl ⟨hbig, hpk.2.1.symm, hpk.2.2.symm⟩⟩
    · rw [if_neg hbig] at hpk
      by_cases hall : (unconsumed L).length < frameLen (unconsumed L) + 4
      · rw [if_pos hall] at hpk
        cases hpk
      · rw [if_neg hall] at hpk
        simp only [Prod.mk.injEq, true_and] at hpk
        refine ⟨by omega, hpk.1.symm, Or.inr ⟨by omega, by omega, ?_, hpk.2.2.symm⟩⟩
        rw [← hpk.2.1]
        by_cases h0 : frameLen (unconsumed L) ≠ 0
        · rw [if_pos h0]
        · rw [if_neg h0]
          have hz : frameLen (unconsumed L) = 0 := not_not.mp h0
          rw [hz, List.take_zero, writeAt_nil]

/-- What `tcpPacketIn` has done when it answers false: nothing to the link
and nothing to `msg`. -/
theorem tcpPacketIn_false (P : Protocol) (L : ServerLink) (hdr msg hdr' msg' : List Byte)
    (L' : ServerLink) (h : bufferInv P L)
    (hpk : tcpPacketIn P L hdr msg = (false, hdr', msg', L')) : msg' = msg ∧ L' = L := by
  rw [tcpPacketIn_spec P L hdr msg h] at hpk
  by_cases h4 : (unconsumed L).length < 4
  · rw [if_pos h4] at hpk
    simp only [Prod.mk.injEq, true_and] at hpk
    exact ⟨hpk.2.1.symm, hpk.2.2.symm⟩
  · rw [if_neg h4] at hpk
    by_cases hbig : (frameLen (unconsumed L) : Int) + 4 > P.MaxPacketLen
    · rw [if_pos hbig] at hpk
      cases hpk
    · rw [if_neg hbig] at hpk
      by_cases hall : (unconsumed L).length < frameLen (unconsumed L) + 4
      · rw [if_pos hall] at hpk
        simp only [Prod.mk.injEq, true_and] at hpk
        exact ⟨hpk.2.1.symm, hpk.2.2.symm⟩
      · rw [if_neg hall] at hpk
        cases hpk

/-- The result of the reliable path once `tcpPacketIn` has answered true and
the header is admissible. -/
theorem packet_delivers (P : Protocol) (L : ServerLink) (W : World)
    (hdr msg hdr' msg' : List Byte) (L' : ServerLink) (h : bufferInv P L)
    (hpk : tcpPacketIn P L hdr msg = (true, hdr', msg', L'))
    (hret : (readHeader P L' W hdr' msg').ret = 1) :
    ((readHeader P L' W hdr' msg').len : Int) ≤ (P.MaxPacketLen : Int) - 4 ∧
      deliveredFromBuffer P msg (readHeader P L' W hdr' msg') ∧
      sameDatagram L (readHeader P L' W hdr' msg').link ∧
      bufferInv P (readHeader P L' W hdr' msg').link := by
  obtain ⟨h4, hhdr, hcase⟩ := tcpPacketIn_true P L hdr msg hdr' msg' L' h hpk
  have hlen := unconsumed_length P L h
  subst hhdr
  rw [readHeader_spec P L' W hdr msg' (unconsumed L) h4] at hret ⊢
  by_cases hbig : (frameLen (unconsumed L) : Int) > (P.MaxPacketLen : Int) - 4
  · rw [if_pos hbig] at hret
    exact absurd (show (-1 : Int) = 1 from hret) (by decide)
  · rw [if_neg hbig]
    rcases hcase with ⟨hover, _, _⟩ | ⟨hok, hall, hmsg, hL⟩
    · omega
    · subst hmsg hL
      obtain ⟨⟨h0, h1, h2⟩, h3⟩ := h
      refine ⟨?_, ⟨L, ⟨⟨h0, h1, h2⟩, h3⟩, hall, rfl, rfl, rfl⟩, ⟨rfl, rfl, rfl⟩,
        ⟨⟨?_, ?_, h2⟩, h3⟩⟩
      · show ((frameLen (unconsumed L) : Nat) : Int) ≤ (P.MaxPacketLen : Int) - 4
        omega
      · show 0 ≤ L.tcpBufferConsumed + ((frameLen (unconsumed L) : Int) + 4)
        omega
      · show L.tcpBufferConsumed + ((frameLen (unconsumed L) : Int) + 4) ≤ L.tcpBufferPos
        omega

theorem readLoop_delivers (P : Protocol) (blockTime : Int) (fuel : Nat) :
    ∀ (L : ServerLink) (W : World) (hdr msg : List Byte) (r : ReadResult),
      bufferInv P L → readLoop P blockTime fuel L W hdr msg = some r → r.ret = 1 →
      (r.len : Int) ≤ (P.MaxPacketLen : Int) - 4 ∧ deliveredFromBuffer P msg r ∧
        sameDatagram L r.link ∧ bufferInv P r.link := by
  induction fuel with
  | zero => intro L W hdr msg r _ h; simp [readLoop] at h
  | succ n ih =>
    intro L W hdr msg r hinv h hret
    rw [readLoop] at h
    obtain ⟨_, _, hinv1, _⟩ := fill_unconsumed P L W blockTime hinv
    have hsd := fill_sameDatagram P L W blockTime
    rcases hfe : fillTcpReadBuffer P L W blockTime with ⟨ret, L1, W1⟩
    rw [hfe] at h hinv1 hsd
    dsimp only at h hinv1 hsd
    by_cases hr : ret < 0
    · rw [if_pos hr] at h
      cases h
      exact absurd (show (-1 : Int) = 1 from hret) (by decide)
    · rw [if_neg hr] at h
      rcases hte : tcpPacketIn P L1 hdr msg with ⟨b, hdr2, msg2, L2⟩
      rw [hte] at h
      cases b with
      | true =>
        dsimp only at h
        cases h
        obtain ⟨a1, a2, a3, a4⟩ := packet_delivers P L1 W1 hdr msg hdr2 msg2 L2 hinv1 hte hret
        exact ⟨a1, a2, sameDatagram_trans _ _ _ hsd a3, a4⟩
      | false =>
        dsimp only at h
        obtain ⟨hm, hL⟩ := tcpPacketIn_false P L1 hdr msg hdr2 msg2 L2 hinv1 hte
        subst hm hL
        by_cases hb : blockTime ≥ 0
        · rw [if_pos hb] at h
          cases h
          exact absurd (show (0 : Int) = 1 from hret) (by decide)
        · rw [if_neg hb] at h
          obtain ⟨a1, a2, a3, a4⟩ := ih _ _ _ _ _ hinv1 h hret
          exact ⟨a1, a2, sameDatagram_trans _ _ _ hsd a3, a4⟩

theorem readTcp_delivers (P : Protocol) (L : ServerLink) (W : World) (msg : List Byte)
    (blockTime : Int) (fuel : Nat) (r : ReadResult) (hinv : bufferInv P L)
    (h : readTcp P L W msg blockTime fuel = some r) (hret : r.ret = 1) :
    (r.len : Int) ≤ (P.MaxPacketLen : Int) - 4 ∧ deliveredFromBuffer P msg r ∧
      sameDatagram L r.link ∧ bufferInv P r.link := by
  unfold readTcp at h
  dsimp only at h
  rcases hte : tcpPacketIn P L [0, 0, 0, 0] msg with ⟨b, hdr2, msg2, L2⟩
  rw [hte] at h
  cases b with
  | true =>
    dsimp only at h
    cases h
    exact packet_delivers P L W [0, 0, 0, 0] msg hdr2 msg2 L2 hinv hte hret
  | false =>
    dsimp only at h
    obtain ⟨hm, hL⟩ := tcpPacketIn_false P L [0, 0, 0, 0] msg hdr2 msg2 L2 hinv hte
    subst hm hL
    exact readLoop_delivers P blockTime fuel _ _ _ _ _ hinv h hret

theorem getD_readAt (mem : List Byte) (off n i : Nat) (h : i < n) :
    (readAt mem off n).getD i 0 = mem.getD (off + i) 0 := by
  unfold readAt
  simp [List.getD_eq_getElem?_getD, List.getElem?_take, h]

theorem pollUdp_datagramInv (P : Protocol) (L : ServerLink) (W : World)
    (hd : datagramInv P L) : datagramInv P (pollUdp P L W).1 := by
  obtain ⟨h0, h1, h2⟩ := hd
  unfold pollUdp
  by_cases hz : L.udpLength = 0
  · rw [if_pos hz]
    unfold World.recvfrom
    cases hq : W.udpIn with
    | nil =>
      dsimp only
      rw [if_neg (by decide)]
      exact ⟨h0, h1, h2⟩
    | cons d rest =>
      dsimp only
      have hle : (d.take P.MaxPacketLen).length ≤ P.MaxPacketLen := by
        rw [List.length_take]; omega
      by_cases hn : ((d.take P.MaxPacketLen).length : Int) > 0
      · rw [if_pos hn]
        refine ⟨by show (0 : Int) ≤ ((d.take P.MaxPacketLen).length : Int); omega, ?_, ?_⟩
        · show ((0 : Nat) : Int) + ((d.take P.MaxPacketLen).length : Int) ≤ P.MaxPacketLen
          omega
        · show (writeAt L.ubuf 0 (d.take P.MaxPacketLen)).length = P.MaxPacketLen
          rw [writeAt_length _ _ _ (by omega)]
          exact h2
      · rw [if_neg hn]
        exact ⟨h0, h1, h2⟩
  · rw [if_neg hz]
    exact ⟨h0, h1, h2⟩

/-- The result of the datagram path when it is 1. -/
theorem readDatagram_delivers (P : Protocol) (L : ServerLink) (W : World) (msg : List Byte)
    (n : Nat) (hd : datagramInv P L) (hret : (readDatagram L W msg n).ret = 1) :
    ((readDatagram L W msg n).len : Int) ≤ (P.MaxPacketLen : Int) - 4 ∧
      deliveredFromDatagram L msg (readDatagram L W msg n) ∧
      datagramInv P (readDatagram L W msg n).link := by
  obtain ⟨h0, h1, h2⟩ := hd
  have hu : nboUnpackUShort L.ubuf L.udpBufferPtr =
      ((L.ubuf.getD L.udpBufferPtr 0).val * 256 + (L.ubuf.getD (L.udpBufferPtr + 1) 0).val,
        L.udpBufferPtr + 2) := rfl
  unfold readDatagram at hret ⊢
  dsimp only at hret ⊢
  by_cases hshort : L.udpLength - 4 < 0
  · rw [if_pos hshort] at hret
    exact absurd (show (-1 : Int) = 1 from hret) (by decide)
  · rw [if_neg hshort] at hret ⊢
    rw [hu] at hret ⊢
    dsimp only at hret ⊢
    have hpl : (pendingDatagram L).length = L.udpLength.toNat := by
      unfold pendingDatagram
      rw [readAt_length]
      omega
    have hfl : frameLen (pendingDatagram L) =
        (L.ubuf.getD L.udpBufferPtr 0).val * 256 +
          (L.ubuf.getD (L.udpBufferPtr + 1) 0).val := by
      unfold frameLen pendingDatagram
      rw [getD_readAt _ _ _ 0 (by omega), getD_readAt _ _ _ 1 (by omega)]
      rfl
    generalize (L.ubuf.getD L.udpBufferPtr 0).val * 256 +
      (L.ubuf.getD (L.udpBufferPtr + 1) 0).val = len0 at hret hfl ⊢
    by_cases hlong : (len0 : Int) > L.udpLength - 4
    · rw [if_pos hlong] at hret
      exact absurd (show (-1 : Int) = 1 from hret) (by decide)
    · rw [if_neg hlong]
      refine ⟨?_, ⟨?_, ?_, ?_, ?_⟩, ?_, ?_, h2⟩
      · show (len0 : Int) ≤ (P.MaxPacketLen : Int) - 4
        omega
      · show len0 + 4 ≤ (pendingDatagram L).length
        rw [hpl]
        omega
      · exact hfl.symm
      · show writeAt msg 0 (readAt L.ubuf (L.udpBufferPtr + 2 + 2) len0) =
          writeAt msg 0 (((pendingDatagram L).drop 4).take len0)
        unfold pendingDatagram
        rw [← readAt_drop_take L.ubuf L.udpBufferPtr L.udpLength.toNat 4 len0 (by omega)]
      · show readAt L.ubuf (L.udpBufferPtr + 2 + 2 + len0) (L.udpLength - 4 - (len0 : Int)).toNat =
          (readAt L.ubuf L.udpBufferPtr L.udpLength.toNat).drop (len0 + 4)
        unfold readAt
        rw [List.drop_take, List.drop_drop]
        congr 1
        · omega
        · congr 1
          omega
      · show (0 : Int) ≤ L.udpLength - 4 - (len0 : Int)
        omega
      · show ((L.udpBufferPtr + 2 + 2 + len0 : Nat) : Int) + (L.udpLength - 4 - (len0 : Int)) ≤
          P.MaxPacketLen
        push_cast
        omega

theorem delivered_length (u : List Byte) (len : Nat) (h : len + 4 ≤ u.length) :
    ((u.drop 4).take len).length = len := by
  rw [List.length_take, List.length_drop]
  omega

/-- After the poll of the datagram socket the pending bytes are the datagram
received, when none was pending before and the datagram fits `ubuf`. -/
theorem pollUdp_pending (P : Protocol) (L : ServerLink) (W : World) (d : List Byte)
    (rest : List (List Byte)) (h0 : L.udpLength = 0) (hq : W.udpIn = d :: rest)
    (hd : 0 < d.length) (hfit : d.length ≤ P.MaxPacketLen) :
    pendingDatagram (pollUdp P L W).1 = d := by
  rw [pollUdp_datagram P L W d rest h0 hq hd hfit]
  unfold pendingDatagram readAt
  simp

/-- With datagram bytes pending the poll leaves them as they are. -/
theorem pollUdp_keeps_pending (P : Protocol) (L : ServerLink) (W : World)
    (hpend : L.udpLength ≠ 0) : pollUdp P L W = (L, W) := by
  unfold pollUdp
  rw [if_neg hpend]

/-- C30: delivered payloads fit the caller's buffer. For a link whose receive
buffer and datagram members are well formed (as the constructor leaves them
and every call keeps them), whenever `read` returns 1, on the datagram path
(also for a frame that is not the first of its datagram) or on the reliable
path: the reported `len` is at most `MaxPacketLen - 4`; `msg` has been
overwritten from its start with exactly `len` bytes; these are the `len` bytes
behind the 4-byte header of the frame, all of them inside the pending bytes of
the datagram, or inside the unconsumed bytes of the receive buffer. Both
members are well formed afterwards. -/
theorem C30_delivered_payload_fits (P : Protocol) (L : ServerLink) (W : World)
    (msg : List Byte) (blockTime : Int) (fuel : Nat) (r : ReadResult)
    (hb : bufferInv P L) (hd : datagramInv P L)
    (hread : read P L W msg blockTime fuel = some r) (hret : r.ret = 1) :
    (r.len : Int) ≤ (P.MaxPacketLen : Int) - 4 ∧
    (∃ payload : List Byte, payload.length = r.len ∧ r.msg = writeAt msg 0 payload) ∧
    (deliveredFromDatagram (pollUdp P L W).1 msg r ∨ deliveredFromBuffer P msg r) ∧
    bufferInv P r.link ∧ datagramInv P r.link := by
  have fromBuffer : ∀ (L1 : ServerLink), bufferInv P L1 → datagramInv P L1 →
      ((r.len : Int) ≤ (P.MaxPacketLen : Int) - 4 ∧ deliveredFromBuffer P msg r ∧
        sameDatagram L1 r.link ∧ bufferInv P r.link) →
      (r.len : Int) ≤ (P.MaxPacketLen : Int) - 4 ∧
      (∃ payload : List Byte, payload.length = r.len ∧ r.msg = writeAt msg 0 payload) ∧
      (deliveredFromDatagram (pollUdp P L W).1 msg r ∨ deliveredFromBuffer P msg r) ∧
      bufferInv P r.link ∧ datagramInv P r.link := by
    intro L1 _ hd1 ⟨a1, a2, a3, a4⟩
    obtain ⟨L0, _, hfit, _, hmsg, _⟩ := a2
    exact ⟨a1, ⟨_, delivered_length _ _ hfit, hmsg⟩, Or.inr ⟨L0, ‹_›, hfit, ‹_›, hmsg, ‹_›⟩, a4,
      datagramInv_of_same P L1 r.link a3 hd1⟩
  unfold read at hread
  by_cases hs : L.state ≠ State.Okay
  · rw [if_pos hs] at hread
    cases hread
    exact absurd (show (-1 : Int) = 1 from hret) (by decide)
  · rw [if_neg hs] at hread
    by_cases hu : L.urecvfd ≥ 0
    · rw [if_pos hu] at hread
      have hp := pollUdp_tcp P L W
      have hdp := pollUdp_datagramInv P L W hd
      rcases hpe : pollUdp P L W with ⟨L1, W1⟩
      rw [hpe] at hread hp hdp
      dsimp only at hread hp hdp
      have hb1 : bufferInv P L1 := bufferInv_congr P L1 L hp.2.2.1 hp.1 hp.2.1 hb
      by_cases hl : L1.udpLength ≠ 0
      · rw [if_pos hl] at hread
        cases hread
        obtain ⟨a1, a2, a3⟩ := readDatagram_delivers P L1 W1 msg P.MsgNull hdp hret
        obtain ⟨t1, t2, t3, _⟩ := readDatagram_tcp L1 W1 msg P.MsgNull
        exact ⟨a1, ⟨_, delivered_length _ _ a2.1, a2.2.2.1⟩, Or.inl a2,
          bufferInv_congr P _ L1 t3 t1 t2 hb1, a3⟩
      · rw [if_neg hl] at hread
        have hres := fromBuffer L1 hb1 hdp (readTcp_delivers P L1 W1 msg 0 fuel r hb1 hread hret)
        rw [hpe] at hres
        exact hres
    · rw [if_neg hu] at hread
      exact fromBuffer L hb hd (readTcp_delivers P L W msg blockTime fuel r hb hread hret)

theorem C30_delivered_payload_fits_witness :
    ((2 : Nat) : Int) ≤ (tinyProtocol.MaxPacketLen : Int) - 4 ∧
    (∃ payload : List Byte, payload.length = 2 ∧
      [5, 6, 0, 0] = writeAt [0, 0, 0, 0] 0 payload) ∧
    (deliveredFromDatagram (pollUdp tinyProtocol openLink datagramWorld).1 [0, 0, 0, 0]
        ⟨1, 0x6d67, 2, [5, 6, 0, 0],
          { openLink with udpLength := 0, udpBufferPtr := 6,
                          ubuf := [0, 2, 0x6d, 0x67, 5, 6, 0, 0] },
          { datagramWorld with udpIn := [], trace := [Syscall.recvfrom 6 8] }⟩ ∨
      deliveredFromBuffer tinyProtocol [0, 0, 0, 0]
        ⟨1, 0x6d67, 2, [5, 6, 0, 0],
          { openLink with udpLength := 0, udpBufferPtr := 6,
                          ubuf := [0, 2, 0x6d, 0x67, 5, 6, 0, 0] },
          { datagramWorld with udpIn := [], trace := [Syscall.recvfrom 6 8] }⟩) ∧
    bufferInv tinyProtocol
      { openLink with udpLength := 0, udpBufferPtr := 6,
                      ubuf := [0, 2, 0x6d, 0x67, 5, 6, 0, 0] } ∧
    datagramInv tinyProtocol
      { openLink with udpLength := 0, udpBufferPtr := 6,
                      ubuf := [0, 2, 0x6d, 0x67, 5, 6, 0, 0] } :=
  C30_delivered_payload_fits tinyProtocol openLink datagramWorld [0, 0, 0, 0] 0 1
    ⟨1, 0x6d67, 2, [5, 6, 0, 0],
      { openLink with udpLength := 0, udpBufferPtr := 6,
                      ubuf := [0, 2, 0x6d, 0x67, 5, 6, 0, 0] },
      { datagramWorld with udpIn := [], trace := [Syscall.recvfrom 6 8] }⟩
    (by decide) (by decide) (by decide) rfl

/-! ## The buffer invariants on every link a session reaches -/

theorem tcpPacketIn_inv (P : Protocol) (L : ServerLink) (hdr msg : List Byte)
    (h : bufferInv P L) :
    bufferInv P (tcpPacketIn P L hdr msg).2.2.2 ∧
      sameDatagram L (tcpPacketIn P L hdr msg).2.2.2 := by
  have hlen := unconsumed_length P L h
  rw [tcpPacketIn_spec P L hdr msg h]
  split
  · exact ⟨h, sameDatagram_refl L⟩
  · split
    · exact ⟨h, sameDatagram_refl L⟩
    · split
      · exact ⟨h, sameDatagram_refl L⟩
      · obtain ⟨⟨h0, h1, h2⟩, h3⟩ := h
        refine ⟨⟨⟨?_, ?_, h2⟩, h3⟩, ⟨rfl, rfl, rfl⟩⟩
        · show 0 ≤ L.tcpBufferConsumed + ((frameLen (unconsumed L) : Int) + 4)
          omega
        · show L.tcpBufferConsumed + ((frameLen (unconsumed L) : Int) + 4) ≤ L.tcpBufferPos
          omega

theorem readLoop_inv (P : Protocol) (blockTime : Int) (fuel : Nat) :
    ∀ (L : ServerLink) (W : World) (hdr msg : List Byte) (r : ReadResult),
      bufferInv P L → readLoop P blockTime fuel L W hdr msg = some r →
      bufferInv P r.link ∧ sameDatagram L r.link := by
  induction fuel with
  | zero => intro L W hdr msg r _ h; simp [readLoop] at h
  | succ n ih =>
    intro L W hdr msg r hinv h
    rw [readLoop] at h
    obtain ⟨_, _, hinv1, _⟩ := fill_unconsumed P L W blockTime hinv
    have hsd := fill_sameDatagram P L W blockTime
    rcases hfe : fillTcpReadBuffer P L W blockTime with ⟨ret, L1, W1⟩
    rw [hfe] at h hinv1 hsd
    dsimp only at h hinv1 hsd
    by_cases hr : ret < 0
    · rw [if_pos hr] at h
      cases h
      exact ⟨hinv1, hsd⟩
    · rw [if_neg hr] at h
      have ht := tcpPacketIn_inv P L1 hdr msg hinv1
      rcases hte : tcpPacketIn P L1 hdr msg with ⟨b, hdr2, msg2, L2⟩
      rw [hte] at h ht
      dsimp only at ht
      cases b with
      | true =>
        dsimp only at h
        cases h
        rw [(readHeader_link P L2 W1 hdr2 msg2).1]
        exact ⟨ht.1, sameDatagram_trans _ _ _ hsd ht.2⟩
      | false =>
        dsimp only at h
        by_cases hb : blockTime ≥ 0
        · rw [if_pos hb] at h
          cases h
          exact ⟨ht.1, sameDatagram_trans _ _ _ hsd ht.2⟩
        · rw [if_neg hb] at h
          obtain ⟨a1, a2⟩ := ih _ _ _ _ _ ht.1 h
          exact ⟨a1, sameDatagram_trans _ _ _ (sameDatagram_trans _ _ _ hsd ht.2) a2⟩

theorem readTcp_inv (P : Protocol) (L : ServerLink) (W : World) (msg : List Byte)
    (blockTime : Int) (fuel : Nat) (r : ReadResult) (hinv : bufferInv P L)
    (h : readTcp P L W msg blockTime fuel = some r) :
    bufferInv P r.link ∧ sameDatagram L r.link := by
  unfold readTcp at h
  dsimp only at h
  have ht := tcpPacketIn_inv P L [0, 0, 0, 0] msg hinv
  rcases hte : tcpPacketIn P L [0, 0, 0, 0] msg with ⟨b, hdr2, msg2, L2⟩
  rw [hte] at h ht
  dsimp only at ht
  cases b with
  | true =>
    dsimp only at h
    cases h
    rw [(readHeader_link P L2 W hdr2 msg2).1]
    exact ht
  | false =>
    dsimp only at h
    obtain ⟨a1, a2⟩ := readLoop_inv P blockTime fuel _ _ _ _ _ ht.1 h
    exact ⟨a1, sameDatagram_trans _ _ _ ht.2 a2⟩

theorem readDatagram_datagramInv (P : Protocol) (L : ServerLink) (W : World)
    (msg : List Byte) (n : Nat) (hd : datagramInv P L) :
    datagramInv P (readDatagram L W msg n).link := by
  obtain ⟨h0, h1, h2⟩ := hd
  unfold readDatagram
  dsimp only
  split
  · exact ⟨Int.le_refl 0, by show ((L.udpBufferPtr : Nat) : Int) + 0 ≤ _; omega, h2⟩
  · rename_i hshort
    split
    · refine ⟨Int.le_refl 0, ?_, h2⟩
      show (((nboUnpackUShort L.ubuf (nboUnpackUShort L.ubuf L.udpBufferPtr).2).2 : Nat) : Int) +
        0 ≤ _
      show ((L.udpBufferPtr + 2 + 2 : Nat) : Int) + 0 ≤ _
      push_cast
      omega
    · rename_i hlong
      have hlong' : ¬ (((nboUnpackUShort L.ubuf L.udpBufferPtr).1 : Nat) : Int) >
          L.udpLength - 4 := hlong
      refine ⟨?_, ?_, h2⟩
      · show (0 : Int) ≤ L.udpLength - 4 - ((nboUnpackUShort L.ubuf L.udpBufferPtr).1 : Int)
        omega
      · show ((L.udpBufferPtr + 2 + 2 + (nboUnpackUShort L.ubuf L.udpBufferPtr).1 : Nat) : Int) +
          (L.udpLength - 4 - ((nboUnpackUShort L.ubuf L.udpBufferPtr).1 : Int)) ≤ _
        push_cast
        omega

/-- Every call of `read` that returns keeps the receive buffer and the
datagram members well formed. -/
theorem read_invariants (P : Protocol) (L : ServerLink) (W : World) (msg : List Byte)
    (blockTime : Int) (fuel : Nat) (r : ReadResult) (hb : bufferInv P L)
    (hd : datagramInv P L) (h : read P L W msg blockTime fuel = some r) :
    bufferInv P r.link ∧ datagramInv P r.link := by
  unfold read at h
  by_cases hs : L.state ≠ State.Okay
  · rw [if_pos hs] at h
    cases h
    exact ⟨hb, hd⟩
  · rw [if_neg hs] at h
    by_cases hu : L.urecvfd ≥ 0
    · rw [if_pos hu] at h
      have hp := pollUdp_tcp P L W
      have hdp := pollUdp_datagramInv P L W hd
      rcases hpe : pollUdp P L W with ⟨L1, W1⟩
      rw [hpe] at h hp hdp
      dsimp only at h hp hdp
      have hb1 : bufferInv P L1 := bufferInv_congr P L1 L hp.2.2.1 hp.1 hp.2.1 hb
      by_cases hl : L1.udpLength ≠ 0
      · rw [if_pos hl] at h
        cases h
        obtain ⟨t1, t2, t3, _⟩ := readDatagram_tcp L1 W1 msg P.MsgNull
        exact ⟨bufferInv_congr P _ L1 t3 t1 t2 hb1,
          readDatagram_datagramInv P L1 W1 msg P.MsgNull hdp⟩
      · rw [if_neg hl] at h
        obtain ⟨a1, a2⟩ := readTcp_inv P L1 W1 msg 0 fuel r hb1 h
        exact ⟨a1, datagramInv_of_same P L1 r.link a2 hdp⟩
    · rw [if_neg hu] at h
      obtain ⟨a1, a2⟩ := readTcp_inv P L W msg blockTime fuel r hb h
      exact ⟨a1, datagramInv_of_same P L r.link a2 hd⟩

/-- The constructor leaves the receive buffer and the datagram members well
formed. -/
theorem construct_invariants (P : Protocol) (raw : ServerLink) (addr : Nat) (E : ConnectEnv)
    (L : ServerLink) (h : ServerLink.construct P raw addr E = some L) :
    bufferInv P L ∧ datagramInv P L := by
  have hd : datagramInv P L := by
    unfold ServerLink.construct at h
    dsimp only at h
    repeat' split at h
    all_goals first
      | (cases h
         exact ⟨Int.le_refl 0, by show ((0 : Nat) : Int) + 0 ≤ _; omega, by
           show (List.replicate P.MaxPacketLen (0 : Byte)).length = _
           simp⟩)
      | (exfalso; exact Option.noConfusion h)
  obtain ⟨h1, h2, h3⟩ := construct_buffer P raw addr E L h
  refine ⟨⟨⟨?_, ?_, ?_⟩, ?_⟩, hd⟩
  · rw [h2]
  · rw [h1, h2]
  · rw [h1]; unfold sizeofTbuf; omega
  · rw [h3]; unfold sizeofTbuf; simp

theorem invariants_congr (P : Protocol) (A B : ServerLink) (h1 : B.tbuf = A.tbuf)
    (h2 : B.tcpBufferPos = A.tcpBufferPos) (h3 : B.tcpBufferConsumed = A.tcpBufferConsumed)
    (h4 : sameDatagram A B) (hA : bufferInv P A ∧ datagramInv P A) :
    bufferInv P B ∧ datagramInv P B :=
  ⟨bufferInv_congr P B A h1 h2 h3 hA.1, datagramInv_of_same P A B h4 hA.2⟩

theorem sendUDPlinkRequest_buffers (P : Protocol) (L : ServerLink) (W : World) (E : UdpEnv)
    (msgbuf : List Byte) :
    (sendUDPlinkRequest P L W E msgbuf).1.tbuf = L.tbuf ∧
      (sendUDPlinkRequest P L W E msgbuf).1.tcpBufferPos = L.tcpBufferPos ∧
      (sendUDPlinkRequest P L W E msgbuf).1.tcpBufferConsumed = L.tcpBufferConsumed ∧
      sameDatagram L (sendUDPlinkRequest P L W E msgbuf).1 := by
  unfold sendUDPlinkRequest
  split
  · exact ⟨rfl, rfl, rfl, sameDatagram_refl L⟩
  · dsimp only
    split
    · exact ⟨rfl, rfl, rfl, rfl, rfl, rfl⟩
    · split
      · exact ⟨rfl, rfl, rfl, rfl, rfl, rfl⟩
      · split
        · exact ⟨rfl, rfl, rfl, rfl, rfl, rfl⟩
        · rw [send_link]
          exact ⟨rfl, rfl, rfl, rfl, rfl, rfl⟩

theorem exec_invariants (P : Protocol) (c : Call) (L : ServerLink) (W : World)
    (L1 : ServerLink) (W1 : World) (h : c.exec P L W = some (L1, W1))
    (hL : bufferInv P L ∧ datagramInv P L) : bufferInv P L1 ∧ datagramInv P L1 := by
  cases c with
  | send code len msg msgbuf =>
    simp only [Call.exec, Option.some.injEq] at h
    have hl := send_link P L W code len msg msgbuf
    rw [h] at hl
    have hl' : L1 = L := hl
    rw [hl']
    exact hL
  | read msg blockTime fuel =>
    simp only [Call.exec] at h
    cases hr : read P L W msg blockTime fuel with
    | none => rw [hr] at h; cases h
    | some r =>
      rw [hr] at h
      cases h
      exact read_invariants P L W msg blockTime fuel r hL.1 hL.2 hr
  | fillTcpReadBuffer blockTime =>
    simp only [Call.exec, Option.some.injEq] at h
    obtain ⟨_, _, hinv1, _⟩ := fill_unconsumed P L W blockTime hL.1
    have hsd := fill_sameDatagram P L W blockTime
    rw [h] at hinv1 hsd
    exact ⟨hinv1, datagramInv_of_same P L L1 hsd hL.2⟩
  | tcpPacketIn hdr msg =>
    simp only [Call.exec, Option.some.injEq, Prod.mk.injEq] at h
    rw [← h.1]
    obtain ⟨a1, a2⟩ := tcpPacketIn_inv P L hdr msg hL.1
    exact ⟨a1, datagramInv_of_same P L _ a2 hL.2⟩
  | sendUDPlinkRequest E msgbuf =>
    simp only [Call.exec, Option.some.injEq] at h
    obtain ⟨a1, a2, a3, a4⟩ := sendUDPlinkRequest_buffers P L W E msgbuf
    rw [h] at a1 a2 a3 a4
    exact invariants_congr P L L1 a1 a2 a3 a4 hL
  | enableOutboundUDP =>
    simp only [Call.exec, Option.some.injEq, Prod.mk.injEq] at h
    rw [← h.1]
    exact invariants_congr P L _ rfl rfl rfl ⟨rfl, rfl, rfl⟩ hL
  | confirmIncomingUDP msgbuf =>
    simp only [Call.exec, Option.some.injEq] at h
    have hl : (confirmIncomingUDP P L W msgbuf).1 = { L with ulinkup := true } := by
      unfold confirmIncomingUDP
      dsimp only
      rw [send_link]
    rw [h] at hl
    have hl' : L1 = { L with ulinkup := true } := hl
    rw [hl']
    exact invariants_congr P L _ rfl rfl rfl ⟨rfl, rfl, rfl⟩ hL

/-- Every link reached from the constructor by calls of the methods has a
well-formed receive buffer and well-formed datagram members. -/
theorem runCalls_invariants (P : Protocol) (calls : List Call) :
    ∀ (L : ServerLink) (W : World) (L1 : ServerLink) (W1 : World),
      runCalls P calls L W = some (L1, W1) → bufferInv P L ∧ datagramInv P L →
      bufferInv P L1 ∧ datagramInv P L1 := by
  induction calls with
  | nil =>
    intro L W L1 W1 h hL
    simp only [runCalls, Option.some.injEq, Prod.mk.injEq] at h
    rw [← h.1]
    exact hL
  | cons c cs ih =>
    intro L W L1 W1 h hL
    rw [runCalls] at h
    cases he : c.exec P L W with
    | none => rw [he] at h; cases h
    | some r =>
      obtain ⟨L2, W2⟩ := r
      rw [he] at h
      exact ih L2 W2 L1 W1 h (exec_invariants P c L W L2 W2 he hL)

end BZFlag
